import Mathlib

/-!
# Expense approval workflow (server.js)

A shallow embedding of the approval-flow construction (`getApprovalFlow`), the
submission handler (`POST /api/expenses`) and the approval-action handler
(`POST /api/approvals/:id/action`) of `server.js`, with the database tables
they touch modelled as lists of rows, followed by the properties proved about
them.

Every SQL statement of a handler is one list operation: a `SELECT ... WHERE`
is a `filter`, `rows[0]` is the head of the filtered list, an
`UPDATE ... SET ... WHERE` is a `map` that rewrites the matching rows, an
`INSERT` appends a row.  `NOW()` is a parameter of the handler.  A handler that
throws inside its `try` block rolls the transaction back, so it returns an
error and the caller keeps the state it had.

What the sources do not contain is a parameter: the option `decimalNumbers` of
the connection pool (`config/database.js`), which decides whether the driver
hands a `SUM(...)` over as a number or as a string, and what the database
schema accepts in a row.  The numbers of the currency conversion are kept
abstract, apart from NaN.
-/

namespace ExpenseManag

/-! ## Data model -/

/-- Values of the `status` column of `expenses` and of `approval_requests`. -/
inductive Status where
  | pending
  | approved
  | rejected
  deriving DecidableEq, Repr

/-- The authenticated principal `req.user`. -/
structure Principal where
  userId : Nat
  companyId : Nat
  role : String
  deriving DecidableEq, Repr

/-- A row of `users`, with the columns the approval flow reads. -/
structure UserRow where
  id : Nat
  companyId : Nat
  role : String
  isActive : Bool
  managerId : Option Nat
  deriving DecidableEq, Repr

/-- The columns of an expense that the submitter supplies and that the workflow
never reads back.  The `amount` field of the form is `none` when the request
has none. -/
structure ExpensePayload where
  categoryId : String
  amount : Option String
  currency : String
  description : String
  expenseDate : String
  merchantName : String
  receiptUrl : Option String
  deriving DecidableEq, Repr

/-- A row of `expenses`. -/
structure Expense where
  id : Nat
  companyId : Nat
  employeeId : Nat
  payload : ExpensePayload
  status : Status
  currentApprovalStep : Nat
  totalApprovalSteps : Nat
  finalApprovedAt : Option Nat
  finalApprovedBy : Option Nat
  directorOverride : Bool
  deriving DecidableEq, Repr

/-- A row of `approval_requests`. -/
structure ApprovalRequest where
  id : Nat
  expenseId : Nat
  approverId : Nat
  stepOrder : Nat
  status : Status
  comments : Option String
  approvedAt : Option Nat
  deriving DecidableEq, Repr

/-- A row of `expense_line_items`. -/
structure LineItem where
  expenseId : Nat
  description : String
  quantity : String
  unitPrice : String
  amount : String
  deriving DecidableEq, Repr

/-- The `details` column of an audit record, before `JSON.stringify`. -/
inductive AuditDetails where
  | submitted (amount : Option String) (currency categoryId : String) (steps : Nat)
  | acted (comments : Option String) (step : Nat) (role : String)
  deriving DecidableEq, Repr

/-- A row of `audit_logs`. -/
structure AuditRecord where
  companyId : Nat
  userId : Nat
  expenseId : Option Nat
  action : String
  details : AuditDetails
  deriving DecidableEq, Repr

/-- A row of `companies`, with the columns the submission reads. -/
structure CompanyRow where
  id : Nat
  defaultCurrency : String
  deriving DecidableEq, Repr

/-- The tables the handlers read and write.  `nextExpenseId` and
`nextRequestId` are the auto-increment counters behind `insertId`.
`decimalNumbers` is the option of that name of the connection pool the
statements run on: the pool is created in `config/database.js`, which is not
among the sources, so the option is a parameter; the driver's default is
`false`, and no handler changes it. -/
structure State where
  companies : List CompanyRow
  users : List UserRow
  expenses : List Expense
  requests : List ApprovalRequest
  lineItems : List LineItem
  audit : List AuditRecord
  nextExpenseId : Nat
  nextRequestId : Nat
  decimalNumbers : Bool
  deriving DecidableEq, Repr

/-- Outcomes of the action handler other than success: HTTP 400, 404 and 500. -/
inductive ActError where
  | invalidAction
  | notFound
  | failed
  deriving DecidableEq, Repr

/-! ## The approval-action handler -/

/-- The comment the director override writes on the requests it closes. -/
def overrideComment : String := "Auto-approved via Director override"

/-- The query `SELECT * FROM approval_requests WHERE id = ? AND approver_id = ?`. -/
def selectOwnedRequests (s : State) (approvalRequestId userId : Nat) : List ApprovalRequest :=
  s.requests.filter (fun r => r.id = approvalRequestId ∧ r.approverId = userId)

/-- The query `SELECT * FROM expenses WHERE id = ?`. -/
def selectExpenses (s : State) (expenseId : Nat) : List Expense :=
  s.expenses.filter (fun e => e.id = expenseId)

/-- The statement `UPDATE approval_requests SET status = ?, comments = ?, approved_at = NOW()
WHERE id = ?`, the status being `approved` for `approve` and `rejected`
otherwise. -/
def markRequest (rs : List ApprovalRequest) (now approvalRequestId : Nat) (action : String)
    (comments : Option String) : List ApprovalRequest :=
  rs.map fun r =>
    if r.id = approvalRequestId then
      { r with
        status := if action = "approve" then Status.approved else Status.rejected
        comments := comments
        approvedAt := some now }
    else r

/-- The statement `UPDATE approval_requests SET status = 'rejected' WHERE expense_id = ? AND
status = 'pending'`. -/
def rejectPending (rs : List ApprovalRequest) (expenseId : Nat) : List ApprovalRequest :=
  rs.map fun r =>
    if r.expenseId = expenseId ∧ r.status = Status.pending then
      { r with status := Status.rejected }
    else r

/-- The statement `UPDATE approval_requests SET status = 'approved', comments = 'Auto-approved
via Director override', approved_at = NOW() WHERE expense_id = ? AND status =
'pending'`. -/
def overridePending (rs : List ApprovalRequest) (now expenseId : Nat) : List ApprovalRequest :=
  rs.map fun r =>
    if r.expenseId = expenseId ∧ r.status = Status.pending then
      { r with
        status := Status.approved
        comments := some overrideComment
        approvedAt := some now }
    else r

/-- The statement `UPDATE expenses SET status = 'rejected' WHERE id = ?`. -/
def rejectExpense (es : List Expense) (expenseId : Nat) : List Expense :=
  es.map fun e => if e.id = expenseId then { e with status := Status.rejected } else e

/-- The statement `UPDATE expenses SET status = 'approved', final_approved_at = NOW(),
final_approved_by = ?, director_override = TRUE, current_approval_step =
total_approval_steps WHERE id = ?`. -/
def overrideExpense (es : List Expense) (now userId expenseId : Nat) : List Expense :=
  es.map fun e =>
    if e.id = expenseId then
      { e with
        status := Status.approved
        finalApprovedAt := some now
        finalApprovedBy := some userId
        directorOverride := true
        currentApprovalStep := e.totalApprovalSteps }
    else e

/-- The statement `UPDATE expenses SET status = 'approved', final_approved_at = NOW(),
final_approved_by = ?, current_approval_step = total_approval_steps WHERE
id = ?`. -/
def finalizeExpense (es : List Expense) (now userId expenseId : Nat) : List Expense :=
  es.map fun e =>
    if e.id = expenseId then
      { e with
        status := Status.approved
        finalApprovedAt := some now
        finalApprovedBy := some userId
        currentApprovalStep := e.totalApprovalSteps }
    else e

/-- The statement `UPDATE expenses SET current_approval_step = current_approval_step + 1
WHERE id = ?`. -/
def advanceExpense (es : List Expense) (expenseId : Nat) : List Expense :=
  es.map fun e =>
    if e.id = expenseId then { e with currentApprovalStep := e.currentApprovalStep + 1 } else e

/-- The counts behind the aggregate query of the handler, as the database
computes them over the approval requests of one expense: the number of rows,
of approved rows and of pending rows. -/
structure ApprovalStats where
  total : Nat
  approved : Nat
  pending : Nat
  deriving DecidableEq, Repr

/-- The query `SELECT COUNT(*) as total, SUM(CASE WHEN status = 'approved' THEN 1 ELSE 0 END) as
approved, SUM(CASE WHEN status = 'pending' THEN 1 ELSE 0 END) as pending FROM
approval_requests WHERE expense_id = ?`, on the side of the database. -/
def approvalStats (rs : List ApprovalRequest) (expenseId : Nat) : ApprovalStats :=
  let mine := rs.filter (fun r => r.expenseId = expenseId)
  { total := mine.length
    approved := mine.countP (fun r => r.status = Status.approved)
    pending := mine.countP (fun r => r.status = Status.pending) }

/-- A column of a result row as the driver hands it to the handler: `null`, a
JavaScript number, or a string.  Two such values are equal exactly when `===`
holds of them: `===` converts nothing, so a string is never equal to a
number. -/
inductive ColumnValue where
  | null
  | number (n : Nat)
  | text (digits : String)
  deriving DecidableEq, Repr

/-- How the driver hands over a `SUM(...)` column.  The sum of no row is
`NULL`.  Otherwise the column is a DECIMAL, which the driver gives as the
string of its digits, and as a number only when the pool was created with
`decimalNumbers`. -/
def sumColumn (decimalNumbers : Bool) (rows sum : Nat) : ColumnValue :=
  if rows = 0 then ColumnValue.null
  else if decimalNumbers then ColumnValue.number sum
  else ColumnValue.text (toString sum)

/-- The row `stats[0]` of the aggregate query, as the handler reads it. -/
structure StatsRow where
  total : ColumnValue
  approved : ColumnValue
  pending : ColumnValue
  deriving DecidableEq, Repr

/-- The row `stats[0]` the driver makes of the counts: `COUNT(*)` is an integer
column and comes as a number, the two sums come as `sumColumn` has them. -/
def statsRow (decimalNumbers : Bool) (counts : ApprovalStats) : StatsRow :=
  { total := ColumnValue.number counts.total
    approved := sumColumn decimalNumbers counts.total counts.approved
    pending := sumColumn decimalNumbers counts.total counts.pending }

/-- The test `stats.pending === 0 && stats.approved === stats.total`. -/
def allApprovalsDone (stats : StatsRow) : Bool :=
  stats.pending = ColumnValue.number 0 ∧ stats.approved = stats.total

/-- The audit record the action handler inserts before it commits. -/
def actionAudit (user : Principal) (expenseId : Nat) (action : String) (comments : Option String)
    (stepOrder : Nat) : AuditRecord :=
  { companyId := user.companyId
    userId := user.userId
    expenseId := some expenseId
    action := if action = "approve" then "EXPENSE_APPROVED" else "EXPENSE_REJECTED"
    details := AuditDetails.acted comments stepOrder user.role }

/-- The handler of `POST /api/approvals/:id/action`, as a function from the
state before the call to the committed state or to the error it answers with.
When the expense row is missing, `expense.id` throws and the transaction is
rolled back.  The test before the finalizing update is made on the row of
counts as the driver hands it over. -/
def act (s : State) (now : Nat) (user : Principal) (approvalRequestId : Nat) (action : String)
    (comments : Option String) : Except ActError State :=
  if ¬ (action = "approve" ∨ action = "reject") then
    Except.error ActError.invalidAction
  else
    match selectOwnedRequests s approvalRequestId user.userId with
    | [] => Except.error ActError.notFound
    | approvalRequest :: _ =>
      match selectExpenses s approvalRequest.expenseId with
      | [] => Except.error ActError.failed
      | expense :: _ =>
        let marked := markRequest s.requests now approvalRequestId action comments
        let log := s.audit ++
          [actionAudit user expense.id action comments approvalRequest.stepOrder]
        if action = "reject" then
          Except.ok
            { s with
              expenses := rejectExpense s.expenses expense.id
              requests := rejectPending marked expense.id
              audit := log }
        else if user.role = "director" then
          Except.ok
            { s with
              expenses := overrideExpense s.expenses now user.userId expense.id
              requests := overridePending marked now expense.id
              audit := log }
        else
          let stats := statsRow s.decimalNumbers (approvalStats marked expense.id)
          if allApprovalsDone stats then
            Except.ok
              { s with
                expenses := finalizeExpense s.expenses now user.userId expense.id
                requests := marked
                audit := log }
          else if expense.currentApprovalStep < expense.totalApprovalSteps then
            Except.ok
              { s with
                expenses := advanceExpense s.expenses expense.id
                requests := marked
                audit := log }
          else
            Except.ok { s with requests := marked, audit := log }

/-! ## Currency conversion -/

/-- The arithmetic of the JavaScript numbers other than NaN that the submission
computes with, kept abstract: product, quotient, whether a number is truthy (it
is falsy when it is 0), and the number `parseFloat` reads at the start of a
string that starts with one.  The product and the quotient that
`convertCurrency` forms of such numbers are taken not to be NaN. -/
structure Numbers (α : Type) where
  mul : α → α → α
  div : α → α → α
  truthy : α → Bool
  parsed : String → α

/-- A JavaScript number: NaN, or one of the numbers of `α`. -/
inductive JsNumber (α : Type) where
  | nan
  | num (value : α)
  deriving DecidableEq, Repr

/-- The characters `parseFloat` skips at the start of its argument, by code
point: white space and line terminators. -/
def jsWhiteSpace : List Nat :=
  [9, 10, 11, 12, 13, 32, 160, 5760, 8192, 8193, 8194, 8195, 8196, 8197, 8198, 8199, 8200,
   8201, 8202, 8232, 8233, 8239, 8287, 12288, 65279]

/-- Whether `parseFloat` finds a number at the start of a string: after white
space and an optional sign, a digit, a point followed by a digit, or the word
`Infinity`. -/
def startsWithNumber (text : String) : Bool :=
  let rest := text.toList.dropWhile (fun ch => ch.toNat ∈ jsWhiteSpace)
  let unsigned :=
    match rest with
    | '+' :: tail => tail
    | '-' :: tail => tail
    | other => other
  match unsigned with
  | [] => false
  | first :: tail =>
    first.isDigit ∨ (first = '.' ∧ tail.head?.map Char.isDigit = some true) ∨
      unsigned.take 8 = "Infinity".toList

/-- The call `parseFloat(amount)` on the field of the form: NaN when the field
is missing or does not start with a number. -/
def parseFloat {α : Type} (N : Numbers α) : Option String → JsNumber α
  | none => JsNumber.nan
  | some text => if startsWithNumber text then JsNumber.num (N.parsed text) else JsNumber.nan

/-- The module variable `currencyCache`: `rates` maps currency codes to
numbers, it starts empty and is `none` when a response came without `rates`;
`lastUpdated` is the time of the last successful fetch, in milliseconds, if
there was one. -/
structure CurrencyCache (α : Type) where
  rates : Option (List (String × α))
  lastUpdated : Option Nat

/-- The function `fetchExchangeRates`, on the cache: `response` is what the
request gave, `none` when it threw (the `catch` block keeps the cache),
otherwise the `rates` of the response body. -/
def fetchExchangeRates {α : Type} (response : Option (Option (List (String × α)))) (now : Nat)
    (cache : CurrencyCache α) : CurrencyCache α :=
  match response with
  | some rates => { rates := rates, lastUpdated := some now }
  | none => cache

/-- The cache after the staleness check of `convertCurrency`: refreshed when it
was never filled or is older than an hour. -/
def refreshIfStale {α : Type} (response : Option (Option (List (String × α)))) (now : Nat)
    (cache : CurrencyCache α) : CurrencyCache α :=
  match cache.lastUpdated with
  | none => fetchExchangeRates response now cache
  | some last =>
    if now - last > 3600000 then fetchExchangeRates response now cache else cache

/-- The names a plain object inherits from `Object.prototype`: reading one of
them from a rate table that has no entry of that name gives a function or an
object instead of `undefined`. -/
def inheritedNames : List String :=
  ["constructor", "hasOwnProperty", "isPrototypeOf", "propertyIsEnumerable", "toLocaleString",
   "toString", "valueOf", "__defineGetter__", "__defineSetter__", "__lookupGetter__",
   "__lookupSetter__", "__proto__"]

/-- What the expression `currencyCache.rates[code]` reads from a rate table:
the entry of the code, a member inherited from `Object.prototype`, or
`undefined`. -/
inductive RateRead (α : Type) where
  | undefined
  | inherited
  | rate (value : α)
  deriving DecidableEq, Repr

/-- The expression `currencyCache.rates[code]` on a rate table. -/
def readRate {α : Type} (rates : List (String × α)) (code : String) : RateRead α :=
  match rates.lookup code with
  | some value => RateRead.rate value
  | none => if code ∈ inheritedNames then RateRead.inherited else RateRead.undefined

/-- The test `!currencyCache.rates[code]`: what is read is `undefined` or a
falsy number; an inherited member is truthy. -/
def rateMissing {α : Type} (N : Numbers α) (rates : List (String × α)) (code : String) : Bool :=
  match readRate rates code with
  | RateRead.undefined => true
  | RateRead.inherited => false
  | RateRead.rate value => !N.truthy value

/-- The quotient `currencyCache.rates[toCurrency] / currencyCache.rates[fromCurrency]`:
NaN unless both are numbers. -/
def rateQuotient {α : Type} (N : Numbers α) (rateTo rateFrom : RateRead α) : JsNumber α :=
  match rateTo, rateFrom with
  | RateRead.rate a, RateRead.rate b => JsNumber.num (N.div a b)
  | _, _ => JsNumber.nan

/-- The product `amount * rate`: NaN when a factor is NaN. -/
def times {α : Type} (N : Numbers α) (amount rate : JsNumber α) : JsNumber α :=
  match amount, rate with
  | JsNumber.num a, JsNumber.num b => JsNumber.num (N.mul a b)
  | _, _ => JsNumber.nan

/-- The function `convertCurrency`: the value it returns, `none` when it throws
(reading an entry of `rates` when there is no `rates`), and the cache it
leaves. -/
def convertCurrency {α : Type} (N : Numbers α) (response : Option (Option (List (String × α))))
    (now : Nat) (cache : CurrencyCache α) (amount : JsNumber α)
    (fromCurrency toCurrency : String) : Option (JsNumber α) × CurrencyCache α :=
  if fromCurrency = toCurrency then (some amount, cache)
  else
    let cache' := refreshIfStale response now cache
    match cache'.rates with
    | none => (none, cache')
    | some rates =>
      if rateMissing N rates fromCurrency ∨ rateMissing N rates toCurrency then
        (some amount, cache')
      else
        (some (times N amount
          (rateQuotient N (readRate rates toCurrency) (readRate rates fromCurrency))), cache')

/-! ## Approval flow and submission -/

/-- An entry of the list `getApprovalFlow` builds. -/
structure ApprovalChainEntry where
  approverId : Nat
  stepOrder : Nat
  deriving DecidableEq, Repr

/-- The value `employee[0]?.manager_id` after `SELECT manager_id FROM users WHERE id = ?`,
kept only when it is truthy: a missing row, a `NULL` and a `0` all give
`none`. -/
def managerOf (users : List UserRow) (employeeId : Nat) : Option Nat :=
  match (users.filter (fun u => u.id = employeeId)).head? with
  | some employee =>
    match employee.managerId with
    | some m => if m = 0 then none else some m
    | none => none
  | none => none

/-- The query `SELECT id FROM users WHERE company_id = ? AND role = ? AND is_active = TRUE
ORDER BY id LIMIT 1`: the smallest id among the matching rows, if any. -/
def roleHolder (users : List UserRow) (companyId : Nat) (role : String) : Option Nat :=
  ((users.filter (fun u => u.companyId = companyId ∧ u.role = role ∧ u.isActive = true)).map
    (fun u => u.id)).min?

/-- One `if (...) flow.push({ approverId, stepOrder: stepOrder++ })` of
`getApprovalFlow`, on the pair of `flow` and `stepOrder`. -/
def pushStage (acc : List ApprovalChainEntry × Nat) (approver : Option Nat) :
    List ApprovalChainEntry × Nat :=
  match approver with
  | some a => (acc.1 ++ [{ approverId := a, stepOrder := acc.2 }], acc.2 + 1)
  | none => acc

/-- The function `getApprovalFlow`: manager, finance, director, admin, each
pushed when it resolves. -/
def getApprovalFlow (users : List UserRow) (companyId employeeId : Nat) :
    List ApprovalChainEntry :=
  let acc : List ApprovalChainEntry × Nat := ([], 1)
  let acc := pushStage acc (managerOf users employeeId)
  let acc := pushStage acc (roleHolder users companyId "finance")
  let acc := pushStage acc (roleHolder users companyId "director")
  let acc := pushStage acc (roleHolder users companyId "admin")
  acc.1

/-- The `lineItems` field of a submission, by what `JSON.parse` makes of it:
absent (falsy), not valid JSON (the parse throws), valid JSON that is not an
array, or an array of items, where an item is `none` when it is `null`. -/
inductive LineItemsField where
  | absent
  | malformed
  | notArray
  | items (rows : List (Option (String × String × String × String)))
  deriving DecidableEq, Repr

/-- Modelled from the spec: the column defaults of a new `expenses` row, the
table schema not being among the sources.  The spec has a new expense persisted
with status pending and `totalApprovalSteps = 0` as a placeholder, not yet
approved by anyone and without override; the handler itself sets
`current_approval_step` to 1. -/
def newExpense (id companyId employeeId : Nat) (payload : ExpensePayload) : Expense :=
  { id := id
    companyId := companyId
    employeeId := employeeId
    payload := payload
    status := Status.pending
    currentApprovalStep := 1
    totalApprovalSteps := 0
    finalApprovedAt := none
    finalApprovedBy := none
    directorOverride := false }

/-- The statement `UPDATE expenses SET total_approval_steps = ? WHERE id = ?`. -/
def setTotalSteps (es : List Expense) (steps expenseId : Nat) : List Expense :=
  es.map fun e => if e.id = expenseId then { e with totalApprovalSteps := steps } else e

/-- The loop that inserts one pending approval request per entry of the flow,
each with the next auto-increment id. -/
def insertRequests (expenseId : Nat) : List ApprovalChainEntry → Nat → List ApprovalRequest
  | [], _ => []
  | approver :: rest, nextId =>
    { id := nextId
      expenseId := expenseId
      approverId := approver.approverId
      stepOrder := approver.stepOrder
      status := Status.pending
      comments := none
      approvedAt := none } :: insertRequests expenseId rest (nextId + 1)

/-- The loop `for (const item of items)` that inserts one line-item row per
item: `none` when an item is `null`, where reading `item.description`
throws. -/
def insertLineItems (expenseId : Nat) :
    List (Option (String × String × String × String)) → Option (List LineItem)
  | [] => some []
  | none :: _ => none
  | some item :: rest =>
    (insertLineItems expenseId rest).map fun rows =>
      { expenseId := expenseId
        description := item.1
        quantity := item.2.1
        unitPrice := item.2.2.1
        amount := item.2.2.2 } :: rows

/-- The line-item rows the submission inserts for `lineItems`: none when the
field is absent or is not an array; `none` when `JSON.parse` throws or an item
is `null`. -/
def lineItemRows (expenseId : Nat) : LineItemsField → Option (List LineItem)
  | LineItemsField.absent => some []
  | LineItemsField.malformed => none
  | LineItemsField.notArray => some []
  | LineItemsField.items rows => insertLineItems expenseId rows

/-- What a successful submission answers: `expenseId` and `approvalSteps`. -/
structure SubmitResponse where
  expenseId : Nat
  approvalSteps : Nat
  deriving DecidableEq, Repr

/-- What a submission meets besides the tables: the arithmetic of its numbers,
the currency cache as the call finds it, what a fetch of the exchange rates
would answer, the time, and `accepts`, whether the database takes the rows of
the submission (the payload, the converted amount when it is a number, the
line items).  The schema the database checks the rows against is not among the
sources, so `accepts` is a parameter. -/
structure SubmitWorld (α : Type) where
  numbers : Numbers α
  cache : CurrencyCache α
  response : Option (Option (List (String × α)))
  now : Nat
  accepts : ExpensePayload → α → List LineItem → Bool

/-- The call `await convertCurrency(parseFloat(amount), currency, defaultCurrency)` of
the submission: the converted amount, `none` when the call throws. -/
def convertedAmount {α : Type} (w : SubmitWorld α) (payload : ExpensePayload)
    (defaultCurrency : String) : Option (JsNumber α) :=
  (convertCurrency w.numbers w.response w.now w.cache (parseFloat w.numbers payload.amount)
    payload.currency defaultCurrency).1

/-- The handler of `POST /api/expenses`: the committed state and the response,
or `none` when the handler throws and the transaction is rolled back.  It
throws when there is no company row for `company[0].default_currency`, when
`convertCurrency` throws, when the converted amount is NaN (the driver writes
it into the `INSERT` as the bare word `NaN`, which the database refuses), when
the database does not accept the rows, when `lineItems` does not parse and when
an item of it is `null`.  The handler has no check of its own.  The converted
amount is a column the workflow never reads back and is not kept in the
model. -/
def submit {α : Type} (w : SubmitWorld α) (s : State) (user : Principal)
    (payload : ExpensePayload) (lineItems : LineItemsField) : Option (State × SubmitResponse) :=
  match (s.companies.filter (fun c => c.id = user.companyId)).head? with
  | none => none
  | some company =>
    match convertedAmount w payload company.defaultCurrency with
    | none => none
    | some JsNumber.nan => none
    | some (JsNumber.num converted) =>
      let expenseId := s.nextExpenseId
      let expenses := s.expenses ++ [newExpense expenseId user.companyId user.userId payload]
      match lineItemRows expenseId lineItems with
      | none => none
      | some inserted =>
        if w.accepts payload converted inserted then
          let approvalFlow := getApprovalFlow s.users user.companyId user.userId
          some
            ({ s with
                expenses := setTotalSteps expenses approvalFlow.length expenseId
                requests := s.requests ++ insertRequests expenseId approvalFlow s.nextRequestId
                lineItems := s.lineItems ++ inserted
                audit := s.audit ++
                  [{ companyId := user.companyId
                     userId := user.userId
                     expenseId := some expenseId
                     action := "EXPENSE_SUBMITTED"
                     details := AuditDetails.submitted payload.amount payload.currency
                       payload.categoryId approvalFlow.length }]
                nextExpenseId := s.nextExpenseId + 1
                nextRequestId := s.nextRequestId + approvalFlow.length },
              { expenseId := expenseId, approvalSteps := approvalFlow.length })
        else none

/-! ## Reachable states -/

/-- The states the system can be in: it starts with no expense and no approval
request; the other routes change the `companies` and `users` tables; every
successful submission and every successful approval action commits its
result.  A call that fails leaves the state it found. -/
inductive Reachable : State → Prop where
  | init (s : State) (hE : s.expenses = []) (hR : s.requests = []) : Reachable s
  | directory (s : State) (companies : List CompanyRow) (users : List UserRow)
      (h : Reachable s) : Reachable { s with companies := companies, users := users }
  | submit {α : Type} (w : SubmitWorld α) (s s' : State) (user : Principal)
      (payload : ExpensePayload) (lineItems : LineItemsField) (resp : SubmitResponse)
      (h : Reachable s)
      (hs : ExpenseManag.submit w s user payload lineItems = some (s', resp)) : Reachable s'
  | act (s s' : State) (now : Nat) (user : Principal) (approvalRequestId : Nat)
      (action : String) (comments : Option String) (h : Reachable s)
      (ha : ExpenseManag.act s now user approvalRequestId action comments = Except.ok s') :
      Reachable s'

/-- A run of approval actions, each with its own time, principal, request id,
action and comments, stopping at the first one that fails. -/
def actAll (s : State) :
    List (Nat × Principal × Nat × String × Option String) → Except ActError State
  | [] => Except.ok s
  | (now, user, approvalRequestId, action, comments) :: rest =>
    match act s now user approvalRequestId action comments with
    | Except.ok s' => actAll s' rest
    | Except.error err => Except.error err

/-- The call by which the approver of request `q` approves it: the principal is
`q.approverId`, with the company and role of `m`, at the time and with the
comments of `m`. -/
def approveCall (q : ApprovalRequest) (m : Nat × Nat × String × Option String) :
    Nat × Principal × Nat × String × Option String :=
  (m.1, { userId := q.approverId, companyId := m.2.1, role := m.2.2.1 }, q.id, "approve",
    m.2.2.2)

/-! ## Notifications and the order of effects -/

/-- The three mails of the workflow: the confirmation to the submitter, the
alert to the approver of step 1, and the decision sent to the submitter after
an action (`approved` tells `Approved` from `Rejected`). -/
inductive MailKind where
  | submissionConfirmation
  | approverAlert
  | decision (approved : Bool)
  deriving DecidableEq, Repr

/-- A mail handed to `mailSender`, addressed to the `email` of the user row
`toUser`. -/
structure Mail where
  toUser : Nat
  kind : MailKind
  deriving DecidableEq, Repr

/-- What the mail helpers depend on besides the tables of `State`: the ids of
the rows of `expense_categories`, which they join with, and whether the
transport delivers a mail (`mailSender` throws when it does not). -/
structure Collaborators where
  categories : List String
  delivers : Mail → Bool

/-- The function `sendExpenseSubmissionEmail`, run inside the transaction on
the tables as the submission has left them: the mails it hands to `mailSender`,
in order.  Its whole body is one `try` block whose `catch` only logs: reading
`employee[0]` or `expense[0]` when the query found no row throws before any
mail, and a mail that is not delivered throws before the next one; either way
the function returns normally. -/
def sendExpenseSubmissionEmail (c : Collaborators) (s : State) (expenseId employeeId : Nat) :
    List Mail :=
  let employee := s.users.filter (fun u => u.id = employeeId)
  let expense :=
    s.expenses.filter (fun e => e.id = expenseId ∧ e.payload.categoryId ∈ c.categories)
  let approvers :=
    s.users.filter (fun u =>
      s.requests.any (fun ar => u.id = ar.approverId ∧ ar.expenseId = expenseId ∧ ar.stepOrder = 1))
  match employee, expense with
  | submitter :: _, _ :: _ =>
    let confirmation : Mail :=
      { toUser := submitter.id, kind := MailKind.submissionConfirmation }
    if c.delivers confirmation then
      match approvers with
      | approver :: _ =>
        [confirmation, { toUser := approver.id, kind := MailKind.approverAlert }]
      | [] => [confirmation]
    else [confirmation]
  | _, _ => []

/-- The function `sendApprovalNotificationEmail`, run inside the transaction on
the tables as the action has left them: the mail it hands to `mailSender`, if
it gets that far.  The expense is joined with its submitter and its category,
the approver is looked up by id; a missing row makes the `try` block throw
before the mail, and the `catch` only logs. -/
def sendApprovalNotificationEmail (c : Collaborators) (s : State) (expenseId : Nat)
    (action : String) (approverId : Nat) : List Mail :=
  let expense :=
    (s.expenses.filter
      (fun e => e.id = expenseId ∧ e.payload.categoryId ∈ c.categories)).flatMap
      (fun e => s.users.filter (fun u => u.id = e.employeeId))
  let approver := s.users.filter (fun u => u.id = approverId)
  match expense, approver with
  | submitter :: _, _ :: _ =>
    [{ toUser := submitter.id, kind := MailKind.decision (action = "approve") }]
  | _, _ => []

/-- What a handler does besides its statements inside the transaction, in
program order: a mail handed to `mailSender`, the commit, the rollback of the
`catch` block, and the answer with its HTTP status. -/
inductive Effect where
  | mail (m : Mail)
  | commit
  | rollback
  | respond (status : Nat)
  deriving DecidableEq, Repr

/-- Whether an effect is a mail. -/
def Effect.isMail : Effect → Bool
  | Effect.mail _ => true
  | _ => false

/-- The handler of `POST /api/expenses` with its effects: after the statements
of `submit` it awaits `sendExpenseSubmissionEmail`, then commits and answers
201; when a statement throws, the `catch` block rolls back and answers 500. -/
def submitHandler {α : Type} (w : SubmitWorld α) (c : Collaborators) (s : State)
    (user : Principal) (payload : ExpensePayload) (lineItems : LineItemsField) :
    List Effect × Option (State × SubmitResponse) :=
  match submit w s user payload lineItems with
  | none => ([Effect.rollback, Effect.respond 500], none)
  | some (s', resp) =>
    ((sendExpenseSubmissionEmail c s' resp.expenseId user.userId).map Effect.mail ++
        [Effect.commit, Effect.respond 201],
      some (s', resp))

/-- The handler of `POST /api/approvals/:id/action` with its effects: the
answers 400 and 404 are sent before any statement that writes, without commit
or rollback; a missing expense row makes the handler throw, roll back and
answer 500; otherwise, after the statements of `act`, it awaits
`sendApprovalNotificationEmail` for the expense of the request, then commits
and answers 200. -/
def actHandler (c : Collaborators) (s : State) (now : Nat) (user : Principal)
    (approvalRequestId : Nat) (action : String) (comments : Option String) :
    List Effect × Except ActError State :=
  match act s now user approvalRequestId action comments with
  | Except.error ActError.invalidAction =>
    ([Effect.respond 400], Except.error ActError.invalidAction)
  | Except.error ActError.notFound => ([Effect.respond 404], Except.error ActError.notFound)
  | Except.error ActError.failed =>
    ([Effect.rollback, Effect.respond 500], Except.error ActError.failed)
  | Except.ok s' =>
    let expenseId :=
      match selectOwnedRequests s approvalRequestId user.userId with
      | approvalRequest :: _ => approvalRequest.expenseId
      | [] => 0
    ((sendApprovalNotificationEmail c s' expenseId action user.userId).map Effect.mail ++
        [Effect.commit, Effect.respond 200],
      Except.ok s')

/-! ## Failure of the audit statement -/

/-- The handler of `POST /api/approvals/:id/action` when the statement that
inserts the audit record may fail.  With `auditWritten = false` the
`INSERT INTO audit_logs` throws after the updates of the call: the `catch`
block rolls the transaction back and answers 500, and the mail helper, which
comes after the insert, is not reached.  With `auditWritten = true`, and when
the handler stops before the insert, it runs as `actHandler`. -/
def actHandlerAudit (auditWritten : Bool) (c : Collaborators) (s : State) (now : Nat)
    (user : Principal) (approvalRequestId : Nat) (action : String) (comments : Option String) :
    List Effect × Except ActError State :=
  match act s now user approvalRequestId action comments with
  | Except.ok _ =>
    if auditWritten then actHandler c s now user approvalRequestId action comments
    else ([Effect.rollback, Effect.respond 500], Except.error ActError.failed)
  | Except.error _ => actHandler c s now user approvalRequestId action comments

/-! ## The listing of pending approvals -/

/-- The query of `GET /api/approvals/pending`: the approval requests of the
user joined with their expense, kept when the expense has its submitter in
`users` and its category in `expense_categories` (both inner joins), the
request and the expense are pending and the step order of the request is the
current step of the expense; `DISTINCT` drops repeated rows.  A row is given
as the pair of the request and the expense it is made of; the order of the
rows (`ORDER BY ar.created_at DESC`) is left out, `created_at` not being a
column of the model. -/
def pendingApprovals (c : Collaborators) (s : State) (userId : Nat) :
    List (ApprovalRequest × Expense) :=
  (s.requests.flatMap fun ar =>
    (s.expenses.filter fun e =>
      ar.expenseId = e.id ∧
      s.users.any (fun u => e.employeeId = u.id) ∧
      c.categories.any (fun k => e.payload.categoryId = k) ∧
      ar.approverId = userId ∧
      ar.status = Status.pending ∧
      e.status = Status.pending ∧
      ar.stepOrder = e.currentApprovalStep).map fun e => (ar, e)).dedup

/-! ## Example states -/

/-- The payload of the example expense. -/
def demoPayload : ExpensePayload :=
  { categoryId := "3"
    amount := some "120.50"
    currency := "EUR"
    description := "Train tickets"
    expenseDate := "2024-05-02"
    merchantName := "Rail"
    receiptUrl := none }

/-- A company with an employee (user 5) whose manager is user 7, a finance user
8 and a director 9, no admin, and no expense yet, on a pool with the driver's
defaults. -/
def demoEmpty : State :=
  { companies := [{ id := 1, defaultCurrency := "USD" }]
    users :=
      [{ id := 5, companyId := 1, role := "employee", isActive := true, managerId := some 7 },
       { id := 7, companyId := 1, role := "manager", isActive := true, managerId := none },
       { id := 8, companyId := 1, role := "finance", isActive := true, managerId := none },
       { id := 9, companyId := 1, role := "director", isActive := true, managerId := none }]
    expenses := []
    requests := []
    lineItems := []
    audit := []
    nextExpenseId := 1
    nextRequestId := 1
    decimalNumbers := false }

/-- The employee of the example, as a principal. -/
def demoEmployee : Principal := { userId := 5, companyId := 1, role := "employee" }

/-- The manager of the example, as a principal. -/
def demoManager : Principal := { userId := 7, companyId := 1, role := "manager" }

/-- The finance user of the example, as a principal. -/
def demoFinance : Principal := { userId := 8, companyId := 1, role := "finance" }

/-- The director of the example, as a principal. -/
def demoDirector : Principal := { userId := 9, companyId := 1, role := "director" }

/-- The expense of the example as submitted: pending, at step 1 of 3. -/
def demoExpense : Expense :=
  { id := 1
    companyId := 1
    employeeId := 5
    payload := demoPayload
    status := Status.pending
    currentApprovalStep := 1
    totalApprovalSteps := 3
    finalApprovedAt := none
    finalApprovedBy := none
    directorOverride := false }

/-- The pending request of the example at step `step`, for approver
`approver`; its id is its step. -/
def demoRequest (step approver : Nat) : ApprovalRequest :=
  { id := step
    expenseId := 1
    approverId := approver
    stepOrder := step
    status := Status.pending
    comments := none
    approvedAt := none }

/-- The state after the employee of the example has submitted the expense:
three pending requests, for the manager, the finance user and the director. -/
def demoState : State :=
  { demoEmpty with
    expenses := [demoExpense]
    requests := [demoRequest 1 7, demoRequest 2 8, demoRequest 3 9]
    audit :=
      [{ companyId := 1
         userId := 5
         expenseId := some 1
         action := "EXPENSE_SUBMITTED"
         details := AuditDetails.submitted (some "120.50") "EUR" "3" 3 }]
    nextExpenseId := 2
    nextRequestId := 4 }

/-- The example after the manager has approved step 1: requests approved,
pending, pending and the expense at step 2. -/
def demoMidState : State :=
  { demoState with
    expenses := [{ demoExpense with currentApprovalStep := 2 }]
    requests :=
      [{ demoRequest 1 7 with
          status := Status.approved, comments := some "ok", approvedAt := some 100 },
       demoRequest 2 8, demoRequest 3 9]
    audit := demoState.audit ++ [actionAudit demoManager 1 "approve" (some "ok") 1] }

/-- The state a run of actions from `s` commits, `s` itself when the run
fails. -/
def stateAfter (s : State) (calls : List (Nat × Principal × Nat × String × Option String)) :
    State :=
  match actAll s calls with
  | Except.ok s' => s'
  | Except.error _ => s

/-- A directory with two employees of company 1, user 5 whose manager is user
7 and user 6 who has none, a finance user 8, a director 9 and an admin 10, and
besides them an inactive finance user 2 and a finance user 3 of company 2. -/
def demoDirectory : List UserRow :=
  [{ id := 2, companyId := 1, role := "finance", isActive := false, managerId := none },
   { id := 3, companyId := 2, role := "finance", isActive := true, managerId := none },
   { id := 5, companyId := 1, role := "employee", isActive := true, managerId := some 7 },
   { id := 6, companyId := 1, role := "employee", isActive := true, managerId := none },
   { id := 7, companyId := 1, role := "manager", isActive := true, managerId := none },
   { id := 10, companyId := 1, role := "admin", isActive := true, managerId := none },
   { id := 9, companyId := 1, role := "director", isActive := true, managerId := none },
   { id := 8, companyId := 1, role := "finance", isActive := true, managerId := none }]

/-- The surroundings of the example: the category of the example expense
exists and every mail is delivered. -/
def demoCollaborators : Collaborators :=
  { categories := ["3"], delivers := fun _ => true }

/-- The surroundings of the example with a transport that delivers nothing. -/
def demoNoMail : Collaborators :=
  { categories := ["3"], delivers := fun _ => false }

/-- A company with one employee (user 5) who has no manager, and with no
finance user, director or admin; no expense yet. -/
def demoLonely : State :=
  { demoEmpty with
    users :=
      [{ id := 5, companyId := 1, role := "employee", isActive := true, managerId := none }] }

/-- The directory of the example without a director and with an admin, user
10: the flow of employee 5 is manager 7, finance user 8, admin 10. -/
def demoAdminEmpty : State :=
  { demoEmpty with
    users :=
      [{ id := 5, companyId := 1, role := "employee", isActive := true, managerId := some 7 },
       { id := 7, companyId := 1, role := "manager", isActive := true, managerId := none },
       { id := 8, companyId := 1, role := "finance", isActive := true, managerId := none },
       { id := 10, companyId := 1, role := "admin", isActive := true, managerId := none }] }

/-- The state after employee 5 has submitted the example expense in
`demoAdminEmpty`: three pending requests, for users 7, 8 and 10. -/
def demoAdminState : State :=
  { demoAdminEmpty with
    expenses := [demoExpense]
    requests := [demoRequest 1 7, demoRequest 2 8, demoRequest 3 10]
    audit := demoState.audit
    nextExpenseId := 2
    nextRequestId := 4 }

/-- The admin of the example, as a principal. -/
def demoAdmin : Principal := { userId := 10, companyId := 1, role := "admin" }

/-- The company of the example with the directory `demoDirectory` and no
expense yet: the flow of employee 5 is manager 7, finance user 8, director 9,
admin 10. -/
def demoFourEmpty : State := { demoEmpty with users := demoDirectory }

/-- The state after employee 5 has submitted the example expense in
`demoFourEmpty`: four pending requests, for users 7, 8, 9 and 10. -/
def demoFourState : State :=
  { demoFourEmpty with
    expenses := [{ demoExpense with totalApprovalSteps := 4 }]
    requests := [demoRequest 1 7, demoRequest 2 8, demoRequest 3 9, demoRequest 4 10]
    audit :=
      [{ companyId := 1
         userId := 5
         expenseId := some 1
         action := "EXPENSE_SUBMITTED"
         details := AuditDetails.submitted (some "120.50") "EUR" "3" 4 }]
    nextExpenseId := 2
    nextRequestId := 5 }

/-- The state of a two-step expense as submitted: the example expense with two
steps and pending requests for the manager 7 and the finance user 8. -/
def demoTwoState : State :=
  { demoEmpty with
    expenses := [{ demoExpense with totalApprovalSteps := 2 }]
    requests := [demoRequest 1 7, demoRequest 2 8]
    nextExpenseId := 2
    nextRequestId := 3 }

/-- The two-step example on a pool created with `decimalNumbers`. -/
def demoTwoNumbers : State := { demoTwoState with decimalNumbers := true }

/-- Integer arithmetic standing in for the numbers of the submission in the
examples; 0 is the falsy number, and every string that starts with a number is
read as 120. -/
def demoNumbers : Numbers Int :=
  { mul := fun a b => a * b
    div := fun a b => a / b
    truthy := fun a => a ≠ 0
    parsed := fun _ => 120 }

/-- A fresh cache with rates for USD, EUR and INR, and a rate 0 for XXX. -/
def demoCache : CurrencyCache Int :=
  { rates := some [("USD", 100), ("EUR", 90), ("INR", 8000), ("XXX", 0)]
    lastUpdated := some 1000 }

/-- The surroundings of the submissions of the examples: the cache `demoCache`,
fresh at time 2000, and a database that accepts every row. -/
def demoWorld : SubmitWorld Int :=
  { numbers := demoNumbers
    cache := demoCache
    response := none
    now := 2000
    accepts := fun _ _ _ => true }

/-- The state after the employee without approvers has submitted the example
expense in `demoLonely`: one expense with no steps, no approval request. -/
def demoLonelyState : State :=
  { demoLonely with
    expenses := [newExpense 1 1 5 demoPayload]
    audit :=
      [{ companyId := 1
         userId := 5
         expenseId := some 1
         action := "EXPENSE_SUBMITTED"
         details := AuditDetails.submitted (some "120.50") "EUR" "3" 0 }]
    nextExpenseId := 2 }

/-- The state after employee 5 has submitted, in `demoEmpty`, the example
expense with the category `99`, which has no row in `expense_categories`. -/
def demoUncategorised : State :=
  { demoState with
    expenses := [{ demoExpense with payload := { demoPayload with categoryId := "99" } }]
    audit :=
      [{ companyId := 1
         userId := 5
         expenseId := some 1
         action := "EXPENSE_SUBMITTED"
         details := AuditDetails.submitted (some "120.50") "EUR" "99" 3 }] }

/-- The example with a second expense of employee 5, expense 2, pending at
step 1 of 1 with one pending request, request 4, for the manager. -/
def demoPairState : State :=
  { demoState with
    expenses := [demoExpense, { demoExpense with id := 2, totalApprovalSteps := 1 }]
    requests :=
      [demoRequest 1 7, demoRequest 2 8, demoRequest 3 9,
       { demoRequest 4 7 with expenseId := 2, stepOrder := 1 }]
    nextExpenseId := 3
    nextRequestId := 5 }

/-! ## Lemmas on the table operations -/

/-- A `SELECT ... WHERE id = ?` sees an updated table as the update of what it
saw before, when the update keeps the `id` column. -/
theorem head?_filter_map_key {α : Type} (key : α → Nat) (f : α → α)
    (hf : ∀ a, key (f a) = key a) (k : Nat) (l : List α) :
    ((l.map f).filter (fun a => key a = k)).head? =
      ((l.filter (fun a => key a = k)).head?).map f := by
  induction l with
  | nil => rfl
  | cons a l ih =>
    by_cases h : key a = k
    · simp [List.filter_cons, hf, h]
    · simpa [List.filter_cons, hf, h] using ih

/-- An update leaves the table row-wise related to itself by any relation that
holds between each row and its image. -/
theorem forall₂_map_self {α : Type} (R : α → α → Prop) (f : α → α) (l : List α)
    (h : ∀ a ∈ l, R a (f a)) : List.Forall₂ R l (l.map f) := by
  induction l with
  | nil => exact List.Forall₂.nil
  | cons a l ih =>
    exact List.Forall₂.cons (h a (List.mem_cons_self a l))
      (ih fun b hb => h b (List.mem_cons_of_mem a hb))

/-- The handler, once its two lookups have found the request and the
expense. -/
theorem act_found (s : State) (now : Nat) (user : Principal) (rid : Nat) (action : String)
    (comments : Option String) (r : ApprovalRequest) (e : Expense)
    (ha : action = "approve" ∨ action = "reject")
    (hr : (selectOwnedRequests s rid user.userId).head? = some r)
    (he : (selectExpenses s r.expenseId).head? = some e) :
    act s now user rid action comments =
      (let marked := markRequest s.requests now rid action comments
       let log := s.audit ++ [actionAudit user e.id action comments r.stepOrder]
       if action = "reject" then
         Except.ok
           { s with
             expenses := rejectExpense s.expenses e.id
             requests := rejectPending marked e.id
             audit := log }
       else if user.role = "director" then
         Except.ok
           { s with
             expenses := overrideExpense s.expenses now user.userId e.id
             requests := overridePending marked now e.id
             audit := log }
       else
         let stats := statsRow s.decimalNumbers (approvalStats marked e.id)
         if allApprovalsDone stats then
           Except.ok
             { s with
               expenses := finalizeExpense s.expenses now user.userId e.id
               requests := marked
               audit := log }
         else if e.currentApprovalStep < e.totalApprovalSteps then
           Except.ok
             { s with
               expenses := advanceExpense s.expenses e.id
               requests := marked
               audit := log }
         else
           Except.ok { s with requests := marked, audit := log }) := by
  obtain ⟨tl, htl⟩ : ∃ tl, selectOwnedRequests s rid user.userId = r :: tl := by
    cases h : selectOwnedRequests s rid user.userId with
    | nil => simp [h] at hr
    | cons a tl => simp [h] at hr; exact ⟨tl, by rw [hr]⟩
  obtain ⟨tl', htl'⟩ : ∃ tl, selectExpenses s r.expenseId = e :: tl := by
    cases h : selectExpenses s r.expenseId with
    | nil => simp [h] at he
    | cons a tl => simp [h] at he; exact ⟨tl, by rw [he]⟩
  unfold act
  simp only [htl, htl', ha, not_true_eq_false, if_false]

/-- The expense a lookup finds has the id it was looked up by. -/
theorem selectExpenses_head_id (s : State) (k : Nat) (e : Expense)
    (he : (selectExpenses s k).head? = some e) : e.id = k := by
  have hmem : e ∈ selectExpenses s k := List.mem_of_mem_head? (by rw [he]; rfl)
  simpa using (List.mem_filter.mp hmem).2

/-! ## Lemmas on a table whose ids are distinct -/

/-- The first update of the handler keeps the `id` column. -/
theorem map_id_markRequest (l : List ApprovalRequest) (now k : Nat) (action : String)
    (c : Option String) :
    (markRequest l now k action c).map (fun x => x.id) = l.map (fun x => x.id) := by
  unfold markRequest
  rw [List.map_map]
  apply List.map_congr_left
  intro x _
  simp only [Function.comp]
  split <;> rfl

/-- The first update of the handler changes nothing when no row has the id. -/
theorem markRequest_of_not_mem (l : List ApprovalRequest) (now k : Nat) (action : String)
    (c : Option String) (h : ∀ x ∈ l, x.id ≠ k) : markRequest l now k action c = l := by
  unfold markRequest
  conv_rhs => rw [← List.map_id l]
  apply List.map_congr_left
  intro x hx
  simp [h x hx]

/-- A row with another id is still in the table after the first update. -/
theorem mem_markRequest_of_ne (l : List ApprovalRequest) (now k : Nat) (action : String)
    (c : Option String) (x : ApprovalRequest) (hx : x ∈ l) (hk : x.id ≠ k) :
    x ∈ markRequest l now k action c := by
  unfold markRequest
  exact List.mem_map.mpr ⟨x, hx, by simp [hk]⟩

/-- In a table with distinct ids, marking the request `q` approved changes any
count of rows by what `q` and its marked version contribute. -/
theorem countP_markRequest (P : ApprovalRequest → Bool) (now : Nat) (c : Option String)
    (q : ApprovalRequest) :
    ∀ l : List ApprovalRequest, (l.map (fun x => x.id)).Nodup → q ∈ l →
      (markRequest l now q.id "approve" c).countP P + (if P q then 1 else 0) =
        l.countP P +
          (if P { q with status := Status.approved, comments := c, approvedAt := some now }
            then 1 else 0) := by
  intro l
  induction l with
  | nil => intro _ hq; simp at hq
  | cons a l ih =>
    intro hnd hq
    rw [List.map_cons, List.nodup_cons] at hnd
    have hne : ∀ x ∈ l, x.id ≠ a.id := fun x hx hxa =>
      hnd.1 (List.mem_map.mpr ⟨x, hx, hxa⟩)
    rcases List.mem_cons.mp hq with rfl | hql
    · have hcons : markRequest (q :: l) now q.id "approve" c =
          { q with status := Status.approved, comments := c, approvedAt := some now } ::
            markRequest l now q.id "approve" c := by
        simp [markRequest]
      rw [hcons, markRequest_of_not_mem l now q.id "approve" c hne, List.countP_cons,
        List.countP_cons]
      omega
    · have haq : a.id ≠ q.id := fun h => hne q hql h.symm
      have hcons : markRequest (a :: l) now q.id "approve" c =
          a :: markRequest l now q.id "approve" c := by
        simp [markRequest, haq]
      rw [hcons, List.countP_cons, List.countP_cons]
      have := ih hnd.2 hql
      omega

/-- In a table with distinct ids, the handler's lookup of a request by its id
and approver finds that request. -/
theorem selectOwned_of_mem (q : ApprovalRequest) :
    ∀ l : List ApprovalRequest, (l.map (fun x => x.id)).Nodup → q ∈ l →
      (l.filter (fun x => x.id = q.id ∧ x.approverId = q.approverId)).head? = some q := by
  intro l
  induction l with
  | nil => intro _ hq; simp at hq
  | cons a l ih =>
    intro hnd hq
    rw [List.map_cons, List.nodup_cons] at hnd
    rcases List.mem_cons.mp hq with rfl | hql
    · simp [List.filter_cons]
    · have haq : a.id ≠ q.id := fun h => hnd.1 (List.mem_map.mpr ⟨q, hql, h.symm⟩)
      simpa [List.filter_cons, haq] using ih hnd.2 hql

/-- The aggregate counts after a pending request of the expense is marked
approved, in a table with distinct ids: the total stays, one more is approved,
one fewer is pending. -/
theorem approvalStats_markRequest (l : List ApprovalRequest) (now : Nat) (c : Option String)
    (q : ApprovalRequest) (eid : Nat) (hnd : (l.map (fun x => x.id)).Nodup) (hq : q ∈ l)
    (hqe : q.expenseId = eid) (hqp : q.status = Status.pending) :
    (approvalStats (markRequest l now q.id "approve" c) eid).total = (approvalStats l eid).total ∧
    (approvalStats (markRequest l now q.id "approve" c) eid).approved =
      (approvalStats l eid).approved + 1 ∧
    (approvalStats (markRequest l now q.id "approve" c) eid).pending + 1 =
      (approvalStats l eid).pending := by
  have h1 := countP_markRequest (fun x => decide (x.expenseId = eid)) now c q l hnd hq
  have h2 := countP_markRequest
    (fun x => decide (x.status = Status.approved) && decide (x.expenseId = eid)) now c q l hnd hq
  have h3 := countP_markRequest
    (fun x => decide (x.status = Status.pending) && decide (x.expenseId = eid)) now c q l hnd hq
  simp only [approvalStats, List.countP_filter, ← List.countP_eq_length_filter]
  simp [hqe, hqp] at h1 h2 h3
  refine ⟨h1, h2, ?_⟩
  omega

/-- The finalizing test on the row the driver makes of the counts: it holds
exactly when the driver hands the sums over as numbers, the expense has a
request, none is pending and all are approved. -/
theorem allApprovalsDone_iff (decimalNumbers : Bool) (counts : ApprovalStats) :
    allApprovalsDone (statsRow decimalNumbers counts) = true ↔
      decimalNumbers = true ∧ counts.total ≠ 0 ∧ counts.pending = 0 ∧
        counts.approved = counts.total := by
  unfold allApprovalsDone statsRow sumColumn
  by_cases h0 : counts.total = 0
  · simp [h0]
  · cases decimalNumbers <;> simp [h0]

/-- The acted-upon request is one of the rows the aggregate query counts. -/
theorem approvalStats_total_pos (s : State) (now : Nat) (user : Principal) (rid : Nat)
    (action : String) (comments : Option String) (r : ApprovalRequest)
    (hr : (selectOwnedRequests s rid user.userId).head? = some r) :
    (approvalStats (markRequest s.requests now rid action comments) r.expenseId).total ≠ 0 := by
  have hmem : r ∈ selectOwnedRequests s rid user.userId := List.mem_of_mem_head? (by rw [hr]; rfl)
  have hin : r ∈ s.requests := (List.mem_filter.mp hmem).1
  have hx : (if r.id = rid then
        ({ r with
          status := if action = "approve" then Status.approved else Status.rejected
          comments := comments
          approvedAt := some now } : ApprovalRequest)
      else r) ∈ markRequest s.requests now rid action comments := by
    unfold markRequest
    exact List.mem_map_of_mem _ hin
  have hxe : (if r.id = rid then
        ({ r with
          status := if action = "approve" then Status.approved else Status.rejected
          comments := comments
          approvedAt := some now } : ApprovalRequest)
      else r).expenseId = r.expenseId := by
    split <;> rfl
  unfold approvalStats
  dsimp only
  apply Nat.pos_iff_ne_zero.mp
  apply List.length_pos_of_mem
  exact List.mem_filter.mpr ⟨hx, by simpa using hxe⟩

/-- A successful action leaves the option of the pool as it was. -/
theorem act_ok_decimalNumbers (s : State) (now : Nat) (user : Principal) (rid : Nat)
    (action : String) (comments : Option String) (s' : State)
    (h : act s now user rid action comments = Except.ok s') :
    s'.decimalNumbers = s.decimalNumbers := by
  unfold act at h
  split at h
  · cases h
  · split at h
    · cases h
    · split at h
      · cases h
      · dsimp only at h
        split_ifs at h <;> (cases h; rfl)

/-! ## The approval action, branch by branch -/

/-- C1. Reject: when the handler's lookups find the request `r` of the acting
user and its expense `e`, a `reject` by any role succeeds; afterwards the
expense is `e` with status rejected, and the request table is the old one row
by row, where the acted-upon request is rejected with the given comments and
time, every other request of that expense that was pending is rejected with its
other columns untouched, and every remaining row is unchanged. -/
theorem reject_cascades (s : State) (now : Nat) (user : Principal) (rid : Nat)
    (comments : Option String) (r : ApprovalRequest) (e : Expense)
    (hr : (selectOwnedRequests s rid user.userId).head? = some r)
    (he : (selectExpenses s r.expenseId).head? = some e) :
    ∃ s', act s now user rid "reject" comments = Except.ok s' ∧
      (selectExpenses s' r.expenseId).head? = some { e with status := Status.rejected } ∧
      List.Forall₂
        (fun q q' =>
          (q.id = rid →
            q' = { q with status := Status.rejected, comments := comments,
                          approvedAt := some now }) ∧
          (q.id ≠ rid → q.expenseId = r.expenseId → q.status = Status.pending →
            q' = { q with status := Status.rejected }) ∧
          (q.id ≠ rid → ¬ (q.expenseId = r.expenseId ∧ q.status = Status.pending) → q' = q))
        s.requests s'.requests := by
  have hid := selectExpenses_head_id s r.expenseId e he
  have hact := act_found s now user rid "reject" comments r e (Or.inr rfl) hr he
  dsimp only at hact
  rw [if_pos rfl] at hact
  refine ⟨_, hact, ?_, ?_⟩
  · show ((rejectExpense s.expenses e.id).filter (fun x => x.id = r.expenseId)).head? = _
    unfold rejectExpense
    rw [head?_filter_map_key Expense.id _ (fun a => by split <;> rfl)]
    have he' : (s.expenses.filter (fun x => x.id = r.expenseId)).head? = some e := he
    rw [he']
    simp [hid]
  · show List.Forall₂ _ s.requests
      (rejectPending (markRequest s.requests now rid "reject" comments) e.id)
    unfold rejectPending markRequest
    rw [List.map_map]
    apply forall₂_map_self
    intro q _
    simp only [Function.comp]
    by_cases h1 : q.id = rid
    · simp [h1]
    · by_cases h2 : q.expenseId = r.expenseId ∧ q.status = Status.pending
      · refine ⟨fun h => absurd h h1, fun _ _ _ => ?_, fun _ h => absurd h2 h⟩
        simp [h1, h2, hid]
      · refine ⟨fun h => absurd h h1, fun _ h3 h4 => absurd ⟨h3, h4⟩ h2, fun _ _ => ?_⟩
        simp [h1, h2, hid]


/-- C2. Director override, expense side: when the lookups find the request `r`
of the acting user and its expense `e`, an `approve` by a principal whose role
is director succeeds, and afterwards the expense is `e` with status approved,
`finalApprovedAt` the time of the call, `finalApprovedBy` the actor,
`directorOverride` true and `currentApprovalStep` equal to
`totalApprovalSteps`, whatever `r.stepOrder` and `e.currentApprovalStep`
were. -/
theorem director_override_expense (s : State) (now : Nat) (user : Principal) (rid : Nat)
    (comments : Option String) (r : ApprovalRequest) (e : Expense)
    (hrole : user.role = "director")
    (hr : (selectOwnedRequests s rid user.userId).head? = some r)
    (he : (selectExpenses s r.expenseId).head? = some e) :
    ∃ s', act s now user rid "approve" comments = Except.ok s' ∧
      (selectExpenses s' r.expenseId).head? =
        some { e with
          status := Status.approved
          finalApprovedAt := some now
          finalApprovedBy := some user.userId
          directorOverride := true
          currentApprovalStep := e.totalApprovalSteps } := by
  have hid := selectExpenses_head_id s r.expenseId e he
  have hact := act_found s now user rid "approve" comments r e (Or.inl rfl) hr he
  dsimp only at hact
  rw [if_neg (by decide), if_pos hrole] at hact
  refine ⟨_, hact, ?_⟩
  show ((overrideExpense s.expenses now user.userId e.id).filter
    (fun x => x.id = r.expenseId)).head? = _
  unfold overrideExpense
  rw [head?_filter_map_key Expense.id _ (fun a => by split <;> rfl)]
  have he' : (s.expenses.filter (fun x => x.id = r.expenseId)).head? = some e := he
  rw [he']
  simp [hid]

/-- C3. Director override, request side: after a director's `approve` on their
own request, the request table is the old one row by row, where the acted-upon
request is approved with the comments the director supplied, every other
request of the same expense that was pending is approved with the override
comment, and every remaining row is unchanged. -/
theorem director_override_requests (s : State) (now : Nat) (user : Principal) (rid : Nat)
    (comments : Option String) (r : ApprovalRequest) (e : Expense)
    (hrole : user.role = "director")
    (hr : (selectOwnedRequests s rid user.userId).head? = some r)
    (he : (selectExpenses s r.expenseId).head? = some e) :
    ∃ s', act s now user rid "approve" comments = Except.ok s' ∧
      List.Forall₂
        (fun q q' =>
          (q.id = rid →
            q' = { q with status := Status.approved, comments := comments,
                          approvedAt := some now }) ∧
          (q.id ≠ rid → q.expenseId = r.expenseId → q.status = Status.pending →
            q' = { q with status := Status.approved, comments := some overrideComment,
                          approvedAt := some now }) ∧
          (q.id ≠ rid → ¬ (q.expenseId = r.expenseId ∧ q.status = Status.pending) → q' = q))
        s.requests s'.requests := by
  have hid := selectExpenses_head_id s r.expenseId e he
  have hact := act_found s now user rid "approve" comments r e (Or.inl rfl) hr he
  dsimp only at hact
  rw [if_neg (by decide), if_pos hrole] at hact
  refine ⟨_, hact, ?_⟩
  show List.Forall₂ _ s.requests
    (overridePending (markRequest s.requests now rid "approve" comments) now e.id)
  unfold overridePending markRequest
  rw [List.map_map]
  apply forall₂_map_self
  intro q _
  simp only [Function.comp]
  by_cases h1 : q.id = rid
  · simp [h1]
  · by_cases h2 : q.expenseId = r.expenseId ∧ q.status = Status.pending
    · refine ⟨fun h => absurd h h1, fun _ _ _ => ?_, fun _ h => absurd h2 h⟩
      simp [h1, h2, hid]
    · refine ⟨fun h => absurd h h1, fun _ h3 h4 => absurd ⟨h3, h4⟩ h2, fun _ _ => ?_⟩
      simp [h1, h2, hid]


/-- The handler on an `approve` by a principal whose role is not director. -/
theorem act_approve_plain (s : State) (now : Nat) (user : Principal) (rid : Nat)
    (comments : Option String) (r : ApprovalRequest) (e : Expense)
    (hrole : user.role ≠ "director")
    (hr : (selectOwnedRequests s rid user.userId).head? = some r)
    (he : (selectExpenses s r.expenseId).head? = some e) :
    act s now user rid "approve" comments =
      Except.ok
        { s with
          expenses :=
            if allApprovalsDone (statsRow s.decimalNumbers
                (approvalStats (markRequest s.requests now rid "approve" comments) e.id)) then
              finalizeExpense s.expenses now user.userId e.id
            else if e.currentApprovalStep < e.totalApprovalSteps then
              advanceExpense s.expenses e.id
            else s.expenses
          requests := markRequest s.requests now rid "approve" comments
          audit := s.audit ++ [actionAudit user e.id "approve" comments r.stepOrder] } := by
  rw [act_found s now user rid "approve" comments r e (Or.inl rfl) hr he]
  dsimp only
  rw [if_neg (by decide), if_neg hrole]
  split_ifs <;> rfl

/-- Non-director approve, finalization: an `approve` by a principal whose role
is not director succeeds and marks the acted-upon request approved, leaving the
other requests as they were.  If the driver hands the sums over as numbers and,
in the resulting request table, no request of the expense is pending and the
approved ones are as many as all of them, the expense is `e` with status
approved, `finalApprovedAt` the time of the call, `finalApprovedBy` the actor
and `currentApprovalStep` equal to `totalApprovalSteps`; if not, the status and
the final-approval columns of the expense are the ones it had. -/
theorem approve_finalizes_on_numbers (s : State) (now : Nat) (user : Principal)
    (rid : Nat) (comments : Option String) (r : ApprovalRequest) (e : Expense)
    (hrole : user.role ≠ "director")
    (hr : (selectOwnedRequests s rid user.userId).head? = some r)
    (he : (selectExpenses s r.expenseId).head? = some e) :
    ∃ s', act s now user rid "approve" comments = Except.ok s' ∧
      List.Forall₂
        (fun q q' =>
          (q.id = rid →
            q' = { q with status := Status.approved, comments := comments,
                          approvedAt := some now }) ∧
          (q.id ≠ rid → q' = q))
        s.requests s'.requests ∧
      ((s.decimalNumbers = true ∧
          (s'.requests.filter (fun q => q.expenseId = r.expenseId)).countP
            (fun q => q.status = Status.pending) = 0 ∧
          (s'.requests.filter (fun q => q.expenseId = r.expenseId)).countP
            (fun q => q.status = Status.approved) =
            (s'.requests.filter (fun q => q.expenseId = r.expenseId)).length) →
        (selectExpenses s' r.expenseId).head? =
          some { e with
            status := Status.approved
            finalApprovedAt := some now
            finalApprovedBy := some user.userId
            currentApprovalStep := e.totalApprovalSteps }) ∧
      (¬ (s.decimalNumbers = true ∧
          (s'.requests.filter (fun q => q.expenseId = r.expenseId)).countP
            (fun q => q.status = Status.pending) = 0 ∧
          (s'.requests.filter (fun q => q.expenseId = r.expenseId)).countP
            (fun q => q.status = Status.approved) =
            (s'.requests.filter (fun q => q.expenseId = r.expenseId)).length) →
        ∃ e', (selectExpenses s' r.expenseId).head? = some e' ∧
          e'.status = e.status ∧ e'.finalApprovedAt = e.finalApprovedAt ∧
          e'.finalApprovedBy = e.finalApprovedBy ∧
          e'.directorOverride = e.directorOverride) := by
  have hid := selectExpenses_head_id s r.expenseId e he
  have he' : (s.expenses.filter (fun x => x.id = r.expenseId)).head? = some e := he
  have hpos := approvalStats_total_pos s now user rid "approve" comments r hr
  have htest := allApprovalsDone_iff s.decimalNumbers
    (approvalStats (markRequest s.requests now rid "approve" comments) e.id)
  rw [hid] at htest
  refine ⟨_, act_approve_plain s now user rid comments r e hrole hr he, ?_, ?_, ?_⟩
  · show List.Forall₂ _ s.requests (markRequest s.requests now rid "approve" comments)
    unfold markRequest
    apply forall₂_map_self
    intro q _
    by_cases h1 : q.id = rid <;> simp [h1]
  · intro hc
    have hc' : allApprovalsDone (statsRow s.decimalNumbers
        (approvalStats (markRequest s.requests now rid "approve" comments) e.id)) = true := by
      rw [hid]; exact htest.mpr ⟨hc.1, hpos, hc.2.1, hc.2.2⟩
    unfold selectExpenses
    dsimp only
    rw [if_pos hc']
    unfold finalizeExpense
    rw [head?_filter_map_key Expense.id _ (fun a => by split <;> rfl), he']
    simp [hid]
  · intro hc
    have hc' : ¬ (allApprovalsDone (statsRow s.decimalNumbers
        (approvalStats (markRequest s.requests now rid "approve" comments) e.id)) = true) := by
      rw [hid]
      intro h
      have h' := htest.mp h
      exact hc ⟨h'.1, h'.2.2.1, h'.2.2.2⟩
    unfold selectExpenses
    dsimp only
    rw [if_neg hc']
    by_cases hlt : e.currentApprovalStep < e.totalApprovalSteps
    · rw [if_pos hlt]
      unfold advanceExpense
      rw [head?_filter_map_key Expense.id _ (fun a => by split <;> rfl), he']
      simp [hid]
    · rw [if_neg hlt, he']
      exact ⟨e, rfl, rfl, rfl, rfl, rfl⟩

/-- C5. Non-director approve, step counter: when an `approve` by a principal
whose role is not director does not finalize the expense (some request of the
expense is still pending, or not all of them are approved), the expense
afterwards is `e` with `currentApprovalStep` raised by one if it was below
`totalApprovalSteps` and kept otherwise; the step order of the approved request
plays no part. -/
theorem approve_advances_step (s : State) (now : Nat) (user : Principal)
    (rid : Nat) (comments : Option String) (r : ApprovalRequest) (e : Expense)
    (hrole : user.role ≠ "director")
    (hr : (selectOwnedRequests s rid user.userId).head? = some r)
    (he : (selectExpenses s r.expenseId).head? = some e) :
    ∃ s', act s now user rid "approve" comments = Except.ok s' ∧
      (¬ ((s'.requests.filter (fun q => q.expenseId = r.expenseId)).countP
            (fun q => q.status = Status.pending) = 0 ∧
          (s'.requests.filter (fun q => q.expenseId = r.expenseId)).countP
            (fun q => q.status = Status.approved) =
            (s'.requests.filter (fun q => q.expenseId = r.expenseId)).length) →
        (selectExpenses s' r.expenseId).head? =
          some { e with
            currentApprovalStep :=
              if e.currentApprovalStep < e.totalApprovalSteps then e.currentApprovalStep + 1
              else e.currentApprovalStep }) := by
  have hid := selectExpenses_head_id s r.expenseId e he
  have he' : (s.expenses.filter (fun x => x.id = r.expenseId)).head? = some e := he
  have htest := allApprovalsDone_iff s.decimalNumbers
    (approvalStats (markRequest s.requests now rid "approve" comments) e.id)
  rw [hid] at htest
  refine ⟨_, act_approve_plain s now user rid comments r e hrole hr he, ?_⟩
  intro hc
  have hc' : ¬ (allApprovalsDone (statsRow s.decimalNumbers
      (approvalStats (markRequest s.requests now rid "approve" comments) e.id)) = true) := by
    rw [hid]
    intro h
    have h' := htest.mp h
    exact hc ⟨h'.2.2.1, h'.2.2.2⟩
  unfold selectExpenses
  dsimp only
  rw [if_neg hc']
  by_cases hlt : e.currentApprovalStep < e.totalApprovalSteps
  · rw [if_pos hlt]
    unfold advanceExpense
    rw [head?_filter_map_key Expense.id _ (fun a => by split <;> rfl), he']
    simp [hid, hlt]
  · rw [if_neg hlt, he']
    simp [hlt]

/-! ## Runs of approvals -/

/-- One approval, by a principal who is not a director, of a pending request of
an expense that is pending at step `a + 1` of `n`, with `a` requests approved
and `p + 1` pending out of `n`, in a table with distinct ids: the call
succeeds and the counts follow; the expense moves to step `a + 2` while
approvals remain; with the last one it becomes approved at step `n` when the
driver hands the sums over as numbers, and stays pending at step `n` when it
does not. -/
theorem approve_step (n eid : Nat) (s : State) (e : Expense) (a p now : Nat) (user : Principal)
    (c : Option String) (q : ApprovalRequest)
    (hnd : (s.requests.map (fun x => x.id)).Nodup)
    (he : (selectExpenses s eid).head? = some e)
    (htot : e.totalApprovalSteps = n) (hst : e.status = Status.pending)
    (hstep : e.currentApprovalStep = a + 1)
    (hT : (approvalStats s.requests eid).total = n)
    (hA : (approvalStats s.requests eid).approved = a)
    (hP : (approvalStats s.requests eid).pending = p + 1)
    (hsum : a + (p + 1) = n)
    (hq : q ∈ s.requests) (hqe : q.expenseId = eid) (hqp : q.status = Status.pending)
    (huser : user.userId = q.approverId) (hrole : user.role ≠ "director") :
    ∃ s1 e1, act s now user q.id "approve" c = Except.ok s1 ∧
      s1.requests = markRequest s.requests now q.id "approve" c ∧
      (selectExpenses s1 eid).head? = some e1 ∧
      e1.totalApprovalSteps = n ∧
      (a + 1 < n → e1.status = Status.pending ∧ e1.currentApprovalStep = a + 2) ∧
      (a + 1 = n →
        e1.status = (if s.decimalNumbers = true then Status.approved else Status.pending) ∧
          e1.currentApprovalStep = n) ∧
      (approvalStats s1.requests eid).total = n ∧
      (approvalStats s1.requests eid).approved = a + 1 ∧
      (approvalStats s1.requests eid).pending = p := by
  have hr : (selectOwnedRequests s q.id user.userId).head? = some q := by
    rw [huser]; exact selectOwned_of_mem q s.requests hnd hq
  have he2 : (selectExpenses s q.expenseId).head? = some e := by rw [hqe]; exact he
  have hid : e.id = eid := selectExpenses_head_id s eid e he
  have he' : (s.expenses.filter (fun x => x.id = eid)).head? = some e := he
  obtain ⟨h1, h2, h3⟩ := approvalStats_markRequest s.requests now c q eid hnd hq hqe hqp
  rw [hT] at h1
  rw [hA] at h2
  rw [hP] at h3
  have h3' : (approvalStats (markRequest s.requests now q.id "approve" c) eid).pending = p := by
    omega
  have htest : allApprovalsDone (statsRow s.decimalNumbers
      (approvalStats (markRequest s.requests now q.id "approve" c) eid)) = true ↔
      (s.decimalNumbers = true ∧ p = 0) := by
    rw [allApprovalsDone_iff, h1, h2, h3']
    constructor
    · rintro ⟨hd, _, hp, _⟩
      exact ⟨hd, hp⟩
    · rintro ⟨hd, hp⟩
      exact ⟨hd, by omega, hp, by omega⟩
  have hact := act_approve_plain s now user q.id c q e hrole hr he2
  rw [hid] at hact
  by_cases hfin : s.decimalNumbers = true ∧ p = 0
  · rw [if_pos (htest.mpr hfin)] at hact
    refine ⟨_, { e with
        status := Status.approved
        finalApprovedAt := some now
        finalApprovedBy := some user.userId
        currentApprovalStep := e.totalApprovalSteps }, hact, rfl, ?_, ?_, ?_, ?_, h1, h2, h3'⟩
    · unfold selectExpenses finalizeExpense
      dsimp only
      rw [head?_filter_map_key Expense.id _ (fun x => by split <;> rfl), he']
      simp only [Option.map_some', if_pos hid]
    · exact htot
    · intro h; omega
    · intro _
      rw [if_pos hfin.1]
      exact ⟨rfl, htot⟩
  · rw [if_neg (fun h => hfin (htest.mp h))] at hact
    by_cases hp : p = 0
    · have hd : ¬ s.decimalNumbers = true := fun h => hfin ⟨h, hp⟩
      have hlt : ¬ e.currentApprovalStep < e.totalApprovalSteps := by omega
      rw [if_neg hlt] at hact
      refine ⟨_, e, hact, rfl, he, htot, ?_, ?_, h1, h2, h3'⟩
      · intro h; omega
      · intro _
        rw [if_neg hd]
        exact ⟨hst, by omega⟩
    · have hlt : e.currentApprovalStep < e.totalApprovalSteps := by omega
      rw [if_pos hlt] at hact
      refine ⟨_, { e with currentApprovalStep := e.currentApprovalStep + 1 }, hact, rfl,
        ?_, ?_, ?_, ?_, h1, h2, h3'⟩
      · unfold selectExpenses advanceExpense
        dsimp only
        rw [head?_filter_map_key Expense.id _ (fun x => by split <;> rfl), he']
        simp only [Option.map_some', if_pos hid]
      · exact htot
      · intro _; exact ⟨hst, by simp [hstep]⟩
      · intro h; omega

/-- A run of approvals of distinct pending requests of one expense, none by a
director, in a table with distinct ids, starting with `a` requests approved
out of `n` and the requests of `order` pending: every prefix of the run
succeeds; after `k` approvals the expense is pending at step `a + k + 1` while
`a + k < n`; once `a + k = n` it is at step `n`, approved when the driver hands
the sums over as numbers and still pending when it does not. -/
theorem approve_run (n eid : Nat) (d : Bool) :
    ∀ (order : List ApprovalRequest) (metas : List (Nat × Nat × String × Option String))
      (s : State) (e : Expense) (a : Nat),
      s.decimalNumbers = d →
      (s.requests.map (fun x => x.id)).Nodup →
      (selectExpenses s eid).head? = some e →
      e.totalApprovalSteps = n →
      (a < n → e.status = Status.pending ∧ e.currentApprovalStep = a + 1) →
      (a = n →
        e.status = (if d = true then Status.approved else Status.pending) ∧
          e.currentApprovalStep = n) →
      (approvalStats s.requests eid).total = n →
      (approvalStats s.requests eid).approved = a →
      (approvalStats s.requests eid).pending = order.length →
      (∀ q ∈ order, q ∈ s.requests ∧ q.expenseId = eid ∧ q.status = Status.pending) →
      (order.map (fun x => x.id)).Nodup →
      a + order.length = n →
      metas.length = order.length →
      (∀ m ∈ metas, m.2.2.1 ≠ "director") →
      ∀ k, k ≤ order.length →
        ∃ sk ek, actAll s ((List.zipWith approveCall order metas).take k) = Except.ok sk ∧
          (selectExpenses sk eid).head? = some ek ∧
          (a + k < n → ek.status = Status.pending ∧ ek.currentApprovalStep = a + k + 1) ∧
          (a + k = n →
            ek.status = (if d = true then Status.approved else Status.pending) ∧
              ek.currentApprovalStep = n) := by
  intro order
  induction order with
  | nil =>
    intro metas s e a _ _ he _ hlt heq _ _ _ _ _ _ _ _ k hk
    have hk0 : k = 0 := by simpa using hk
    subst hk0
    exact ⟨s, e, by simp [actAll], he, by simpa using hlt, by simpa using heq⟩
  | cons q rest ih =>
    intro metas s e a hd hnd he htot hlt heq hT hA hP hmem hond hsum hlen hroles k hk
    cases k with
    | zero => exact ⟨s, e, by simp [actAll], he, by simpa using hlt, by simpa using heq⟩
    | succ k =>
      cases metas with
      | nil => simp at hlen
      | cons m ms =>
        simp only [List.length_cons] at hsum hlen hP hk
        have han : a < n := by omega
        obtain ⟨hst, hstep⟩ := hlt han
        obtain ⟨hq, hqe, hqp⟩ := hmem q (List.mem_cons_self q rest)
        rw [List.map_cons, List.nodup_cons] at hond
        obtain ⟨s1, e1, hact, hreq, he1, htot1, hlt1, heq1, hT1, hA1, hP1⟩ :=
          approve_step n eid s e a rest.length m.1
            { userId := q.approverId, companyId := m.2.1, role := m.2.2.1 } m.2.2.2 q
            hnd he htot hst hstep hT hA hP hsum hq hqe hqp rfl
            (hroles m (List.mem_cons_self m ms))
        rw [hd] at heq1
        have hd1 : s1.decimalNumbers = d := by
          rw [act_ok_decimalNumbers s _ _ _ _ _ s1 hact]; exact hd
        have hmem1 : ∀ x ∈ rest,
            x ∈ s1.requests ∧ x.expenseId = eid ∧ x.status = Status.pending := by
          intro x hx
          obtain ⟨hx1, hx2, hx3⟩ := hmem x (List.mem_cons_of_mem q hx)
          refine ⟨?_, hx2, hx3⟩
          rw [hreq]
          exact mem_markRequest_of_ne s.requests m.1 q.id "approve" m.2.2.2 x hx1
            (fun h => hond.1 (List.mem_map.mpr ⟨x, hx, h⟩))
        have hnd1 : (s1.requests.map (fun x => x.id)).Nodup := by
          rw [hreq, map_id_markRequest]; exact hnd
        obtain ⟨sk, ek, hrun, hek, hltk, heqk⟩ :=
          ih ms s1 e1 (a + 1) hd1 hnd1 he1 htot1 hlt1 heq1 hT1 hA1 hP1 hmem1 hond.2
            (by omega) (by omega) (fun x hx => hroles x (List.mem_cons_of_mem m hx))
            k (by omega)
        refine ⟨sk, ek, ?_, hek, ?_, ?_⟩
        · simp only [List.zipWith_cons_cons, List.take_succ_cons, actAll, approveCall]
          rw [hact]
          exact hrun
        · intro h
          have := hltk (by omega)
          exact ⟨this.1, by omega⟩
        · intro h
          exact heqk (by omega)

/-! ## Reachable states: the invariant -/

/-- What a successful action does to the `expenses` table: one of the four
updates of the handler, on the id of an expense row of the table, or
nothing; a `reject` only rejects, an `approve` never does. -/
theorem act_ok_expenses (s : State) (now : Nat) (user : Principal) (rid : Nat) (action : String)
    (comments : Option String) (s' : State)
    (h : act s now user rid action comments = Except.ok s') :
    s'.nextExpenseId = s.nextExpenseId ∧
    ∃ e ∈ s.expenses,
      (action = "reject" ∧ s'.expenses = rejectExpense s.expenses e.id) ∨
      (action = "approve" ∧
        (s'.expenses = overrideExpense s.expenses now user.userId e.id ∨
         s'.expenses = finalizeExpense s.expenses now user.userId e.id ∨
         (e.currentApprovalStep < e.totalApprovalSteps ∧
           s'.expenses = advanceExpense s.expenses e.id) ∨
         s'.expenses = s.expenses)) := by
  unfold act at h
  split at h
  · exact absurd h (by simp)
  · rename_i hact
    have hact' : action = "approve" ∨ action = "reject" := not_not.mp hact
    split at h
    · exact absurd h (by simp)
    · rename_i r _ _
      split at h
      · exact absurd h (by simp)
      · rename_i e tl hsel
        have hmem : e ∈ s.expenses := by
          have : e ∈ selectExpenses s r.expenseId := by rw [hsel]; exact List.mem_cons_self e tl
          exact (List.mem_filter.mp this).1
        dsimp only at h
        by_cases hrej : action = "reject"
        · rw [if_pos hrej] at h
          injection h with h
          subst h
          exact ⟨rfl, e, hmem, Or.inl ⟨hrej, rfl⟩⟩
        · have happ : action = "approve" := hact'.resolve_right hrej
          rw [if_neg hrej] at h
          refine ⟨?_, e, hmem, Or.inr ⟨happ, ?_⟩⟩
          · split_ifs at h <;> (injection h with h; subst h; rfl)
          · split_ifs at h with h1 h2 h3
            · injection h with h; subst h; exact Or.inl rfl
            · injection h with h; subst h; exact Or.inr (Or.inl rfl)
            · injection h with h; subst h; exact Or.inr (Or.inr (Or.inl ⟨h3, rfl⟩))
            · injection h with h; subst h; exact Or.inr (Or.inr (Or.inr rfl))


/-- The submission leaves the earlier expense rows as they were and appends the
new one with its number of steps, when every earlier id is below the counter. -/
theorem setTotalSteps_append (es : List Expense) (steps k : Nat) (e : Expense)
    (hk : e.id = k) (hlt : ∀ x ∈ es, x.id < k) :
    setTotalSteps (es ++ [e]) steps k = es ++ [{ e with totalApprovalSteps := steps }] := by
  unfold setTotalSteps
  rw [List.map_append]
  congr 1
  · conv_rhs => rw [← List.map_id es]
    apply List.map_congr_left
    intro x hx
    have := hlt x hx
    simp [Nat.ne_of_lt this]
  · simp [hk]

/-- A successful submission, cause by cause: the company row exists, the
conversion gave a number, the line items parsed, the database accepted the
rows, and the committed state and the response are the ones the handler
builds. -/
theorem submit_commits {α : Type} (w : SubmitWorld α) (s s' : State) (user : Principal)
    (payload : ExpensePayload) (lineItems : LineItemsField) (resp : SubmitResponse)
    (h : submit w s user payload lineItems = some (s', resp)) :
    ∃ company converted inserted,
      (s.companies.filter (fun c => c.id = user.companyId)).head? = some company ∧
      convertedAmount w payload company.defaultCurrency = some (JsNumber.num converted) ∧
      lineItemRows s.nextExpenseId lineItems = some inserted ∧
      w.accepts payload converted inserted = true ∧
      s' =
        { s with
          expenses :=
            setTotalSteps
              (s.expenses ++ [newExpense s.nextExpenseId user.companyId user.userId payload])
              (getApprovalFlow s.users user.companyId user.userId).length s.nextExpenseId
          requests :=
            s.requests ++ insertRequests s.nextExpenseId
              (getApprovalFlow s.users user.companyId user.userId) s.nextRequestId
          lineItems := s.lineItems ++ inserted
          audit := s.audit ++
            [{ companyId := user.companyId
               userId := user.userId
               expenseId := some s.nextExpenseId
               action := "EXPENSE_SUBMITTED"
               details := AuditDetails.submitted payload.amount payload.currency
                 payload.categoryId (getApprovalFlow s.users user.companyId user.userId).length }]
          nextExpenseId := s.nextExpenseId + 1
          nextRequestId :=
            s.nextRequestId + (getApprovalFlow s.users user.companyId user.userId).length } ∧
      resp =
        { expenseId := s.nextExpenseId
          approvalSteps := (getApprovalFlow s.users user.companyId user.userId).length } := by
  unfold submit at h
  split at h
  · exact absurd h (by simp)
  · rename_i company hcompany
    split at h
    · exact absurd h (by simp)
    · exact absurd h (by simp)
    · rename_i converted hconverted
      dsimp only at h
      split at h
      · exact absurd h (by simp)
      · rename_i inserted hinserted
        split at h
        · rename_i haccepts
          injection h with h
          injection h with h1 h2
          exact ⟨company, converted, inserted, hcompany, hconverted, hinserted, haccepts,
            h1.symm, h2.symm⟩
        · exact absurd h (by simp)

/-- The submission succeeds when the company row exists, the conversion gives
a number, the line items parse and the database accepts the rows. -/
theorem submit_of_accepted {α : Type} (w : SubmitWorld α) (s : State) (user : Principal)
    (payload : ExpensePayload) (lineItems : LineItemsField) (company : CompanyRow) (converted : α)
    (inserted : List LineItem)
    (hcompany : (s.companies.filter (fun c => c.id = user.companyId)).head? = some company)
    (hconverted :
      convertedAmount w payload company.defaultCurrency = some (JsNumber.num converted))
    (hinserted : lineItemRows s.nextExpenseId lineItems = some inserted)
    (haccepts : w.accepts payload converted inserted = true) :
    ∃ s' resp, submit w s user payload lineItems = some (s', resp) := by
  unfold submit
  simp only [hcompany, hconverted, hinserted, haccepts, if_true]
  exact ⟨_, _, rfl⟩

/-- What a successful submission does to the `expenses` table. -/
theorem submit_ok_expenses {α : Type} (w : SubmitWorld α) (s s' : State) (user : Principal)
    (payload : ExpensePayload) (lineItems : LineItemsField) (resp : SubmitResponse)
    (h : submit w s user payload lineItems = some (s', resp)) :
    s'.nextExpenseId = s.nextExpenseId + 1 ∧
    s'.expenses =
      setTotalSteps (s.expenses ++ [newExpense s.nextExpenseId user.companyId user.userId payload])
        (getApprovalFlow s.users user.companyId user.userId).length s.nextExpenseId := by
  obtain ⟨_, _, _, _, _, _, _, hs, _⟩ := submit_commits w s s' user payload lineItems resp h
  subst hs
  exact ⟨rfl, rfl⟩

/-- The invariant of the reachable states: expense ids are distinct and below
the counter, a pending expense has its step between 1 and the larger of its
total and 1, and an approved expense has its step equal to its total. -/
theorem reachable_invariant (s : State) (h : Reachable s) :
    (s.expenses.map (fun e => e.id)).Nodup ∧
    (∀ e ∈ s.expenses, e.id < s.nextExpenseId) ∧
    (∀ e ∈ s.expenses, e.status = Status.pending →
      1 ≤ e.currentApprovalStep ∧ e.currentApprovalStep ≤ max e.totalApprovalSteps 1) ∧
    (∀ e ∈ s.expenses, e.status = Status.approved →
      e.currentApprovalStep = e.totalApprovalSteps) := by
  induction h with
  | init s hE hR => simp [hE]
  | directory s companies users _ ih => exact ih
  | submit w s s' user payload lineItems resp _ hs ih =>
    obtain ⟨hnd, hlt, hpend, happ⟩ := ih
    obtain ⟨hnext, hexp⟩ := submit_ok_expenses w s s' user payload lineItems resp hs
    rw [setTotalSteps_append s.expenses _ s.nextExpenseId
      (newExpense s.nextExpenseId user.companyId user.userId payload) rfl hlt] at hexp
    rw [hexp, hnext]
    refine ⟨?_, ?_, ?_, ?_⟩
    · rw [List.map_append, List.nodup_append]
      refine ⟨hnd, by simp, ?_⟩
      intro a ha hb
      simp only [List.map_cons, List.map_nil, List.mem_singleton] at hb
      obtain ⟨x, hx, hxa⟩ := List.mem_map.mp ha
      have := hlt x hx
      simp only [newExpense] at hb
      omega
    · intro e he
      rcases List.mem_append.mp he with he | he
      · exact Nat.lt_succ_of_lt (hlt e he)
      · simp only [List.mem_singleton] at he
        subst he
        simp [newExpense]
    · intro e he hst
      rcases List.mem_append.mp he with he | he
      · exact hpend e he hst
      · simp only [List.mem_singleton] at he
        subst he
        simp [newExpense]
    · intro e he hst
      rcases List.mem_append.mp he with he | he
      · exact happ e he hst
      · simp only [List.mem_singleton] at he
        subst he
        simp [newExpense] at hst
  | act s s' now user rid action comments _ ha ih =>
    obtain ⟨hnd, hlt, hpend, happ⟩ := ih
    obtain ⟨hnext, e, hmem, hcase⟩ := act_ok_expenses s now user rid action comments s' ha
    have huniq : ∀ x ∈ s.expenses, x.id = e.id → x = e := fun x hx hxe =>
      List.inj_on_of_nodup_map hnd hx hmem hxe
    rw [hnext]
    rcases hcase with ⟨_, hexp⟩ | ⟨_, hexp | hexp | ⟨hstep, hexp⟩ | hexp⟩
    · rw [hexp]
      unfold rejectExpense
      refine ⟨?_, ?_, ?_, ?_⟩
      · rw [List.map_map]
        have : ((fun e => e.id) ∘ fun x : Expense =>
            if x.id = e.id then { x with status := Status.rejected } else x) =
            fun e => e.id := by
          funext x; simp only [Function.comp]; split <;> rfl
        rw [this]; exact hnd
      · intro x hx
        obtain ⟨y, hy, rfl⟩ := List.mem_map.mp hx
        have := hlt y hy
        split <;> exact this
      · intro x hx hst
        obtain ⟨y, hy, rfl⟩ := List.mem_map.mp hx
        split at hst
        · simp at hst
        · rename_i hne; simp only [if_neg hne]; exact hpend y hy hst
      · intro x hx hst
        obtain ⟨y, hy, rfl⟩ := List.mem_map.mp hx
        split at hst
        · simp at hst
        · rename_i hne; simp only [if_neg hne]; exact happ y hy hst
    · rw [hexp]
      unfold overrideExpense
      refine ⟨?_, ?_, ?_, ?_⟩
      · rw [List.map_map]
        have : ((fun e => e.id) ∘ fun x : Expense =>
            if x.id = e.id then
              { x with
                status := Status.approved
                finalApprovedAt := some now
                finalApprovedBy := some user.userId
                directorOverride := true
                currentApprovalStep := x.totalApprovalSteps }
            else x) = fun e => e.id := by
          funext x; simp only [Function.comp]; split <;> rfl
        rw [this]; exact hnd
      · intro x hx
        obtain ⟨y, hy, rfl⟩ := List.mem_map.mp hx
        have := hlt y hy
        split <;> exact this
      · intro x hx hst
        obtain ⟨y, hy, rfl⟩ := List.mem_map.mp hx
        split at hst
        · simp at hst
        · rename_i hne; simp only [if_neg hne]; exact hpend y hy hst
      · intro x hx hst
        obtain ⟨y, hy, rfl⟩ := List.mem_map.mp hx
        split at hst
        · rename_i heq; simp only [if_pos heq]
        · rename_i hne; simp only [if_neg hne]; exact happ y hy hst
    · rw [hexp]
      unfold finalizeExpense
      refine ⟨?_, ?_, ?_, ?_⟩
      · rw [List.map_map]
        have : ((fun e => e.id) ∘ fun x : Expense =>
            if x.id = e.id then
              { x with
                status := Status.approved
                finalApprovedAt := some now
                finalApprovedBy := some user.userId
                currentApprovalStep := x.totalApprovalSteps }
            else x) = fun e => e.id := by
          funext x; simp only [Function.comp]; split <;> rfl
        rw [this]; exact hnd
      · intro x hx
        obtain ⟨y, hy, rfl⟩ := List.mem_map.mp hx
        have := hlt y hy
        split <;> exact this
      · intro x hx hst
        obtain ⟨y, hy, rfl⟩ := List.mem_map.mp hx
        split at hst
        · simp at hst
        · rename_i hne; simp only [if_neg hne]; exact hpend y hy hst
      · intro x hx hst
        obtain ⟨y, hy, rfl⟩ := List.mem_map.mp hx
        split at hst
        · rename_i heq; simp only [if_pos heq]
        · rename_i hne; simp only [if_neg hne]; exact happ y hy hst
    · rw [hexp]
      unfold advanceExpense
      refine ⟨?_, ?_, ?_, ?_⟩
      · rw [List.map_map]
        have : ((fun e => e.id) ∘ fun x : Expense =>
            if x.id = e.id then { x with currentApprovalStep := x.currentApprovalStep + 1 }
            else x) = fun e => e.id := by
          funext x; simp only [Function.comp]; split <;> rfl
        rw [this]; exact hnd
      · intro x hx
        obtain ⟨y, hy, rfl⟩ := List.mem_map.mp hx
        have := hlt y hy
        split <;> exact this
      · intro x hx hst
        obtain ⟨y, hy, rfl⟩ := List.mem_map.mp hx
        by_cases hye : y.id = e.id
        · have hy' := huniq y hy hye
          subst hy'
          simp only [if_pos hye] at hst ⊢
          have := hpend y hy hst
          simp only [le_max_iff] at this ⊢
          show 1 ≤ y.currentApprovalStep + 1 ∧
            (y.currentApprovalStep + 1 ≤ y.totalApprovalSteps ∨ y.currentApprovalStep + 1 ≤ 1)
          omega
        · simp only [if_neg hye] at hst ⊢
          exact hpend y hy hst
      · intro x hx hst
        obtain ⟨y, hy, rfl⟩ := List.mem_map.mp hx
        by_cases hye : y.id = e.id
        · have hy' := huniq y hy hye
          subst hy'
          simp only [if_pos hye] at hst
          have := happ y hy hst
          omega
        · simp only [if_neg hye] at hst ⊢
          exact happ y hy hst
    · rw [hexp]
      exact ⟨hnd, hlt, hpend, happ⟩

/-- The cascade of a rejection keeps the `id` column. -/
theorem map_id_rejectPending (l : List ApprovalRequest) (k : Nat) :
    (rejectPending l k).map (fun x => x.id) = l.map (fun x => x.id) := by
  unfold rejectPending
  rw [List.map_map]
  apply List.map_congr_left
  intro x _
  simp only [Function.comp]
  split <;> rfl

/-- The override keeps the `id` column. -/
theorem map_id_overridePending (l : List ApprovalRequest) (now k : Nat) :
    (overridePending l now k).map (fun x => x.id) = l.map (fun x => x.id) := by
  unfold overridePending
  rw [List.map_map]
  apply List.map_congr_left
  intro x _
  simp only [Function.comp]
  split <;> rfl

/-- A successful action keeps the ids of the approval requests and the
counter. -/
theorem act_ok_request_ids (s : State) (now : Nat) (user : Principal) (rid : Nat)
    (action : String) (comments : Option String) (s' : State)
    (h : act s now user rid action comments = Except.ok s') :
    s'.nextRequestId = s.nextRequestId ∧
    s'.requests.map (fun x => x.id) = s.requests.map (fun x => x.id) := by
  unfold act at h
  split at h
  · exact absurd h (by simp)
  · split at h
    · exact absurd h (by simp)
    · split at h
      · exact absurd h (by simp)
      · dsimp only at h
        split_ifs at h <;>
          (injection h with h; subst h
           first
             | exact ⟨rfl, by rw [map_id_rejectPending, map_id_markRequest]⟩
             | exact ⟨rfl, by rw [map_id_overridePending, map_id_markRequest]⟩
             | exact ⟨rfl, map_id_markRequest _ _ _ _ _⟩)

/-- The requests a submission inserts take the next ids in a row. -/
theorem map_id_insertRequests (expenseId : Nat) (flow : List ApprovalChainEntry) (nextId : Nat) :
    (insertRequests expenseId flow nextId).map (fun x => x.id) =
      List.range' nextId flow.length := by
  induction flow generalizing nextId with
  | nil => rfl
  | cons a rest ih =>
    simp only [insertRequests, List.map_cons, List.length_cons, List.range'_succ, ih]

/-- What a successful submission does to the `approval_requests` table. -/
theorem submit_ok_requests {α : Type} (w : SubmitWorld α) (s s' : State) (user : Principal)
    (payload : ExpensePayload) (lineItems : LineItemsField) (resp : SubmitResponse)
    (h : submit w s user payload lineItems = some (s', resp)) :
    s'.nextRequestId =
      s.nextRequestId + (getApprovalFlow s.users user.companyId user.userId).length ∧
    s'.requests =
      s.requests ++ insertRequests s.nextExpenseId
        (getApprovalFlow s.users user.companyId user.userId) s.nextRequestId := by
  obtain ⟨_, _, _, _, _, _, _, hs, _⟩ := submit_commits w s s' user payload lineItems resp h
  subst hs
  exact ⟨rfl, rfl⟩

/-- In every reachable state the ids of the approval requests are distinct and
below the counter. -/
theorem reachable_request_ids (s : State) (h : Reachable s) :
    (s.requests.map (fun x => x.id)).Nodup ∧ ∀ r ∈ s.requests, r.id < s.nextRequestId := by
  induction h with
  | init s hE hR => simp [hR]
  | directory s companies users _ ih => exact ih
  | submit w s s' user payload lineItems resp _ hs ih =>
    obtain ⟨hnd, hlt⟩ := ih
    obtain ⟨hnext, hreq⟩ := submit_ok_requests w s s' user payload lineItems resp hs
    rw [hreq, hnext]
    constructor
    · rw [List.map_append, map_id_insertRequests, List.nodup_append]
      refine ⟨hnd, List.nodup_range' _ _, ?_⟩
      intro a ha hb
      obtain ⟨x, hx, rfl⟩ := List.mem_map.mp ha
      have h1 := hlt x hx
      have h2 := (List.mem_range'_1.mp hb).1
      omega
    · intro r hr
      rcases List.mem_append.mp hr with hr | hr
      · have := hlt r hr; omega
      · have hmem : r.id ∈ (insertRequests s.nextExpenseId
            (getApprovalFlow s.users user.companyId user.userId) s.nextRequestId).map
            (fun x => x.id) := List.mem_map.mpr ⟨r, hr, rfl⟩
        rw [map_id_insertRequests] at hmem
        exact (List.mem_range'_1.mp hmem).2
  | act s s' now user rid action comments _ ha ih =>
    obtain ⟨hnd, hlt⟩ := ih
    obtain ⟨hnext, hids⟩ := act_ok_request_ids s now user rid action comments s' ha
    rw [hnext, hids]
    refine ⟨hnd, ?_⟩
    intro r hr
    have hmem : r.id ∈ s'.requests.map (fun x => x.id) := List.mem_map.mpr ⟨r, hr, rfl⟩
    rw [hids] at hmem
    obtain ⟨x, hx, hxr⟩ := List.mem_map.mp hmem
    rw [← hxr]
    exact hlt x hx

/-! ## Witnesses for the branch theorems -/

/-- The finance user of the example rejecting request 2 of the fresh three-step
expense: the lookups find the request and the expense, the call succeeds and
the expense is rejected. -/
theorem reject_cascades_witness :
    (selectOwnedRequests demoState 2 demoFinance.userId).head? = some (demoRequest 2 8) ∧
    (selectExpenses demoState (demoRequest 2 8).expenseId).head? = some demoExpense ∧
    ∃ s', act demoState 100 demoFinance 2 "reject" (some "no receipt") = Except.ok s' ∧
      (selectExpenses s' 1).head? = some { demoExpense with status := Status.rejected } :=
  ⟨by decide, by decide,
    (reject_cascades demoState 100 demoFinance 2 (some "no receipt") (demoRequest 2 8)
      demoExpense (by decide) (by decide)).imp fun _ h => ⟨h.1, h.2.1⟩⟩

/-- The director of the example approving request 3 while the expense is at
step 2 with requests approved, pending, pending: the expense is approved at
step 3 of 3 with the override flag. -/
theorem director_override_expense_witness :
    demoDirector.role = "director" ∧
    (selectOwnedRequests demoMidState 3 demoDirector.userId).head? = some (demoRequest 3 9) ∧
    (selectExpenses demoMidState (demoRequest 3 9).expenseId).head? =
      some { demoExpense with currentApprovalStep := 2 } ∧
    ∃ s', act demoMidState 200 demoDirector 3 "approve" (some "fine") = Except.ok s' ∧
      (selectExpenses s' 1).head? =
        some { demoExpense with
          status := Status.approved
          finalApprovedAt := some 200
          finalApprovedBy := some 9
          directorOverride := true
          currentApprovalStep := 3 } :=
  ⟨rfl, by decide, by decide,
    director_override_expense demoMidState 200 demoDirector 3 (some "fine") (demoRequest 3 9)
      { demoExpense with currentApprovalStep := 2 } rfl (by decide) (by decide)⟩

/-- The same override on the request side: the call succeeds and the request
table is related to the old one as `director_override_requests` states. -/
theorem director_override_requests_witness :
    demoDirector.role = "director" ∧
    (selectOwnedRequests demoMidState 3 demoDirector.userId).head? = some (demoRequest 3 9) ∧
    ∃ s', act demoMidState 200 demoDirector 3 "approve" (some "fine") = Except.ok s' ∧
      List.Forall₂
        (fun q q' =>
          (q.id = 3 →
            q' = { q with status := Status.approved, comments := some "fine",
                          approvedAt := some 200 }) ∧
          (q.id ≠ 3 → q.expenseId = 1 → q.status = Status.pending →
            q' = { q with status := Status.approved, comments := some overrideComment,
                          approvedAt := some 200 }) ∧
          (q.id ≠ 3 → ¬ (q.expenseId = 1 ∧ q.status = Status.pending) → q' = q))
        demoMidState.requests s'.requests :=
  ⟨rfl, by decide,
    director_override_requests demoMidState 200 demoDirector 3 (some "fine") (demoRequest 3 9)
      { demoExpense with currentApprovalStep := 2 } rfl (by decide) (by decide)⟩

/-- The finance user of the example approving request 2 while request 3 is
pending: the hypotheses of `approve_finalizes_on_numbers` hold, the call
succeeds, and as not all requests are approved the expense stays pending. -/
theorem approve_finalizes_on_numbers_witness :
    demoFinance.role ≠ "director" ∧
    (selectOwnedRequests demoMidState 2 demoFinance.userId).head? = some (demoRequest 2 8) ∧
    (selectExpenses demoMidState (demoRequest 2 8).expenseId).head? =
      some { demoExpense with currentApprovalStep := 2 } ∧
    ∃ s', act demoMidState 200 demoFinance 2 "approve" none = Except.ok s' ∧
      s'.requests.map (fun q => q.status) =
        [Status.approved, Status.approved, Status.pending] ∧
      ∃ e', (selectExpenses s' 1).head? = some e' ∧ e'.status = Status.pending := by
  refine ⟨by decide, by decide, by decide, ?_⟩
  obtain ⟨s', hact, _, _, hkeep⟩ :=
    approve_finalizes_on_numbers demoMidState 200 demoFinance 2 none (demoRequest 2 8)
      { demoExpense with currentApprovalStep := 2 } (by decide) (by decide) (by decide)
  have hs : s' = stateAfter demoMidState [(200, demoFinance, 2, "approve", none)] := by
    have h2 : act demoMidState 200 demoFinance 2 "approve" none =
        Except.ok (stateAfter demoMidState [(200, demoFinance, 2, "approve", none)]) := rfl
    rw [h2] at hact
    exact (Except.ok.inj hact).symm
  subst hs
  obtain ⟨e', he', hst, _⟩ := hkeep (by decide)
  exact ⟨_, hact, by decide, e', he', hst⟩

/-- C4. The manager of the example approves request 4, the only request of the
one-step expense 2 of `demoPairState`, on a pool with the driver's defaults:
the call succeeds and leaves the one request of expense 2 approved, none
pending, and yet expense 2 is as it was, pending at step 1 with no final
approver.  The same call on a pool created with `decimalNumbers` leaves the
expense approved, finally approved by the manager. -/
theorem sole_approval_not_finalized :
    demoPairState.decimalNumbers = false ∧
    demoManager.role ≠ "director" ∧
    act demoPairState 100 demoManager 4 "approve" none =
      Except.ok (stateAfter demoPairState [(100, demoManager, 4, "approve", none)]) ∧
    ((stateAfter demoPairState [(100, demoManager, 4, "approve", none)]).requests.filter
      (fun q => q.expenseId = 2)).map (fun q => q.status) = [Status.approved] ∧
    (selectExpenses (stateAfter demoPairState [(100, demoManager, 4, "approve", none)])
      2).head? = some { demoExpense with id := 2, totalApprovalSteps := 1 } ∧
    (selectExpenses
      (stateAfter { demoPairState with decimalNumbers := true }
        [(100, demoManager, 4, "approve", none)]) 2).head? =
      some { demoExpense with
        id := 2
        totalApprovalSteps := 1
        status := Status.approved
        finalApprovedAt := some 100
        finalApprovedBy := some 7 } :=
  ⟨rfl, by decide, rfl, by decide, by decide, by decide⟩

/-- The manager of the example approving request 1 of the fresh three-step
expense: the hypotheses of `approve_advances_step` hold, the call succeeds and
the expense moves from step 1 to step 2. -/
theorem approve_advances_step_witness :
    demoManager.role ≠ "director" ∧
    (selectOwnedRequests demoState 1 demoManager.userId).head? = some (demoRequest 1 7) ∧
    (selectExpenses demoState (demoRequest 1 7).expenseId).head? = some demoExpense ∧
    ∃ s', act demoState 100 demoManager 1 "approve" (some "ok") = Except.ok s' ∧
      (selectExpenses s' 1).head? = some { demoExpense with currentApprovalStep := 2 } := by
  refine ⟨by decide, by decide, by decide, ?_⟩
  obtain ⟨s', hact, hstep⟩ :=
    approve_advances_step demoState 100 demoManager 1 (some "ok") (demoRequest 1 7)
      demoExpense (by decide) (by decide) (by decide)
  have hs : s' = demoMidState := by
    have h2 : act demoState 100 demoManager 1 "approve" (some "ok") = Except.ok demoMidState :=
      rfl
    rw [h2] at hact
    exact (Except.ok.inj hact).symm
  subst hs
  exact ⟨_, hact, hstep (by decide)⟩

/-! ## Sequences of actions and reachable states -/

/-- Sequential approval in general: take a state whose request ids are
distinct (as they are in every reachable state, `reachable_request_ids`) and an
expense that is pending at step 1 with `n >= 1` steps, whose requests are
exactly the rows of `order`, all pending, listed by step order 1, ..., n.  When
their approvers approve them in that order, none acting with the director role,
every approval succeeds; after the first `k` of them the expense is pending at
step `k + 1` if `k < n`; after all `n` it is at step `n`, approved when the
driver hands the sums over as numbers and still pending when it does not. -/
theorem sequential_approval_run (s : State) (eid : Nat) (e : Expense)
    (order : List ApprovalRequest) (metas : List (Nat × Nat × String × Option String))
    (hpk : (s.requests.map (fun x => x.id)).Nodup)
    (he : (selectExpenses s eid).head? = some e)
    (hst : e.status = Status.pending)
    (hstep : e.currentApprovalStep = 1)
    (htot : e.totalApprovalSteps = order.length)
    (hperm : List.Perm order (s.requests.filter (fun q => q.expenseId = eid)))
    (hpend : ∀ q ∈ order, q.status = Status.pending)
    (_hsteps : order.map (fun q => q.stepOrder) = List.range' 1 order.length)
    (hn : 1 ≤ order.length)
    (hlen : metas.length = order.length)
    (hroles : ∀ m ∈ metas, m.2.2.1 ≠ "director") :
    ∀ k, k ≤ order.length →
      ∃ sk ek, actAll s ((List.zipWith approveCall order metas).take k) = Except.ok sk ∧
        (selectExpenses sk eid).head? = some ek ∧
        (k < order.length →
          ek.status = Status.pending ∧ ek.currentApprovalStep = k + 1) ∧
        (k = order.length →
          ek.status = (if s.decimalNumbers = true then Status.approved else Status.pending) ∧
            ek.currentApprovalStep = order.length) := by
  have hin : ∀ q, q ∈ s.requests.filter (fun q => q.expenseId = eid) → q ∈ order :=
    fun q hq => hperm.symm.subset hq
  have hT : (approvalStats s.requests eid).total = order.length := hperm.length_eq.symm
  have hA : (approvalStats s.requests eid).approved = 0 := by
    show List.countP _ _ = 0
    rw [List.countP_eq_zero]
    intro q hq
    simp [hpend q (hin q hq)]
  have hP : (approvalStats s.requests eid).pending = order.length := by
    show List.countP _ _ = _
    rw [hperm.length_eq, List.countP_eq_length]
    intro q hq
    simp [hpend q (hin q hq)]
  have hmem : ∀ q ∈ order, q ∈ s.requests ∧ q.expenseId = eid ∧ q.status = Status.pending := by
    intro q hq
    have := List.mem_filter.mp (hperm.subset hq)
    exact ⟨this.1, by simpa using this.2, hpend q hq⟩
  have hond : (order.map (fun x => x.id)).Nodup := by
    have hsub : ((s.requests.filter (fun q => q.expenseId = eid)).map (fun x => x.id)).Sublist
        (s.requests.map (fun x => x.id)) := (List.filter_sublist _).map _
    exact ((hperm.map (fun x => x.id)).nodup_iff).mpr (hpk.sublist hsub)
  intro k hk
  obtain ⟨sk, ek, hrun, hek, hlt, heq⟩ :=
    approve_run order.length eid s.decimalNumbers order metas s e 0 rfl hpk he htot
      (fun _ => ⟨hst, by simp [hstep]⟩) (fun h => by omega) hT hA hP hmem hond
      (by omega) hlen hroles k hk
  exact ⟨sk, ek, hrun, hek, fun h => by simpa using hlt (by omega),
    fun h => heq (by omega)⟩

/-- The fresh three-step expense of the example, approved by its manager, its
finance user and then the approver of step 3 acting as an admin, on a pool
with the driver's defaults: the hypotheses of `sequential_approval_run` hold,
so every prefix of the run behaves as stated, and the expense is still pending
after the third approval. -/
theorem sequential_approval_run_witness :
    (demoState.requests.map (fun x => x.id)).Nodup ∧
    (selectExpenses demoState 1).head? = some demoExpense ∧
    List.Perm [demoRequest 1 7, demoRequest 2 8, demoRequest 3 9]
      (demoState.requests.filter (fun q => q.expenseId = 1)) ∧
    ∀ k, k ≤ 3 →
      ∃ sk ek,
        actAll demoState
          ((List.zipWith approveCall [demoRequest 1 7, demoRequest 2 8, demoRequest 3 9]
            [(100, 1, "manager", none), (101, 1, "finance", some "ok"),
             (102, 1, "admin", none)]).take k) = Except.ok sk ∧
        (selectExpenses sk 1).head? = some ek ∧
        (k < 3 → ek.status = Status.pending ∧ ek.currentApprovalStep = k + 1) ∧
        (k = 3 → ek.status = Status.pending ∧ ek.currentApprovalStep = 3) :=
  ⟨by decide, by decide, List.Perm.refl _,
    sequential_approval_run demoState 1 demoExpense
      [demoRequest 1 7, demoRequest 2 8, demoRequest 3 9]
      [(100, 1, "manager", none), (101, 1, "finance", some "ok"), (102, 1, "admin", none)]
      (by decide) (by decide) rfl rfl rfl (List.Perm.refl _) (by decide) (by decide)
      (by decide) rfl (by decide)⟩

/-- C6. The fresh three-step expense that employee 5 submits in
`demoAdminEmpty`, on a pool with the driver's defaults, approved in step order
by its manager, its finance user and its admin, none of them a director: the
three calls succeed; after the second the expense is pending at step 3; after
the third all three requests are approved and the expense is still pending at
step 3 of 3, with no final approver.  The same run on a pool created with
`decimalNumbers` ends with the expense approved at step 3. -/
theorem sequential_approvals_not_finalized :
    demoAdminEmpty.decimalNumbers = false ∧
    submit demoWorld demoAdminEmpty demoEmployee demoPayload LineItemsField.absent =
      some (demoAdminState, { expenseId := 1, approvalSteps := 3 }) ∧
    actAll demoAdminState
      [(100, demoManager, 1, "approve", none), (101, demoFinance, 2, "approve", none),
       (102, demoAdmin, 3, "approve", none)] =
      Except.ok
        (stateAfter demoAdminState
          [(100, demoManager, 1, "approve", none), (101, demoFinance, 2, "approve", none),
           (102, demoAdmin, 3, "approve", none)]) ∧
    (stateAfter demoAdminState
      [(100, demoManager, 1, "approve", none),
       (101, demoFinance, 2, "approve", none)]).expenses =
      [{ demoExpense with currentApprovalStep := 3 }] ∧
    (stateAfter demoAdminState
      [(100, demoManager, 1, "approve", none), (101, demoFinance, 2, "approve", none),
       (102, demoAdmin, 3, "approve", none)]).requests.map (fun q => q.status) =
      [Status.approved, Status.approved, Status.approved] ∧
    (stateAfter demoAdminState
      [(100, demoManager, 1, "approve", none), (101, demoFinance, 2, "approve", none),
       (102, demoAdmin, 3, "approve", none)]).expenses =
      [{ demoExpense with currentApprovalStep := 3 }] ∧
    (stateAfter { demoAdminState with decimalNumbers := true }
      [(100, demoManager, 1, "approve", none), (101, demoFinance, 2, "approve", none),
       (102, demoAdmin, 3, "approve", none)]).expenses =
      [{ demoExpense with
          status := Status.approved
          currentApprovalStep := 3
          finalApprovedAt := some 102
          finalApprovedBy := some 10 }] :=
  ⟨rfl, by decide, rfl, by decide, by decide, by decide, by decide⟩

/-- The example of a second action on one request: the manager approves
request 1 of the fresh three-step expense, which leaves it approved; the same
manager then rejects the same request, and the call succeeds, leaving all three
requests and the expense rejected.  So an action on a request that is already
approved is not refused and does change the state (C7). -/
theorem repeated_action_counterexample :
    act demoState 100 demoManager 1 "approve" (some "ok") = Except.ok demoMidState ∧
    (selectOwnedRequests demoMidState 1 demoManager.userId).head?.map (fun q => q.status) =
      some Status.approved ∧
    act demoMidState 101 demoManager 1 "reject" (some "mistake") =
      Except.ok (stateAfter demoMidState [(101, demoManager, 1, "reject", some "mistake")]) ∧
    (stateAfter demoMidState [(101, demoManager, 1, "reject", some "mistake")]).requests.map
      (fun q => q.status) = [Status.rejected, Status.rejected, Status.rejected] ∧
    (stateAfter demoMidState [(101, demoManager, 1, "reject", some "mistake")]).expenses.map
      (fun x => x.status) = [Status.rejected] :=
  ⟨rfl, by decide, rfl, by decide, by decide⟩

/-- C7, amended. The handler does not look at the status of the request it
acts on: when the lookups find the request `r` of the acting user, whatever its
status, and its expense, an `approve` or a `reject` succeeds; every row with
the id of the request gets the status of the action (approved for `approve`,
rejected for `reject`), the given comments and the time of the call, and one
audit record is appended. -/
theorem act_ignores_request_status (s : State) (now : Nat) (user : Principal) (rid : Nat)
    (action : String) (comments : Option String) (r : ApprovalRequest) (e : Expense)
    (ha : action = "approve" ∨ action = "reject")
    (hr : (selectOwnedRequests s rid user.userId).head? = some r)
    (he : (selectExpenses s r.expenseId).head? = some e) :
    ∃ s', act s now user rid action comments = Except.ok s' ∧
      List.Forall₂
        (fun q q' =>
          q.id = rid →
            q' = { q with
              status := if action = "approve" then Status.approved else Status.rejected
              comments := comments
              approvedAt := some now })
        s.requests s'.requests ∧
      s'.audit = s.audit ++ [actionAudit user e.id action comments r.stepOrder] := by
  have hact := act_found s now user rid action comments r e ha hr he
  dsimp only at hact
  by_cases hrej : action = "reject"
  · rw [if_pos hrej] at hact
    refine ⟨_, hact, ?_, rfl⟩
    show List.Forall₂ _ s.requests
      (rejectPending (markRequest s.requests now rid action comments) e.id)
    unfold rejectPending markRequest
    rw [List.map_map]
    apply forall₂_map_self
    intro q _ hq
    subst hrej
    simp [Function.comp, hq]
  · have happ : action = "approve" := ha.resolve_right hrej
    rw [if_neg hrej] at hact
    by_cases hdir : user.role = "director"
    · rw [if_pos hdir] at hact
      refine ⟨_, hact, ?_, rfl⟩
      show List.Forall₂ _ s.requests
        (overridePending (markRequest s.requests now rid action comments) now e.id)
      unfold overridePending markRequest
      rw [List.map_map]
      apply forall₂_map_self
      intro q _ hq
      subst happ
      simp [Function.comp, hq]
    · rw [if_neg hdir] at hact
      have hreq : ∀ s' : State, s'.requests = markRequest s.requests now rid action comments →
          List.Forall₂
            (fun q q' =>
              q.id = rid →
                q' = { q with
                  status := if action = "approve" then Status.approved else Status.rejected
                  comments := comments
                  approvedAt := some now })
            s.requests s'.requests := by
        intro s' hs'
        rw [hs']
        unfold markRequest
        apply forall₂_map_self
        intro q _ hq
        simp [hq]
      split_ifs at hact
      · exact ⟨_, hact, hreq _ rfl, rfl⟩
      · exact ⟨_, hact, hreq _ rfl, rfl⟩
      · exact ⟨_, hact, hreq _ rfl, rfl⟩

/-- The manager of the example rejecting the request they had approved: the
hypotheses of `act_ignores_request_status` hold, and the call succeeds. -/
theorem act_ignores_request_status_witness :
    (selectOwnedRequests demoMidState 1 demoManager.userId).head?.map (fun q => q.status) =
      some Status.approved ∧
    ∃ s', act demoMidState 101 demoManager 1 "reject" (some "mistake") = Except.ok s' ∧
      s'.audit = demoMidState.audit ++
        [actionAudit demoManager 1 "reject" (some "mistake") 1] :=
  ⟨by decide,
    (act_ignores_request_status demoMidState 101 demoManager 1 "reject" (some "mistake")
      { demoRequest 1 7 with
        status := Status.approved, comments := some "ok", approvedAt := some 100 }
      { demoExpense with currentApprovalStep := 2 }
      (Or.inr rfl) (by decide) (by decide)).imp fun _ h => ⟨h.1, h.2.2⟩⟩

/-- The example of an approved expense that does not stay approved: the
director approves request 3 of the fresh three-step expense, which makes the
expense approved; the manager then rejects request 1 and the expense is
rejected (C8). -/
theorem terminal_status_counterexample :
    (stateAfter demoState [(100, demoDirector, 3, "approve", none)]).expenses.map
      (fun x => x.status) = [Status.approved] ∧
    act (stateAfter demoState [(100, demoDirector, 3, "approve", none)]) 101 demoManager 1
        "reject" (some "no") =
      Except.ok
        (stateAfter demoState
          [(100, demoDirector, 3, "approve", none), (101, demoManager, 1, "reject", some "no")]) ∧
    (stateAfter demoState
        [(100, demoDirector, 3, "approve", none),
         (101, demoManager, 1, "reject", some "no")]).expenses.map
      (fun x => x.status) = [Status.rejected] :=
  ⟨by decide, rfl, by decide⟩

/-- C8, amended. Every successful action leaves the `expenses` table row by row
with the same ids, and an expense that was approved or rejected is never
pending again; an `approve` leaves an approved expense approved and a `reject`
leaves a rejected expense rejected. -/
theorem terminal_status_not_reopened (s : State) (now : Nat) (user : Principal) (rid : Nat)
    (action : String) (comments : Option String) (s' : State)
    (h : act s now user rid action comments = Except.ok s') :
    List.Forall₂
      (fun x x' =>
        x'.id = x.id ∧
        (x.status ≠ Status.pending → x'.status ≠ Status.pending) ∧
        (action = "approve" → x.status = Status.approved → x'.status = Status.approved) ∧
        (action = "reject" → x.status = Status.rejected → x'.status = Status.rejected))
      s.expenses s'.expenses := by
  obtain ⟨_, e, _, hcase⟩ := act_ok_expenses s now user rid action comments s' h
  rcases hcase with ⟨hrej, hexp⟩ | ⟨happ, hexp | hexp | ⟨_, hexp⟩ | hexp⟩
  · rw [hexp]
    unfold rejectExpense
    apply forall₂_map_self
    intro x _
    subst hrej
    by_cases hx : x.id = e.id <;> simp [hx]
  · rw [hexp]
    unfold overrideExpense
    apply forall₂_map_self
    intro x _
    subst happ
    by_cases hx : x.id = e.id <;> simp [hx]
  · rw [hexp]
    unfold finalizeExpense
    apply forall₂_map_self
    intro x _
    subst happ
    by_cases hx : x.id = e.id <;> simp [hx]
  · rw [hexp]
    unfold advanceExpense
    apply forall₂_map_self
    intro x _
    by_cases hx : x.id = e.id <;> simp [hx]
  · rw [hexp]
    have := forall₂_map_self
      (fun x x' : Expense =>
        x'.id = x.id ∧
        (x.status ≠ Status.pending → x'.status ≠ Status.pending) ∧
        (action = "approve" → x.status = Status.approved → x'.status = Status.approved) ∧
        (action = "reject" → x.status = Status.rejected → x'.status = Status.rejected))
      id s.expenses (fun x _ => ⟨rfl, fun h => h, fun _ h => h, fun _ h => h⟩)
    rwa [List.map_id] at this

/-- The manager of the example rejecting request 1 after the director's
override: the call succeeds, so `terminal_status_not_reopened` applies to
it. -/
theorem terminal_status_not_reopened_witness :
    act (stateAfter demoState [(100, demoDirector, 3, "approve", none)]) 101 demoManager 1
        "reject" (some "no") =
      Except.ok
        (stateAfter demoState
          [(100, demoDirector, 3, "approve", none), (101, demoManager, 1, "reject", some "no")]) ∧
    List.Forall₂
      (fun x x' =>
        x'.id = x.id ∧
        (x.status ≠ Status.pending → x'.status ≠ Status.pending) ∧
        ("reject" = "approve" → x.status = Status.approved → x'.status = Status.approved) ∧
        ("reject" = "reject" → x.status = Status.rejected → x'.status = Status.rejected))
      (stateAfter demoState [(100, demoDirector, 3, "approve", none)]).expenses
      (stateAfter demoState
        [(100, demoDirector, 3, "approve", none),
         (101, demoManager, 1, "reject", some "no")]).expenses :=
  ⟨rfl,
    terminal_status_not_reopened (stateAfter demoState [(100, demoDirector, 3, "approve", none)])
      101 demoManager 1 "reject" (some "no") _ rfl⟩

/-- C9. Step-counter bound: in every reachable state, an expense whose status
is pending has `currentApprovalStep` at least 1 and at most the larger of
`totalApprovalSteps` and 1. -/
theorem pending_step_bounds (s : State) (h : Reachable s) (e : Expense) (he : e ∈ s.expenses)
    (hst : e.status = Status.pending) :
    1 ≤ e.currentApprovalStep ∧ e.currentApprovalStep ≤ max e.totalApprovalSteps 1 :=
  (reachable_invariant s h).2.2.1 e he hst

/-- The example after the manager's approval is reachable and its expense is
pending, at step 2 of 3. -/
theorem pending_step_bounds_witness :
    Reachable demoMidState ∧
    ({ demoExpense with currentApprovalStep := 2 } : Expense) ∈ demoMidState.expenses ∧
    (1 ≤ 2 ∧ 2 ≤ max 3 1) :=
  have hreach : Reachable demoMidState :=
    Reachable.act demoState demoMidState 100 demoManager 1 "approve" (some "ok")
      (Reachable.submit demoWorld demoEmpty demoState demoEmployee demoPayload LineItemsField.absent
        { expenseId := 1, approvalSteps := 3 } (Reachable.init demoEmpty rfl rfl) (by decide))
      rfl
  ⟨hreach, by decide,
    pending_step_bounds demoMidState hreach { demoExpense with currentApprovalStep := 2 }
      (by decide) rfl⟩

/-- The example of a rejected expense whose step counter is not its total:
the manager rejects request 1 of the fresh three-step expense, and the expense
is rejected at step 1 of 3, in a reachable state (C10). -/
theorem rejected_step_counterexample :
    ¬ ∀ s : State, Reachable s → ∀ e ∈ s.expenses, e.status ≠ Status.pending →
      e.currentApprovalStep = e.totalApprovalSteps := by
  intro hall
  have hreach : Reachable (stateAfter demoState [(100, demoManager, 1, "reject", some "no")]) :=
    Reachable.act demoState _ 100 demoManager 1 "reject" (some "no")
      (Reachable.submit demoWorld demoEmpty demoState demoEmployee demoPayload LineItemsField.absent
        { expenseId := 1, approvalSteps := 3 } (Reachable.init demoEmpty rfl rfl) (by decide))
      rfl
  have := hall _ hreach { demoExpense with status := Status.rejected } (by decide) (by decide)
  exact absurd this (by decide)

/-- C10, amended. In every reachable state, an expense whose status is
approved has `currentApprovalStep` equal to `totalApprovalSteps`. -/
theorem approved_step_is_total (s : State) (h : Reachable s) (e : Expense) (he : e ∈ s.expenses)
    (hst : e.status = Status.approved) :
    e.currentApprovalStep = e.totalApprovalSteps :=
  (reachable_invariant s h).2.2.2 e he hst

/-- The example after the director's override is reachable and its expense is
approved, at step 3 of 3. -/
theorem approved_step_is_total_witness :
    Reachable (stateAfter demoState [(100, demoDirector, 3, "approve", none)]) ∧
    ({ demoExpense with
        status := Status.approved
        finalApprovedAt := some 100
        finalApprovedBy := some 9
        directorOverride := true
        currentApprovalStep := 3 } : Expense) ∈
      (stateAfter demoState [(100, demoDirector, 3, "approve", none)]).expenses ∧
    (3 : Nat) = demoExpense.totalApprovalSteps :=
  have hreach : Reachable (stateAfter demoState [(100, demoDirector, 3, "approve", none)]) :=
    Reachable.act demoState _ 100 demoDirector 3 "approve" none
      (Reachable.submit demoWorld demoEmpty demoState demoEmployee demoPayload LineItemsField.absent
        { expenseId := 1, approvalSteps := 3 } (Reachable.init demoEmpty rfl rfl) (by decide))
      rfl
  ⟨hreach, by decide,
    approved_step_is_total _ hreach
      { demoExpense with
        status := Status.approved
        finalApprovedAt := some 100
        finalApprovedBy := some 9
        directorOverride := true
        currentApprovalStep := 3 } (by decide) rfl⟩


/-! ## Authorization, chain construction and role lookup -/

/-- The ownership lookup finds nothing when every request with the id belongs
to another approver. -/
theorem selectOwned_nil (s : State) (rid uid : Nat)
    (h : ∀ r ∈ s.requests, r.id = rid → r.approverId ≠ uid) :
    selectOwnedRequests s rid uid = [] := by
  unfold selectOwnedRequests
  rw [List.filter_eq_nil_iff]
  intro r hr
  simp only [decide_eq_true_eq]
  exact fun hc => h r hr hc.1 hc.2

/-- C11. Authorization: when no approval request has the given id, or every
request with that id has an approver other than the acting user, an `approve`
or `reject` fails with the not-found error; the handler answers 404 without
mail, commit or rollback, and the state after the call is the state before. -/
theorem act_not_owned (c : Collaborators) (s : State) (now : Nat) (user : Principal) (rid : Nat)
    (action : String) (comments : Option String)
    (ha : action = "approve" ∨ action = "reject")
    (h : ∀ r ∈ s.requests, r.id = rid → r.approverId ≠ user.userId) :
    act s now user rid action comments = Except.error ActError.notFound ∧
    actHandler c s now user rid action comments =
      ([Effect.respond 404], Except.error ActError.notFound) ∧
    stateAfter s [(now, user, rid, action, comments)] = s := by
  have hact : act s now user rid action comments = Except.error ActError.notFound := by
    unfold act
    rw [if_neg (not_not.mpr ha), selectOwned_nil s rid user.userId h]
  refine ⟨hact, ?_, ?_⟩
  · unfold actHandler
    rw [hact]
  · unfold stateAfter actAll
    rw [hact]

/-- The finance user of the example acting on the manager's request, and
anyone acting on a request id that does not exist: both are refused. -/
theorem act_not_owned_witness :
    (∀ r ∈ demoState.requests, r.id = 1 → r.approverId ≠ demoFinance.userId) ∧
    (∀ r ∈ demoState.requests, r.id = 99 → r.approverId ≠ demoManager.userId) ∧
    act demoState 100 demoFinance 1 "approve" none = Except.error ActError.notFound ∧
    act demoState 100 demoManager 99 "reject" none = Except.error ActError.notFound :=
  ⟨by decide, by decide,
    (act_not_owned demoCollaborators demoState 100 demoFinance 1 "approve" none (Or.inl rfl)
      (by decide)).1,
    (act_not_owned demoCollaborators demoState 100 demoManager 99 "reject" none (Or.inr rfl)
      (by decide)).1⟩

/-- The approvers of the flow are the stages that resolve, in the order
manager, finance, director, admin. -/
theorem flow_stages_aux (users : List UserRow) (companyId employeeId : Nat) :
    (getApprovalFlow users companyId employeeId).map (fun x => x.approverId) =
      [managerOf users employeeId, roleHolder users companyId "finance",
        roleHolder users companyId "director", roleHolder users companyId "admin"].reduceOption := by
  unfold getApprovalFlow
  cases managerOf users employeeId <;> cases roleHolder users companyId "finance" <;>
    cases roleHolder users companyId "director" <;> cases roleHolder users companyId "admin" <;>
    simp [pushStage, List.reduceOption]

/-- C12. Chain construction: the flow lists the approvers of the stages
manager, finance, director, admin that resolve, in that order, and its step
orders are 1, 2, ... without gap; with all four stages it is the four entries
at steps 1 to 4, and with only the manager missing it is finance, director,
admin at steps 1 to 3. -/
theorem flow_stages (users : List UserRow) (companyId employeeId : Nat) :
    (getApprovalFlow users companyId employeeId).map (fun x => x.approverId) =
      [managerOf users employeeId, roleHolder users companyId "finance",
        roleHolder users companyId "director", roleHolder users companyId "admin"].reduceOption ∧
    (getApprovalFlow users companyId employeeId).map (fun x => x.stepOrder) =
      List.range' 1 (getApprovalFlow users companyId employeeId).length ∧
    (∀ m f d a, managerOf users employeeId = some m →
      roleHolder users companyId "finance" = some f →
      roleHolder users companyId "director" = some d →
      roleHolder users companyId "admin" = some a →
      getApprovalFlow users companyId employeeId =
        [{ approverId := m, stepOrder := 1 }, { approverId := f, stepOrder := 2 },
         { approverId := d, stepOrder := 3 }, { approverId := a, stepOrder := 4 }]) ∧
    (∀ f d a, managerOf users employeeId = none →
      roleHolder users companyId "finance" = some f →
      roleHolder users companyId "director" = some d →
      roleHolder users companyId "admin" = some a →
      getApprovalFlow users companyId employeeId =
        [{ approverId := f, stepOrder := 1 }, { approverId := d, stepOrder := 2 },
         { approverId := a, stepOrder := 3 }]) := by
  unfold getApprovalFlow
  cases managerOf users employeeId <;> cases roleHolder users companyId "finance" <;>
    cases roleHolder users companyId "director" <;> cases roleHolder users companyId "admin" <;>
    simp [pushStage, List.reduceOption, List.range'_succ]
  intro _ _ _ _ h1 h2 h3 h4
  exact ⟨h1, h2, h3, h4⟩


/-- The directory of the example: all four stages for employee 5, no manager
for employee 6. -/
theorem flow_stages_witness :
    managerOf demoDirectory 5 = some 7 ∧ managerOf demoDirectory 6 = none ∧
    roleHolder demoDirectory 1 "finance" = some 8 ∧
    roleHolder demoDirectory 1 "director" = some 9 ∧
    roleHolder demoDirectory 1 "admin" = some 10 ∧
    getApprovalFlow demoDirectory 1 5 =
      [{ approverId := 7, stepOrder := 1 }, { approverId := 8, stepOrder := 2 },
       { approverId := 9, stepOrder := 3 }, { approverId := 10, stepOrder := 4 }] ∧
    getApprovalFlow demoDirectory 1 6 =
      [{ approverId := 8, stepOrder := 1 }, { approverId := 9, stepOrder := 2 },
       { approverId := 10, stepOrder := 3 }] :=
  ⟨by decide, by decide, by decide, by decide, by decide,
    (flow_stages demoDirectory 1 5).2.2.1 7 8 9 10 (by decide) (by decide) (by decide)
      (by decide),
    (flow_stages demoDirectory 1 6).2.2.2 8 9 10 (by decide) (by decide) (by decide)
      (by decide)⟩

/-- The role lookup finds nobody exactly when no active user of the company
holds the role. -/
theorem roleHolder_eq_none_iff (users : List UserRow) (companyId : Nat) (role : String) :
    roleHolder users companyId role = none ↔
      ∀ u ∈ users, ¬ (u.companyId = companyId ∧ u.role = role ∧ u.isActive = true) := by
  unfold roleHolder
  rw [List.min?_eq_none_iff, List.map_eq_nil_iff, List.filter_eq_nil_iff]
  constructor
  · intro h u hu hc
    exact h u hu (by simpa using hc)
  · intro h u hu hc
    exact h u hu (by simpa using hc)

/-- C13. Role lookup: for any role, and so for finance, director and admin,
the lookup finds nobody exactly when no active user of the company holds the
role; and it finds `a` exactly when `a` is the id of an active user of the
company holding the role and no such user has a smaller id.  The holder found
for each of the three roles is the approver the flow lists. -/
theorem roleHolder_least (users : List UserRow) (companyId employeeId : Nat) (role : String) :
    (roleHolder users companyId role = none ↔
      ∀ u ∈ users, ¬ (u.companyId = companyId ∧ u.role = role ∧ u.isActive = true)) ∧
    (∀ a, roleHolder users companyId role = some a ↔
      (∃ u ∈ users, u.id = a ∧ u.companyId = companyId ∧ u.role = role ∧ u.isActive = true) ∧
      ∀ v ∈ users, v.companyId = companyId → v.role = role → v.isActive = true → a ≤ v.id) ∧
    (∀ a, (role = "finance" ∨ role = "director" ∨ role = "admin") →
      roleHolder users companyId role = some a →
      a ∈ (getApprovalFlow users companyId employeeId).map (fun x => x.approverId)) := by
  refine ⟨roleHolder_eq_none_iff users companyId role, ?_, ?_⟩
  · intro a
    unfold roleHolder
    rw [List.min?_eq_some_iff']
    constructor
    · rintro ⟨hmem, hle⟩
      obtain ⟨u, hu, hua⟩ := List.mem_map.mp hmem
      have hp := List.mem_filter.mp hu
      refine ⟨⟨u, hp.1, hua, by simpa using hp.2⟩, ?_⟩
      intro v hv h1 h2 h3
      exact hle v.id (List.mem_map.mpr ⟨v, List.mem_filter.mpr ⟨hv, by simp [h1, h2, h3]⟩, rfl⟩)
    · rintro ⟨⟨u, hu, hua, hp⟩, hle⟩
      refine ⟨List.mem_map.mpr ⟨u, List.mem_filter.mpr ⟨hu, by simpa using hp⟩, hua⟩, ?_⟩
      intro b hb
      obtain ⟨v, hv, hvb⟩ := List.mem_map.mp hb
      have hp' := List.mem_filter.mp hv
      have hq : v.companyId = companyId ∧ v.role = role ∧ v.isActive = true := by
        simpa using hp'.2
      rw [← hvb]
      exact hle v hp'.1 hq.1 hq.2.1 hq.2.2
  · intro a hrole hsome
    rw [(flow_stages_aux users companyId employeeId)]
    rcases hrole with rfl | rfl | rfl <;> simp [List.reduceOption, hsome]

/-! ## Submission -/

/-- A successful submission, spelled out: the committed state and the response
are the ones the handler builds. -/
theorem submit_ok {α : Type} (w : SubmitWorld α) (s s' : State) (user : Principal)
    (payload : ExpensePayload) (lineItems : LineItemsField) (resp : SubmitResponse)
    (h : submit w s user payload lineItems = some (s', resp)) :
    resp = { expenseId := s.nextExpenseId,
             approvalSteps := (getApprovalFlow s.users user.companyId user.userId).length } ∧
    s'.users = s.users ∧
    s'.expenses =
      setTotalSteps (s.expenses ++ [newExpense s.nextExpenseId user.companyId user.userId payload])
        (getApprovalFlow s.users user.companyId user.userId).length s.nextExpenseId ∧
    s'.requests =
      s.requests ++ insertRequests s.nextExpenseId
        (getApprovalFlow s.users user.companyId user.userId) s.nextRequestId ∧
    s'.nextExpenseId = s.nextExpenseId + 1 := by
  obtain ⟨_, _, _, _, _, _, _, hs, hresp⟩ := submit_commits w s s' user payload lineItems resp h
  subst hs
  exact ⟨hresp, rfl, rfl, rfl, rfl⟩

/-- The rows the submission inserts, column by column: as many as the flow has
entries, all for the new expense and pending, with the step orders and the
approvers of the flow, in its order. -/
theorem insertRequests_columns (expenseId : Nat) (flow : List ApprovalChainEntry) (nextId : Nat) :
    (insertRequests expenseId flow nextId).length = flow.length ∧
    (∀ r ∈ insertRequests expenseId flow nextId,
      r.expenseId = expenseId ∧ r.status = Status.pending) ∧
    (insertRequests expenseId flow nextId).map (fun r => r.stepOrder) =
      flow.map (fun x => x.stepOrder) ∧
    (insertRequests expenseId flow nextId).map (fun r => r.approverId) =
      flow.map (fun x => x.approverId) := by
  induction flow generalizing nextId with
  | nil => simp [insertRequests]
  | cons a rest ih =>
    obtain ⟨h1, h2, h3, h4⟩ := ih (nextId + 1)
    refine ⟨by simp [insertRequests, h1], ?_, by simp [insertRequests, h3],
      by simp [insertRequests, h4]⟩
    intro r hr
    simp only [insertRequests, List.mem_cons] at hr
    rcases hr with rfl | hr
    · exact ⟨rfl, rfl⟩
    · exact h2 r hr

/-- C14. Submission count: after a successful submission the `approvalSteps`
of the response, the `totalApprovalSteps` of the expense row with the returned
id (there is one, and every row with that id has it) and the number of
approval requests the submission has appended, all of them for that expense,
equal the length of the flow. -/
theorem submit_counts {α : Type} (w : SubmitWorld α) (s s' : State) (user : Principal)
    (payload : ExpensePayload) (lineItems : LineItemsField) (resp : SubmitResponse)
    (h : submit w s user payload lineItems = some (s', resp)) :
    resp.approvalSteps = (getApprovalFlow s.users user.companyId user.userId).length ∧
    (∃ e ∈ s'.expenses, e.id = resp.expenseId) ∧
    (∀ e ∈ s'.expenses, e.id = resp.expenseId →
      e.totalApprovalSteps = (getApprovalFlow s.users user.companyId user.userId).length) ∧
    ∃ created, s'.requests = s.requests ++ created ∧
      created.length = (getApprovalFlow s.users user.companyId user.userId).length ∧
      ∀ r ∈ created, r.expenseId = resp.expenseId := by
  obtain ⟨hresp, _, hexp, hreq, _⟩ := submit_ok w s s' user payload lineItems resp h
  subst hresp
  obtain ⟨hlen, hcols, _, _⟩ :=
    insertRequests_columns s.nextExpenseId (getApprovalFlow s.users user.companyId user.userId)
      s.nextRequestId
  refine ⟨rfl, ?_, ?_, _, hreq, hlen, fun r hr => (hcols r hr).1⟩
  · refine ⟨{ newExpense s.nextExpenseId user.companyId user.userId payload with
        totalApprovalSteps := (getApprovalFlow s.users user.companyId user.userId).length },
      ?_, rfl⟩
    rw [hexp]
    unfold setTotalSteps
    rw [List.map_append]
    apply List.mem_append_right
    simp [newExpense]
  · intro e he hid
    rw [hexp] at he
    unfold setTotalSteps at he
    obtain ⟨x, _, rfl⟩ := List.mem_map.mp he
    by_cases hx : x.id = s.nextExpenseId
    · simp [hx]
    · simp only [if_neg hx] at hid
      exact absurd hid hx

/-- The submission of the example: it succeeds with three steps. -/
theorem submit_counts_witness :
    submit demoWorld demoEmpty demoEmployee demoPayload LineItemsField.absent =
      some (demoState, { expenseId := 1, approvalSteps := 3 }) ∧
    (3 : Nat) = (getApprovalFlow demoEmpty.users demoEmployee.companyId demoEmployee.userId).length ∧
    ∀ e ∈ demoState.expenses, e.id = 1 → e.totalApprovalSteps = 3 :=
  ⟨by decide,
    (submit_counts demoWorld demoEmpty demoState demoEmployee demoPayload LineItemsField.absent
      { expenseId := 1, approvalSteps := 3 } (by decide)).1,
    fun e he hid =>
      ((submit_counts demoWorld demoEmpty demoState demoEmployee demoPayload LineItemsField.absent
        { expenseId := 1, approvalSteps := 3 } (by decide)).2.2.1 e he hid).trans (by decide)⟩

/-- The first update of the handler keeps the `expense_id` column. -/
theorem map_expenseId_markRequest (l : List ApprovalRequest) (now k : Nat) (action : String)
    (c : Option String) :
    (markRequest l now k action c).map (fun x => x.expenseId) =
      l.map (fun x => x.expenseId) := by
  unfold markRequest
  rw [List.map_map]
  apply List.map_congr_left
  intro x _
  simp only [Function.comp]
  split <;> rfl

/-- The cascade of a rejection keeps the `expense_id` column. -/
theorem map_expenseId_rejectPending (l : List ApprovalRequest) (k : Nat) :
    (rejectPending l k).map (fun x => x.expenseId) = l.map (fun x => x.expenseId) := by
  unfold rejectPending
  rw [List.map_map]
  apply List.map_congr_left
  intro x _
  simp only [Function.comp]
  split <;> rfl

/-- The override keeps the `expense_id` column. -/
theorem map_expenseId_overridePending (l : List ApprovalRequest) (now k : Nat) :
    (overridePending l now k).map (fun x => x.expenseId) = l.map (fun x => x.expenseId) := by
  unfold overridePending
  rw [List.map_map]
  apply List.map_congr_left
  intro x _
  simp only [Function.comp]
  split <;> rfl

/-- A successful action keeps the `expense_id` column of the approval
requests. -/
theorem act_ok_request_expenseIds (s : State) (now : Nat) (user : Principal) (rid : Nat)
    (action : String) (comments : Option String) (s' : State)
    (h : act s now user rid action comments = Except.ok s') :
    s'.requests.map (fun x => x.expenseId) = s.requests.map (fun x => x.expenseId) := by
  unfold act at h
  split at h
  · exact absurd h (by simp)
  · split at h
    · exact absurd h (by simp)
    · split at h
      · exact absurd h (by simp)
      · dsimp only at h
        split_ifs at h <;>
          (injection h with h; subst h
           first
             | exact (by rw [map_expenseId_rejectPending, map_expenseId_markRequest])
             | exact (by rw [map_expenseId_overridePending, map_expenseId_markRequest])
             | exact map_expenseId_markRequest _ _ _ _ _)

/-- In every reachable state each approval request belongs to an expense id
that has been handed out: it is below the counter. -/
theorem reachable_request_expense (s : State) (h : Reachable s) :
    ∀ r ∈ s.requests, r.expenseId < s.nextExpenseId := by
  induction h with
  | init s hE hR => simp [hR]
  | directory s companies users _ ih => exact ih
  | submit w s s' user payload lineItems resp _ hs ih =>
    obtain ⟨_, _, _, hreq, hnext⟩ := submit_ok w s s' user payload lineItems resp hs
    rw [hreq, hnext]
    intro r hr
    rcases List.mem_append.mp hr with hr | hr
    · exact Nat.lt_succ_of_lt (ih r hr)
    · have := ((insertRequests_columns _ _ _).2.1 r hr).1
      omega
  | act s s' now user rid action comments _ ha ih =>
    have hnext := (act_ok_expenses s now user rid action comments s' ha).1
    have hids := act_ok_request_expenseIds s now user rid action comments s' ha
    rw [hnext]
    intro r hr
    have hmem : r.expenseId ∈ s'.requests.map (fun x => x.expenseId) :=
      List.mem_map.mpr ⟨r, hr, rfl⟩
    rw [hids] at hmem
    obtain ⟨x, hx, hxr⟩ := List.mem_map.mp hmem
    rw [← hxr]
    exact ih x hx

/-- The approval requests of the new expense after a submission from a
reachable state are the rows the submission has inserted. -/
theorem submit_requests_of_new {α : Type} (w : SubmitWorld α) (s s' : State) (user : Principal)
    (payload : ExpensePayload) (lineItems : LineItemsField) (resp : SubmitResponse)
    (hreach : Reachable s)
    (h : submit w s user payload lineItems = some (s', resp)) :
    s'.requests.filter (fun r => r.expenseId = resp.expenseId) =
      insertRequests s.nextExpenseId (getApprovalFlow s.users user.companyId user.userId)
        s.nextRequestId := by
  obtain ⟨hresp, _, _, hreq, _⟩ := submit_ok w s s' user payload lineItems resp h
  subst hresp
  rw [hreq, List.filter_append]
  have hold : s.requests.filter (fun r => r.expenseId = s.nextExpenseId) = [] := by
    rw [List.filter_eq_nil_iff]
    intro r hr
    have := reachable_request_expense s hreach r hr
    simp only [decide_eq_true_eq]
    omega
  have hnew : (insertRequests s.nextExpenseId
      (getApprovalFlow s.users user.companyId user.userId) s.nextRequestId).filter
      (fun r => r.expenseId = s.nextExpenseId) =
      insertRequests s.nextExpenseId (getApprovalFlow s.users user.companyId user.userId)
        s.nextRequestId := by
    rw [List.filter_eq_self]
    intro r hr
    simp [((insertRequests_columns _ _ _).2.1 r hr).1]
  show s.requests.filter (fun r => r.expenseId = s.nextExpenseId) ++ _ = _
  rw [hold, List.nil_append]
  exact hnew

/-- The step orders of the flow are 1, 2, ... up to its length. -/
theorem flow_stepOrders (users : List UserRow) (companyId employeeId : Nat) :
    (getApprovalFlow users companyId employeeId).map (fun x => x.stepOrder) =
      List.range' 1 (getApprovalFlow users companyId employeeId).length := by
  unfold getApprovalFlow
  cases managerOf users employeeId <;> cases roleHolder users companyId "finance" <;>
    cases roleHolder users companyId "director" <;> cases roleHolder users companyId "admin" <;>
    simp [pushStage, List.range'_succ]

/-- After a successful submission every expense row with the returned id has
the length of the flow as its number of steps. -/
theorem submit_total_steps {α : Type} (w : SubmitWorld α) (s s' : State) (user : Principal)
    (payload : ExpensePayload) (lineItems : LineItemsField) (resp : SubmitResponse)
    (h : submit w s user payload lineItems = some (s', resp)) :
    ∀ e ∈ s'.expenses, e.id = resp.expenseId →
      e.totalApprovalSteps = (getApprovalFlow s.users user.companyId user.userId).length := by
  obtain ⟨hresp, _, hexp, _, _⟩ := submit_ok w s s' user payload lineItems resp h
  subst hresp
  intro e he hid
  rw [hexp] at he
  unfold setTotalSteps at he
  obtain ⟨x, _, rfl⟩ := List.mem_map.mp he
  by_cases hx : x.id = s.nextExpenseId
  · simp [hx]
  · simp only [if_neg hx] at hid
    exact absurd hid hx

/-- C15. Submission rows: after a successful submission from a reachable
state, the approval requests of the new expense are all pending, their step
orders are 1, 2, ..., n in this order with n the `totalApprovalSteps` of the
expense, so each step order occurs once, and their approvers are those of the
entries of the flow, in its order. -/
theorem submit_rows {α : Type} (w : SubmitWorld α) (s s' : State) (user : Principal)
    (payload : ExpensePayload) (lineItems : LineItemsField) (resp : SubmitResponse)
    (hreach : Reachable s)
    (h : submit w s user payload lineItems = some (s', resp)) :
    (∀ r ∈ s'.requests.filter (fun r => r.expenseId = resp.expenseId),
      r.status = Status.pending) ∧
    (∀ e ∈ s'.expenses, e.id = resp.expenseId →
      (s'.requests.filter (fun r => r.expenseId = resp.expenseId)).map (fun r => r.stepOrder) =
        List.range' 1 e.totalApprovalSteps) ∧
    (s'.requests.filter (fun r => r.expenseId = resp.expenseId)).map (fun r => r.approverId) =
      (getApprovalFlow s.users user.companyId user.userId).map (fun x => x.approverId) := by
  rw [submit_requests_of_new w s s' user payload lineItems resp hreach h]
  obtain ⟨_, hcols, hsteps, happ⟩ :=
    insertRequests_columns s.nextExpenseId (getApprovalFlow s.users user.companyId user.userId)
      s.nextRequestId
  refine ⟨fun r hr => (hcols r hr).2, ?_, happ⟩
  intro e he hid
  rw [submit_total_steps w s s' user payload lineItems resp h e he hid, hsteps]
  exact flow_stepOrders s.users user.companyId user.userId


/-- The submission of the example, from the reachable state without expenses:
the three requests of the new expense are pending, at steps 1, 2, 3, for the
manager 7, the finance user 8 and the director 9. -/
theorem submit_rows_witness :
    Reachable demoEmpty ∧
    submit demoWorld demoEmpty demoEmployee demoPayload LineItemsField.absent =
      some (demoState, { expenseId := 1, approvalSteps := 3 }) ∧
    (∀ r ∈ demoState.requests.filter (fun r => r.expenseId = 1), r.status = Status.pending) ∧
    (demoState.requests.filter (fun r => r.expenseId = 1)).map (fun r => r.approverId) =
      (getApprovalFlow demoEmpty.users 1 5).map (fun x => x.approverId) :=
  ⟨Reachable.init demoEmpty rfl rfl, by decide,
    (submit_rows demoWorld demoEmpty demoState demoEmployee demoPayload LineItemsField.absent
      { expenseId := 1, approvalSteps := 3 } (Reachable.init demoEmpty rfl rfl) (by decide)).1,
    (submit_rows demoWorld demoEmpty demoState demoEmployee demoPayload LineItemsField.absent
      { expenseId := 1, approvalSteps := 3 } (Reachable.init demoEmpty rfl rfl)
      (by decide)).2.2⟩

/-- C16. Zero-step submission: when the employee has no manager and no active
user of the company is a finance user, a director or an admin, the flow is
empty, and the empty flow does not stop the submission: from a reachable state,
when the company row exists, the amount converts to a number, the line items
parse and the database accepts the rows, the submission succeeds, answering
zero steps, appending one expense that is pending at step 1 with 0 steps, and
adding no approval request. -/
theorem zero_step_submission {α : Type} (w : SubmitWorld α) (s : State) (user : Principal)
    (payload : ExpensePayload) (lineItems : LineItemsField) (company : CompanyRow)
    (converted : α) (inserted : List LineItem) (hreach : Reachable s)
    (hcompany : (s.companies.filter (fun c => c.id = user.companyId)).head? = some company)
    (hconverted :
      convertedAmount w payload company.defaultCurrency = some (JsNumber.num converted))
    (hinserted : lineItemRows s.nextExpenseId lineItems = some inserted)
    (haccepts : w.accepts payload converted inserted = true)
    (hmgr : managerOf s.users user.userId = none)
    (hroles : ∀ u ∈ s.users, u.companyId = user.companyId → u.isActive = true →
      u.role ≠ "finance" ∧ u.role ≠ "director" ∧ u.role ≠ "admin") :
    getApprovalFlow s.users user.companyId user.userId = [] ∧
    ∃ s' e, submit w s user payload lineItems =
        some (s', { expenseId := s.nextExpenseId, approvalSteps := 0 }) ∧
      s'.expenses = s.expenses ++ [e] ∧ e.id = s.nextExpenseId ∧
      e.status = Status.pending ∧ e.currentApprovalStep = 1 ∧ e.totalApprovalSteps = 0 ∧
      s'.requests = s.requests := by
  have hnone : ∀ role, (role = "finance" ∨ role = "director" ∨ role = "admin") →
      roleHolder s.users user.companyId role = none := by
    intro role hrole
    rw [roleHolder_eq_none_iff]
    rintro u hu ⟨h1, h2, h3⟩
    obtain ⟨n1, n2, n3⟩ := hroles u hu h1 h3
    rcases hrole with rfl | rfl | rfl
    · exact n1 h2
    · exact n2 h2
    · exact n3 h2
  have hflow : getApprovalFlow s.users user.companyId user.userId = [] := by
    unfold getApprovalFlow
    rw [hmgr, hnone "finance" (Or.inl rfl), hnone "director" (Or.inr (Or.inl rfl)),
      hnone "admin" (Or.inr (Or.inr rfl))]
    rfl
  refine ⟨hflow, ?_⟩
  have hlt := (reachable_invariant s hreach).2.1
  obtain ⟨s', resp, hsub⟩ :=
    submit_of_accepted w s user payload lineItems company converted inserted hcompany
      hconverted hinserted haccepts
  obtain ⟨hresp, _, hexp, hreq, _⟩ := submit_ok w s s' user payload lineItems resp hsub
  rw [hflow] at hresp hexp hreq
  rw [setTotalSteps_append s.expenses _ s.nextExpenseId
    (newExpense s.nextExpenseId user.companyId user.userId payload) rfl hlt] at hexp
  refine ⟨s', newExpense s.nextExpenseId user.companyId user.userId payload, ?_, hexp,
    rfl, rfl, rfl, rfl, ?_⟩
  · rw [hsub, hresp]
    rfl
  · rw [hreq]
    simp [insertRequests]

/-- The employee without manager in a company without finance user, director
or admin: the hypotheses of `zero_step_submission` hold, the flow is empty and
the submission succeeds with zero steps. -/
theorem zero_step_submission_witness :
    Reachable demoLonely ∧
    (demoLonely.companies.filter (fun c => c.id = demoEmployee.companyId)).head? =
      some { id := 1, defaultCurrency := "USD" } ∧
    convertedAmount demoWorld demoPayload "USD" = some (JsNumber.num 120) ∧
    lineItemRows demoLonely.nextExpenseId LineItemsField.absent = some [] ∧
    demoWorld.accepts demoPayload 120 [] = true ∧
    managerOf demoLonely.users demoEmployee.userId = none ∧
    (∀ u ∈ demoLonely.users, u.companyId = demoEmployee.companyId → u.isActive = true →
      u.role ≠ "finance" ∧ u.role ≠ "director" ∧ u.role ≠ "admin") ∧
    getApprovalFlow demoLonely.users demoEmployee.companyId demoEmployee.userId = [] ∧
    ∃ s' e, submit demoWorld demoLonely demoEmployee demoPayload LineItemsField.absent =
        some (s', { expenseId := 1, approvalSteps := 0 }) ∧
      s'.expenses = [e] ∧ e.id = 1 ∧
      e.status = Status.pending ∧ e.currentApprovalStep = 1 ∧ e.totalApprovalSteps = 0 ∧
      s'.requests = [] :=
  ⟨Reachable.init demoLonely rfl rfl, by decide, by decide, rfl, rfl, by decide, by decide,
    zero_step_submission demoWorld demoLonely demoEmployee demoPayload LineItemsField.absent
      { id := 1, defaultCurrency := "USD" } 120 [] (Reachable.init demoLonely rfl rfl)
      (by decide) (by decide) rfl rfl (by decide) (by decide)⟩

/-! ## Audit, validation and notifications -/

/-- A successful action has passed the three checks of the handler: the action
is one of the two, and the lookups have found the request and its expense. -/
theorem act_ok_found (s : State) (now : Nat) (user : Principal) (rid : Nat) (action : String)
    (comments : Option String) (s' : State)
    (h : act s now user rid action comments = Except.ok s') :
    (action = "approve" ∨ action = "reject") ∧
    ∃ r e, (selectOwnedRequests s rid user.userId).head? = some r ∧
      (selectExpenses s r.expenseId).head? = some e := by
  unfold act at h
  split at h
  · exact absurd h (by simp)
  · rename_i hact
    refine ⟨not_not.mp hact, ?_⟩
    split at h
    · exact absurd h (by simp)
    · rename_i r tl hr
      split at h
      · exact absurd h (by simp)
      · rename_i e tl' he
        exact ⟨r, e, by rw [hr]; rfl, by rw [he]; rfl⟩

/-- C17. Audit: every successful action, whatever its branch, leaves the audit
log as it was with exactly one record appended; the record has the company and
the id of the acting user, the expense of the acted-upon request, the action
taken (`EXPENSE_APPROVED` or `EXPENSE_REJECTED`), and in its details the
supplied comments, the step order of the acted-upon request and the role of
the actor. -/
theorem act_appends_one_audit (s : State) (now : Nat) (user : Principal) (rid : Nat)
    (action : String) (comments : Option String) (s' : State)
    (h : act s now user rid action comments = Except.ok s') :
    ∃ r, (selectOwnedRequests s rid user.userId).head? = some r ∧
      s'.audit = s.audit ++
        [{ companyId := user.companyId
           userId := user.userId
           expenseId := some r.expenseId
           action := if action = "approve" then "EXPENSE_APPROVED" else "EXPENSE_REJECTED"
           details := AuditDetails.acted comments r.stepOrder user.role }] := by
  obtain ⟨ha, r, e, hr, he⟩ := act_ok_found s now user rid action comments s' h
  have hid := selectExpenses_head_id s r.expenseId e he
  rw [act_found s now user rid action comments r e ha hr he] at h
  dsimp only at h
  refine ⟨r, hr, ?_⟩
  have hlog : s.audit ++ [actionAudit user e.id action comments r.stepOrder] =
      s.audit ++
        [{ companyId := user.companyId
           userId := user.userId
           expenseId := some r.expenseId
           action := if action = "approve" then "EXPENSE_APPROVED" else "EXPENSE_REJECTED"
           details := AuditDetails.acted comments r.stepOrder user.role }] := by
    rw [hid]; rfl
  split_ifs at h <;> (injection h with h; subst h; exact hlog)

/-- The manager of the example approving request 1: the call succeeds and the
audit log gains the record of an approval of step 1 by a manager. -/
theorem act_appends_one_audit_witness :
    act demoState 100 demoManager 1 "approve" (some "ok") = Except.ok demoMidState ∧
    ∃ r, (selectOwnedRequests demoState 1 demoManager.userId).head? = some r ∧
      demoMidState.audit = demoState.audit ++
        [{ companyId := 1
           userId := 7
           expenseId := some r.expenseId
           action := "EXPENSE_APPROVED"
           details := AuditDetails.acted (some "ok") r.stepOrder "manager" }] :=
  ⟨rfl, act_appends_one_audit demoState 100 demoManager 1 "approve" (some "ok") demoMidState rfl⟩

/-- A submission whose amount is missing or does not start with a number is
not answered by a validation error: `parseFloat` gives NaN, which the
conversion hands on or throws over, so the handler rolls back and answers
500. -/
theorem submit_not_a_number {α : Type} (w : SubmitWorld α) (c : Collaborators) (s : State)
    (user : Principal) (payload : ExpensePayload) (lineItems : LineItemsField)
    (h : parseFloat w.numbers payload.amount = JsNumber.nan) :
    submitHandler w c s user payload lineItems = ([Effect.rollback, Effect.respond 500], none) := by
  have hconv : ∀ defaultCurrency, convertedAmount w payload defaultCurrency = none ∨
      convertedAmount w payload defaultCurrency = some JsNumber.nan := by
    intro defaultCurrency
    unfold convertedAmount convertCurrency
    rw [h]
    split_ifs
    · exact Or.inr rfl
    · dsimp only
      split
      · exact Or.inl rfl
      · split_ifs
        · exact Or.inr rfl
        · exact Or.inr rfl
  have hnone : submit w s user payload lineItems = none := by
    unfold submit
    split
    · rfl
    · rename_i company _
      rcases hconv company.defaultCurrency with h1 | h1 <;> rw [h1]
  unfold submitHandler
  rw [hnone]

/-- The amount `abc` of the example world is not a number, so
`submit_not_a_number` applies to it. -/
theorem submit_not_a_number_witness :
    parseFloat demoWorld.numbers ({ demoPayload with amount := some "abc" }).amount =
      JsNumber.nan ∧
    submitHandler demoWorld demoCollaborators demoEmpty demoEmployee
      { demoPayload with amount := some "abc" } LineItemsField.absent =
      ([Effect.rollback, Effect.respond 500], none) :=
  ⟨by decide,
    submit_not_a_number demoWorld demoCollaborators demoEmpty demoEmployee
      { demoPayload with amount := some "abc" } LineItemsField.absent (by decide)⟩

/-- C18. Submissions of the example with a missing or malformed field.  One
whose `lineItems` is valid JSON but not an array is accepted: it is answered
201 after the mails and the commit, and the expense with its three approval
requests is persisted.  One whose amount is `abc`, one without amount, one
whose `lineItems` does not parse and one whose `lineItems` has a `null` item
are not answered by a validation error: the handler throws after it has begun
the transaction, rolls back and answers 500. -/
theorem unvalidated_submission_accepted :
    submitHandler demoWorld demoCollaborators demoEmpty demoEmployee demoPayload
      LineItemsField.notArray =
      ([Effect.mail { toUser := 5, kind := MailKind.submissionConfirmation },
        Effect.mail { toUser := 7, kind := MailKind.approverAlert },
        Effect.commit, Effect.respond 201],
       some (demoState, { expenseId := 1, approvalSteps := 3 })) ∧
    demoState.expenses = [demoExpense] ∧
    demoState.requests = [demoRequest 1 7, demoRequest 2 8, demoRequest 3 9] ∧
    submitHandler demoWorld demoCollaborators demoEmpty demoEmployee
      { demoPayload with amount := some "abc" } LineItemsField.absent =
      ([Effect.rollback, Effect.respond 500], none) ∧
    submitHandler demoWorld demoCollaborators demoEmpty demoEmployee
      { demoPayload with amount := none } LineItemsField.absent =
      ([Effect.rollback, Effect.respond 500], none) ∧
    submitHandler demoWorld demoCollaborators demoEmpty demoEmployee demoPayload
      LineItemsField.malformed = ([Effect.rollback, Effect.respond 500], none) ∧
    submitHandler demoWorld demoCollaborators demoEmpty demoEmployee demoPayload
      (LineItemsField.items [some ("Ticket", "1", "120.50", "120.50"), none]) =
      ([Effect.rollback, Effect.respond 500], none) := by
  refine ⟨?_, rfl, rfl, ?_, ?_, ?_, ?_⟩
  · have h : submit demoWorld demoEmpty demoEmployee demoPayload LineItemsField.notArray =
        some (demoState, { expenseId := 1, approvalSteps := 3 }) := by decide
    unfold submitHandler
    rw [h]
    exact Prod.ext (by decide) rfl
  · have h : submit demoWorld demoEmpty demoEmployee { demoPayload with amount := some "abc" }
        LineItemsField.absent = none := by decide
    unfold submitHandler
    rw [h]
  · have h : submit demoWorld demoEmpty demoEmployee { demoPayload with amount := none }
        LineItemsField.absent = none := by decide
    unfold submitHandler
    rw [h]
  · have h : submit demoWorld demoEmpty demoEmployee demoPayload LineItemsField.malformed =
        none := by decide
    unfold submitHandler
    rw [h]
  · have h : submit demoWorld demoEmpty demoEmployee demoPayload
        (LineItemsField.items [some ("Ticket", "1", "120.50", "120.50"), none]) = none := by
      decide
    unfold submitHandler
    rw [h]

/-- The handler has no validation of its own of the `lineItems` field: one
that does not parse makes it throw, and the `catch` block rolls back and
answers 500, so that nothing is persisted; one that is valid JSON but not an
array is skipped, and the submission runs as if the field were absent. -/
theorem submission_unvalidated {α : Type} (w : SubmitWorld α) (c : Collaborators) (s : State)
    (user : Principal) (payload : ExpensePayload) :
    submitHandler w c s user payload LineItemsField.malformed =
      ([Effect.rollback, Effect.respond 500], none) ∧
    submitHandler w c s user payload LineItemsField.notArray =
      submitHandler w c s user payload LineItemsField.absent := by
  constructor
  · have h : submit w s user payload LineItemsField.malformed = none := by
      unfold submit
      split
      · rfl
      · split <;> rfl
    unfold submitHandler
    rw [h]
  · have h : submit w s user payload LineItemsField.notArray =
        submit w s user payload LineItemsField.absent := by
      unfold submit
      rfl
    unfold submitHandler
    rw [h]

/-- The example of mails that go out before the commit: in the submission of
the example the confirmation to the employee and the alert to the manager are
handed to the transport, and the commit comes after them (C19). -/
theorem mail_before_commit_counterexample :
    (submitHandler demoWorld demoCollaborators demoEmpty demoEmployee demoPayload
      LineItemsField.absent).1 =
      [Effect.mail { toUser := 5, kind := MailKind.submissionConfirmation },
       Effect.mail { toUser := 7, kind := MailKind.approverAlert },
       Effect.commit, Effect.respond 201] := by
  decide

/-- C19, amended. In every successful submission the notifications are handed
to the transport inside the transaction: the effects of the handler are the
mails of `sendExpenseSubmissionEmail`, in its order, then the commit, then the
answer 201; no mail follows the commit. -/
theorem mails_precede_commit {α : Type} (w : SubmitWorld α) (c : Collaborators) (s s' : State)
    (user : Principal) (payload : ExpensePayload) (lineItems : LineItemsField)
    (resp : SubmitResponse)
    (h : submit w s user payload lineItems = some (s', resp)) :
    (submitHandler w c s user payload lineItems).1 =
      (sendExpenseSubmissionEmail c s' resp.expenseId user.userId).map Effect.mail ++
        [Effect.commit, Effect.respond 201] := by
  unfold submitHandler
  rw [h]

/-- The submission of the example succeeds, so `mails_precede_commit` applies:
its two mails come before the commit. -/
theorem mails_precede_commit_witness :
    submit demoWorld demoEmpty demoEmployee demoPayload LineItemsField.absent =
      some (demoState, { expenseId := 1, approvalSteps := 3 }) ∧
    (submitHandler demoWorld demoCollaborators demoEmpty demoEmployee demoPayload
      LineItemsField.absent).1 =
      (sendExpenseSubmissionEmail demoCollaborators demoState 1 5).map Effect.mail ++
        [Effect.commit, Effect.respond 201] :=
  ⟨by decide,
    mails_precede_commit demoWorld demoCollaborators demoEmpty demoState demoEmployee demoPayload
      LineItemsField.absent { expenseId := 1, approvalSteps := 3 } (by decide)⟩

/-- C20. Notification failures are absorbed: whatever the transport does with
the mails, a submission and an approval action give the same result, with the
same committed state, and the same effects apart from the mails. -/
theorem mail_failures_absorbed {α : Type} (w : SubmitWorld α) (c c' : Collaborators) (s : State)
    (now : Nat) (user : Principal) (payload : ExpensePayload) (lineItems : LineItemsField)
    (rid : Nat) (action : String)
    (comments : Option String) :
    (submitHandler w c s user payload lineItems).2 =
      (submitHandler w c' s user payload lineItems).2 ∧
    (submitHandler w c s user payload lineItems).1.filter (fun e => !e.isMail) =
      (submitHandler w c' s user payload lineItems).1.filter (fun e => !e.isMail) ∧
    (actHandler c s now user rid action comments).2 =
      (actHandler c' s now user rid action comments).2 ∧
    (actHandler c s now user rid action comments).1.filter (fun e => !e.isMail) =
      (actHandler c' s now user rid action comments).1.filter (fun e => !e.isMail) := by
  have hmail : ∀ l : List Mail, (l.map Effect.mail).filter (fun e => !e.isMail) = [] := by
    intro l
    rw [List.filter_eq_nil_iff]
    intro e he
    obtain ⟨m, _, rfl⟩ := List.mem_map.mp he
    simp [Effect.isMail]
  refine ⟨?_, ?_, ?_, ?_⟩
  · unfold submitHandler
    cases submit w s user payload lineItems <;> rfl
  · unfold submitHandler
    cases submit w s user payload lineItems with
    | none => rfl
    | some x => simp only [List.filter_append, hmail]
  · unfold actHandler
    cases act s now user rid action comments with
    | error err => cases err <;> rfl
    | ok x => rfl
  · unfold actHandler
    cases act s now user rid action comments with
    | error err => cases err <;> rfl
    | ok x => simp only [List.filter_append, hmail]


/-- The submission of the example with a transport that delivers nothing and
with one that delivers everything: the first hands over one mail and the
second two, and both commit the same state with the same response. -/
theorem mail_failures_absorbed_witness :
    (submitHandler demoWorld demoNoMail demoEmpty demoEmployee demoPayload
      LineItemsField.absent).1 =
      [Effect.mail { toUser := 5, kind := MailKind.submissionConfirmation },
       Effect.commit, Effect.respond 201] ∧
    (submitHandler demoWorld demoNoMail demoEmpty demoEmployee demoPayload
      LineItemsField.absent).2 =
      (submitHandler demoWorld demoCollaborators demoEmpty demoEmployee demoPayload
        LineItemsField.absent).2 :=
  ⟨by decide,
    (mail_failures_absorbed demoWorld demoNoMail demoCollaborators demoEmpty 0 demoEmployee
      demoPayload LineItemsField.absent 0 "approve" none).1⟩

/-- The directory of the example: the finance user found for company 1 is
user 8, although the inactive user 2 and user 3 of company 2 have smaller
ids; company 3 has no finance user. -/
theorem roleHolder_least_witness :
    roleHolder demoDirectory 1 "finance" = some 8 ∧
    roleHolder demoDirectory 3 "finance" = none :=
  ⟨((roleHolder_least demoDirectory 1 5 "finance").2.1 8).mpr
      ⟨⟨{ id := 8, companyId := 1, role := "finance", isActive := true, managerId := none },
        by decide, rfl, rfl, rfl, rfl⟩, by decide⟩,
    (roleHolder_least demoDirectory 3 5 "finance").1.mpr (by decide)⟩

/-! ## Failing statements, invalid actions and the currency fallback -/

/-- The example of an audit insert that fails: the manager's approval of
request 1, which succeeds when the record is written, is answered 500 after a
rollback when it is not, so the call fails and none of its changes is kept
(C21). -/
theorem audit_failure_counterexample :
    act demoState 100 demoManager 1 "approve" (some "ok") = Except.ok demoMidState ∧
    actHandlerAudit true demoCollaborators demoState 100 demoManager 1 "approve" (some "ok") =
      ([Effect.mail { toUser := 5, kind := MailKind.decision true }, Effect.commit,
        Effect.respond 200], Except.ok demoMidState) ∧
    actHandlerAudit false demoCollaborators demoState 100 demoManager 1 "approve" (some "ok") =
      ([Effect.rollback, Effect.respond 500], Except.error ActError.failed) := by
  have h : act demoState 100 demoManager 1 "approve" (some "ok") = Except.ok demoMidState := rfl
  refine ⟨h, ?_, ?_⟩
  · unfold actHandlerAudit actHandler
    rw [h]
    exact Prod.ext (by decide) rfl
  · unfold actHandlerAudit
    rw [h]
    rfl

/-- C21, amended. The audit record is written inside the transaction of the
action: when its insert fails in a call that would otherwise succeed, the
handler rolls back and answers 500 without mail or commit, so the call fails
and the changes it made to the approval requests and the expense are not
kept. -/
theorem audit_failure_rolls_back (c : Collaborators) (s s' : State) (now : Nat)
    (user : Principal) (rid : Nat) (action : String) (comments : Option String)
    (h : act s now user rid action comments = Except.ok s') :
    actHandlerAudit false c s now user rid action comments =
      ([Effect.rollback, Effect.respond 500], Except.error ActError.failed) := by
  unfold actHandlerAudit
  rw [h]
  rfl

/-- The manager's approval of request 1 in the example would succeed, so
`audit_failure_rolls_back` applies to it. -/
theorem audit_failure_rolls_back_witness :
    act demoState 100 demoManager 1 "approve" (some "ok") = Except.ok demoMidState ∧
    actHandlerAudit false demoNoMail demoState 100 demoManager 1 "approve" (some "ok") =
      ([Effect.rollback, Effect.respond 500], Except.error ActError.failed) :=
  ⟨rfl,
    audit_failure_rolls_back demoNoMail demoState demoMidState 100 demoManager 1 "approve"
      (some "ok") rfl⟩

/-- The fallback of `convertCurrency`: it returns the amount it was given, and
does not throw, when the two currencies are the same, and when the cache holds
a rate table after the staleness check in which what is read for the source
currency or for the target currency is `undefined` or a falsy number. -/
theorem convertCurrency_fallback {α : Type} (N : Numbers α)
    (response : Option (Option (List (String × α)))) (now : Nat) (cache : CurrencyCache α)
    (amount : JsNumber α) (fromCurrency toCurrency : String) :
    (fromCurrency = toCurrency →
      (convertCurrency N response now cache amount fromCurrency toCurrency).1 = some amount) ∧
    (∀ rates, (refreshIfStale response now cache).rates = some rates →
      (rateMissing N rates fromCurrency = true ∨ rateMissing N rates toCurrency = true) →
      (convertCurrency N response now cache amount fromCurrency toCurrency).1 = some amount) := by
  constructor
  · intro h
    unfold convertCurrency
    rw [if_pos h]
  · intro rates hrates hmiss
    unfold convertCurrency
    by_cases h : fromCurrency = toCurrency
    · rw [if_pos h]
    · rw [if_neg h]
      dsimp only
      rw [hrates]
      dsimp only
      rw [if_pos hmiss]

/-- A currency without entry in the rate table counts as missing exactly when
its code is not a name that a plain object inherits. -/
theorem rateMissing_of_no_entry {α : Type} (N : Numbers α) (rates : List (String × α))
    (code : String) (h : rates.lookup code = none) :
    rateMissing N rates code = true ↔ code ∉ inheritedNames := by
  unfold rateMissing readRate
  rw [h]
  by_cases hin : code ∈ inheritedNames
  · simp [hin]
  · simp [hin]

/-- A conversion from USD to GBP with a fresh cache that has no rate for GBP,
and one from XXX, whose rate is 0: both return the amount 50; a conversion
from USD to INR does convert. -/
theorem convertCurrency_fallback_witness :
    (refreshIfStale none 2000 demoCache).rates =
      some [("USD", 100), ("EUR", 90), ("INR", 8000), ("XXX", 0)] ∧
    rateMissing demoNumbers [("USD", 100), ("EUR", 90), ("INR", 8000), ("XXX", 0)] "GBP" =
      true ∧
    rateMissing demoNumbers [("USD", 100), ("EUR", 90), ("INR", 8000), ("XXX", 0)] "XXX" =
      true ∧
    (convertCurrency demoNumbers none 2000 demoCache (JsNumber.num 50) "USD" "GBP").1 =
      some (JsNumber.num 50) ∧
    (convertCurrency demoNumbers none 2000 demoCache (JsNumber.num 50) "XXX" "USD").1 =
      some (JsNumber.num 50) ∧
    (convertCurrency demoNumbers none 2000 demoCache (JsNumber.num 50) "USD" "INR").1 =
      some (JsNumber.num 4000) :=
  ⟨by decide, by decide, by decide,
    (convertCurrency_fallback demoNumbers none 2000 demoCache (JsNumber.num 50) "USD" "GBP").2
      [("USD", 100), ("EUR", 90), ("INR", 8000), ("XXX", 0)] (by decide) (Or.inr (by decide)),
    (convertCurrency_fallback demoNumbers none 2000 demoCache (JsNumber.num 50) "XXX" "USD").2
      [("USD", 100), ("EUR", 90), ("INR", 8000), ("XXX", 0)] (by decide) (Or.inl (by decide)),
    by decide⟩

/-- C22. Conversions for which a rate is unavailable in the rate table and the
amount is not what comes back.  With the fresh cache of the example, which has
no entry for `constructor`, the conversion of 50 from `constructor` to USD
reads the member every object inherits under that name, takes it for a rate
and returns NaN; the submission of the example expense in the currency
`constructor` is therefore rolled back and answered 500.  With a stale cache
and a fetch whose answer has no `rates`, the conversion of 50 from EUR to USD
throws. -/
theorem convertCurrency_no_fallback :
    demoCache.rates =
      some [("USD", 100), ("EUR", 90), ("INR", 8000), ("XXX", 0)] ∧
    (convertCurrency demoNumbers none 2000 demoCache (JsNumber.num 50) "constructor" "USD").1 =
      some JsNumber.nan ∧
    submitHandler demoWorld demoCollaborators demoEmpty demoEmployee
      { demoPayload with currency := "constructor" } LineItemsField.absent =
      ([Effect.rollback, Effect.respond 500], none) ∧
    (refreshIfStale (some none) 5000000 demoCache).rates = none ∧
    (convertCurrency demoNumbers (some none) 5000000 demoCache (JsNumber.num 50) "EUR" "USD").1 =
      none := by
  refine ⟨rfl, by decide, ?_, by decide, by decide⟩
  have h : submit demoWorld demoEmpty demoEmployee { demoPayload with currency := "constructor" }
      LineItemsField.absent = none := by decide
  unfold submitHandler
  rw [h]

/-- C29. Invalid action: a call whose action is neither `approve` nor `reject`
fails with the invalid-action error, whether or not the request exists and
belongs to the actor; the handler answers 400 without mail, commit or
rollback, and the state after the call is the state before. -/
theorem act_invalid_action (c : Collaborators) (s : State) (now : Nat) (user : Principal)
    (rid : Nat) (action : String) (comments : Option String)
    (h1 : action ≠ "approve") (h2 : action ≠ "reject") :
    act s now user rid action comments = Except.error ActError.invalidAction ∧
    actHandler c s now user rid action comments =
      ([Effect.respond 400], Except.error ActError.invalidAction) ∧
    stateAfter s [(now, user, rid, action, comments)] = s := by
  have hact : act s now user rid action comments = Except.error ActError.invalidAction := by
    unfold act
    rw [if_pos (fun h => h.elim h1 h2)]
  refine ⟨hact, ?_, ?_⟩
  · unfold actHandler
    rw [hact]
  · unfold stateAfter actAll
    rw [hact]

/-- The manager of the example sending `cancel` for request 1, which exists and
is theirs: the call is refused as an invalid action. -/
theorem act_invalid_action_witness :
    (selectOwnedRequests demoState 1 demoManager.userId).head? = some (demoRequest 1 7) ∧
    act demoState 100 demoManager 1 "cancel" none = Except.error ActError.invalidAction ∧
    stateAfter demoState [(100, demoManager, 1, "cancel", none)] = demoState :=
  ⟨by decide,
    (act_invalid_action demoCollaborators demoState 100 demoManager 1 "cancel" none (by decide)
      (by decide)).1,
    (act_invalid_action demoCollaborators demoState 100 demoManager 1 "cancel" none (by decide)
      (by decide)).2.2⟩

/-- C24. Out-of-order approval is accepted: in the state the submission of the
example leaves when the chain is manager, finance, admin (a pending expense at
step 1 of 3 with three pending requests), the admin, approver of step 3,
approves request 3; the call succeeds, request 3 is approved while requests 1
and 2 stay pending, and the expense stays pending and moves to step 2. -/
theorem out_of_order_approval :
    submit demoWorld demoAdminEmpty demoEmployee demoPayload LineItemsField.absent =
      some (demoAdminState, { expenseId := 1, approvalSteps := 3 }) ∧
    demoAdminState.expenses.map
        (fun e => (e.status, e.currentApprovalStep, e.totalApprovalSteps)) =
      [(Status.pending, 1, 3)] ∧
    demoAdminState.requests.map (fun r => (r.stepOrder, r.approverId, r.status)) =
      [(1, 7, Status.pending), (2, 8, Status.pending), (3, 10, Status.pending)] ∧
    demoAdmin.role ≠ "director" ∧
    act demoAdminState 100 demoAdmin 3 "approve" none =
      Except.ok (stateAfter demoAdminState [(100, demoAdmin, 3, "approve", none)]) ∧
    (stateAfter demoAdminState [(100, demoAdmin, 3, "approve", none)]).requests.map
        (fun r => (r.stepOrder, r.status)) =
      [(1, Status.pending), (2, Status.pending), (3, Status.approved)] ∧
    (stateAfter demoAdminState [(100, demoAdmin, 3, "approve", none)]).expenses.map
        (fun e => (e.status, e.currentApprovalStep)) =
      [(Status.pending, 2)] :=
  ⟨by decide, by decide, by decide, by decide, rfl, by decide, by decide⟩

/-! ## Frame properties and the listing -/

/-- A successful action leaves the `expenses` table row by row with the same
ids, and changes no row whose id is not the expense of the acted-upon
request. -/
theorem act_frame_expenses (s : State) (now : Nat) (user : Principal) (rid : Nat)
    (action : String) (comments : Option String) (s' : State)
    (h : act s now user rid action comments = Except.ok s') :
    ∃ r, (selectOwnedRequests s rid user.userId).head? = some r ∧
      List.Forall₂ (fun x x' => x'.id = x.id ∧ (x.id ≠ r.expenseId → x' = x))
        s.expenses s'.expenses := by
  obtain ⟨ha, r, e, hr, he⟩ := act_ok_found s now user rid action comments s' h
  have hid := selectExpenses_head_id s r.expenseId e he
  rw [act_found s now user rid action comments r e ha hr he] at h
  dsimp only at h
  refine ⟨r, hr, ?_⟩
  rw [← hid]
  split_ifs at h <;> injection h with h <;> subst h
  · show List.Forall₂ _ s.expenses (rejectExpense s.expenses e.id)
    unfold rejectExpense
    apply forall₂_map_self
    intro x _
    by_cases hx : x.id = e.id <;> simp [hx]
  · show List.Forall₂ _ s.expenses (overrideExpense s.expenses now user.userId e.id)
    unfold overrideExpense
    apply forall₂_map_self
    intro x _
    by_cases hx : x.id = e.id <;> simp [hx]
  · show List.Forall₂ _ s.expenses (finalizeExpense s.expenses now user.userId e.id)
    unfold finalizeExpense
    apply forall₂_map_self
    intro x _
    by_cases hx : x.id = e.id <;> simp [hx]
  · show List.Forall₂ _ s.expenses (advanceExpense s.expenses e.id)
    unfold advanceExpense
    apply forall₂_map_self
    intro x _
    by_cases hx : x.id = e.id <;> simp [hx]
  · show List.Forall₂ _ s.expenses s.expenses
    have := forall₂_map_self (fun x x' : Expense => x'.id = x.id ∧ (x.id ≠ e.id → x' = x))
      id s.expenses (fun x _ => ⟨rfl, fun _ => rfl⟩)
    rwa [List.map_id] at this

/-- In a table with distinct request ids, a successful action changes no
approval request of another expense than the one of the acted-upon request. -/
theorem act_frame_requests (s : State) (now : Nat) (user : Principal) (rid : Nat)
    (action : String) (comments : Option String) (s' : State)
    (hpk : (s.requests.map (fun x => x.id)).Nodup)
    (h : act s now user rid action comments = Except.ok s') :
    ∃ r, (selectOwnedRequests s rid user.userId).head? = some r ∧
      List.Forall₂ (fun q q' => q.expenseId ≠ r.expenseId → q' = q)
        s.requests s'.requests := by
  obtain ⟨ha, r, e, hr, he⟩ := act_ok_found s now user rid action comments s' h
  have hid := selectExpenses_head_id s r.expenseId e he
  have hrmem : r ∈ s.requests ∧ r.id = rid := by
    have hm : r ∈ selectOwnedRequests s rid user.userId := List.mem_of_mem_head? (by rw [hr]; rfl)
    have := List.mem_filter.mp hm
    exact ⟨this.1, (by simpa using this.2 : r.id = rid ∧ r.approverId = user.userId).1⟩
  have hother : ∀ q ∈ s.requests, q.expenseId ≠ r.expenseId → q.id ≠ rid := by
    intro q hq hne hqid
    have : q = r := List.inj_on_of_nodup_map hpk hq hrmem.1 (hqid.trans hrmem.2.symm)
    exact hne (by rw [this])
  rw [act_found s now user rid action comments r e ha hr he] at h
  dsimp only at h
  refine ⟨r, hr, ?_⟩
  have hmark : ∀ q ∈ s.requests, q.expenseId ≠ r.expenseId →
      (if q.id = rid then
        { q with
          status := if action = "approve" then Status.approved else Status.rejected
          comments := comments
          approvedAt := some now }
      else q) = q := fun q hq hne => if_neg (hother q hq hne)
  split_ifs at h <;> injection h with h <;> subst h
  · show List.Forall₂ _ s.requests
      (rejectPending (markRequest s.requests now rid action comments) e.id)
    unfold rejectPending markRequest
    rw [List.map_map]
    apply forall₂_map_self
    intro q hq hne
    simp only [Function.comp]
    rw [hmark q hq hne, if_neg (fun hc => hne (hc.1.trans hid))]
  · show List.Forall₂ _ s.requests
      (overridePending (markRequest s.requests now rid action comments) now e.id)
    unfold overridePending markRequest
    rw [List.map_map]
    apply forall₂_map_self
    intro q hq hne
    simp only [Function.comp]
    rw [hmark q hq hne, if_neg (fun hc => hne (hc.1.trans hid))]
  all_goals
    show List.Forall₂ _ s.requests (markRequest s.requests now rid action comments)
    unfold markRequest
    apply forall₂_map_self
    intro q hq hne
    exact hmark q hq hne

/-- A lookup by id sees the same rows in two tables that are related row by
row, keep the ids, and agree on the rows with that id. -/
theorem filter_id_of_forall₂ (k : Nat) (l l' : List Expense)
    (h : List.Forall₂ (fun x x' => x'.id = x.id ∧ (x.id = k → x' = x)) l l') :
    l'.filter (fun x => x.id = k) = l.filter (fun x => x.id = k) := by
  induction h with
  | nil => rfl
  | @cons a b l l' hab _ ih =>
    by_cases hk : a.id = k
    · have hb : b = a := hab.2 hk
      subst hb
      simp [List.filter_cons, hk, ih]
    · have hbk : ¬ b.id = k := by rw [hab.1]; exact hk
      simp [List.filter_cons, hk, hbk, ih]

/-- C25. Zero-step expenses stay pending: an expense with no steps that is
pending at step 1 and has no approval request is left as it is by every call
of the action handler, whatever the request id, the actor, the role and the
action: after the call it is still a row of the table, pending at step 1, and
the rows with its id are the ones there were. -/
theorem zero_step_stays_pending (s : State) (e : Expense) (now : Nat) (user : Principal)
    (rid : Nat) (action : String) (comments : Option String)
    (he : e ∈ s.expenses) (_htot : e.totalApprovalSteps = 0)
    (hst : e.status = Status.pending) (hstep : e.currentApprovalStep = 1)
    (hnone : ∀ r ∈ s.requests, r.expenseId ≠ e.id) :
    selectExpenses (stateAfter s [(now, user, rid, action, comments)]) e.id =
      selectExpenses s e.id ∧
    ∃ x ∈ (stateAfter s [(now, user, rid, action, comments)]).expenses,
      x = e ∧ x.status = Status.pending ∧ x.currentApprovalStep = 1 := by
  have hsel : selectExpenses (stateAfter s [(now, user, rid, action, comments)]) e.id =
      selectExpenses s e.id := by
    unfold stateAfter actAll
    cases hact : act s now user rid action comments with
    | error err => rfl
    | ok s' =>
      obtain ⟨r, hr, hrows⟩ := act_frame_expenses s now user rid action comments s' hact
      have hrsel : r ∈ selectOwnedRequests s rid user.userId :=
        List.mem_of_mem_head? (by rw [hr]; rfl)
      have hrmem : r ∈ s.requests := (List.mem_filter.mp hrsel).1
      have hne : r.expenseId ≠ e.id := hnone r hrmem
      show s'.expenses.filter (fun x => x.id = e.id) = s.expenses.filter (fun x => x.id = e.id)
      apply filter_id_of_forall₂
      refine hrows.imp ?_
      intro x x' hx
      exact ⟨hx.1, fun hxe => hx.2 (by rw [hxe]; exact fun hc => hne hc.symm)⟩
  refine ⟨hsel, e, ?_, rfl, hst, hstep⟩
  have hmem : e ∈ selectExpenses s e.id := List.mem_filter.mpr ⟨he, by simp⟩
  rw [← hsel] at hmem
  exact (List.mem_filter.mp hmem).1

/-- The expense of the employee without approvers, as submitted in
`demoLonely`: it has no steps and no request, and a director's call on request
1 leaves it pending at step 1. -/
theorem zero_step_stays_pending_witness :
    submit demoWorld demoLonely demoEmployee demoPayload LineItemsField.absent =
      some (demoLonelyState, { expenseId := 1, approvalSteps := 0 }) ∧
    newExpense 1 1 5 demoPayload ∈ demoLonelyState.expenses ∧
    (∀ r ∈ demoLonelyState.requests, r.expenseId ≠ (newExpense 1 1 5 demoPayload).id) ∧
    selectExpenses (stateAfter demoLonelyState [(100, demoDirector, 1, "approve", none)]) 1 =
      selectExpenses demoLonelyState 1 :=
  ⟨by decide, by decide, by decide,
    (zero_step_stays_pending demoLonelyState (newExpense 1 1 5 demoPayload) 100 demoDirector 1
      "approve" none (by decide) rfl rfl rfl (by decide)).1⟩

/-- C28. Expense isolation: in a table with distinct request ids, a successful
action on a request of an expense changes no row of another expense and no
approval request of another expense. -/
theorem act_isolates_expense (s : State) (now : Nat) (user : Principal) (rid : Nat)
    (action : String) (comments : Option String) (s' : State)
    (hpk : (s.requests.map (fun x => x.id)).Nodup)
    (h : act s now user rid action comments = Except.ok s') :
    ∃ r, (selectOwnedRequests s rid user.userId).head? = some r ∧
      List.Forall₂ (fun x x' => x.id ≠ r.expenseId → x' = x) s.expenses s'.expenses ∧
      List.Forall₂ (fun q q' => q.expenseId ≠ r.expenseId → q' = q) s.requests s'.requests := by
  obtain ⟨r, hr, hexp⟩ := act_frame_expenses s now user rid action comments s' h
  obtain ⟨r', hr', hreq⟩ := act_frame_requests s now user rid action comments s' hpk h
  have : r' = r := Option.some.inj (hr'.symm.trans hr)
  subst this
  exact ⟨r', hr, hexp.imp (fun _ _ hx => hx.2), hreq⟩


/-- The manager of the example rejecting request 1 of expense 1 while
expense 2 is pending with request 4: the request ids are distinct, the call
succeeds, and expense 2 and its request are as they were. -/
theorem act_isolates_expense_witness :
    (demoPairState.requests.map (fun x => x.id)).Nodup ∧
    act demoPairState 100 demoManager 1 "reject" (some "no") =
      Except.ok (stateAfter demoPairState [(100, demoManager, 1, "reject", some "no")]) ∧
    (∃ r, (selectOwnedRequests demoPairState 1 demoManager.userId).head? = some r ∧
      List.Forall₂ (fun x x' => x.id ≠ r.expenseId → x' = x) demoPairState.expenses
        (stateAfter demoPairState [(100, demoManager, 1, "reject", some "no")]).expenses ∧
      List.Forall₂ (fun q q' => q.expenseId ≠ r.expenseId → q' = q) demoPairState.requests
        (stateAfter demoPairState [(100, demoManager, 1, "reject", some "no")]).requests) ∧
    selectExpenses (stateAfter demoPairState [(100, demoManager, 1, "reject", some "no")]) 2 =
      selectExpenses demoPairState 2 :=
  ⟨by decide, rfl,
    act_isolates_expense demoPairState 100 demoManager 1 "reject" (some "no") _ (by decide) rfl,
    by decide⟩

/-- The example of a request that meets the four conditions and is not listed:
after employee 5 has submitted an expense whose category has no row in
`expense_categories`, request 1 is the manager's, it is pending, its expense is
pending and its step order is the current step of the expense, and the listing
of the manager is empty (C26). -/
theorem pending_listing_counterexample :
    submit demoWorld demoEmpty demoEmployee { demoPayload with categoryId := "99" }
      LineItemsField.absent =
      some (demoUncategorised, { expenseId := 1, approvalSteps := 3 }) ∧
    demoRequest 1 7 ∈ demoUncategorised.requests ∧
    (demoRequest 1 7).approverId = 7 ∧
    (demoRequest 1 7).status = Status.pending ∧
    (∃ e ∈ demoUncategorised.expenses, e.id = (demoRequest 1 7).expenseId ∧
      e.status = Status.pending ∧ (demoRequest 1 7).stepOrder = e.currentApprovalStep) ∧
    pendingApprovals demoCollaborators demoUncategorised 7 = [] :=
  ⟨by decide, by decide, rfl, rfl, by decide, by decide⟩

/-- C26, amended. Pending-approvals listing: the rows listed for a user are
exactly the pairs of an approval request and its expense such that the
submitter of the expense has a row in `users`, the category of the expense has
a row in `expense_categories`, the approver of the request is the user, the
request is pending, the expense is pending, and the step order of the request
is the current step of the expense. -/
theorem pendingApprovals_iff (c : Collaborators) (s : State) (userId : Nat)
    (ar : ApprovalRequest) (e : Expense) :
    (ar, e) ∈ pendingApprovals c s userId ↔
      ar ∈ s.requests ∧ e ∈ s.expenses ∧ e.id = ar.expenseId ∧
      (∃ u ∈ s.users, u.id = e.employeeId) ∧ e.payload.categoryId ∈ c.categories ∧
      ar.approverId = userId ∧ ar.status = Status.pending ∧ e.status = Status.pending ∧
      ar.stepOrder = e.currentApprovalStep := by
  unfold pendingApprovals
  simp only [List.mem_dedup, List.mem_flatMap, List.mem_map, List.mem_filter, Prod.mk.injEq,
    decide_eq_true_eq, Bool.decide_and, Bool.and_eq_true, List.any_eq_true]
  constructor
  · rintro ⟨ar', har', e', ⟨he', h1, ⟨u, hu, hue⟩, ⟨k, hk, hke⟩, h4, h5, h6, h7⟩, rfl, rfl⟩
    exact ⟨har', he', h1.symm, ⟨u, hu, hue.symm⟩, hke ▸ hk, h4, h5, h6, h7⟩
  · rintro ⟨har, he, h1, ⟨u, hu, hue⟩, hcat, h4, h5, h6, h7⟩
    exact ⟨ar, har, e, ⟨he, h1.symm, ⟨u, hu, hue.symm⟩, ⟨_, hcat, rfl⟩, h4, h5, h6, h7⟩,
      rfl, rfl⟩

/-- The example after the manager's approval: the finance user's request 2, at
the current step 2, is listed for the finance user, and nothing is listed for
the director, whose request 3 is not at the current step. -/
theorem pendingApprovals_iff_witness :
    (demoRequest 2 8, { demoExpense with currentApprovalStep := 2 }) ∈
      pendingApprovals demoCollaborators demoMidState 8 ∧
    pendingApprovals demoCollaborators demoMidState 9 = [] :=
  ⟨(pendingApprovals_iff demoCollaborators demoMidState 8
      (demoRequest 2 8) { demoExpense with currentApprovalStep := 2 }).mpr (by decide),
    by decide⟩

/-! ## Orders of approval -/

/-- The facts about an expense whose requests are the rows of `order`, all
pending, in a table with distinct ids: the counts are the length, none and the
length, the rows are in the table for that expense, and their ids are
distinct. -/
theorem fresh_requests_facts (s : State) (eid : Nat) (order : List ApprovalRequest)
    (hpk : (s.requests.map (fun x => x.id)).Nodup)
    (hperm : List.Perm order (s.requests.filter (fun q => q.expenseId = eid)))
    (hpend : ∀ q ∈ order, q.status = Status.pending) :
    (approvalStats s.requests eid).total = order.length ∧
    (approvalStats s.requests eid).approved = 0 ∧
    (approvalStats s.requests eid).pending = order.length ∧
    (∀ q ∈ order, q ∈ s.requests ∧ q.expenseId = eid ∧ q.status = Status.pending) ∧
    (order.map (fun x => x.id)).Nodup := by
  have hin : ∀ q, q ∈ s.requests.filter (fun q => q.expenseId = eid) → q ∈ order :=
    fun q hq => hperm.symm.subset hq
  refine ⟨hperm.length_eq.symm, ?_, ?_, ?_, ?_⟩
  · show List.countP _ _ = 0
    rw [List.countP_eq_zero]
    intro q hq
    simp [hpend q (hin q hq)]
  · show List.countP _ _ = _
    rw [hperm.length_eq, List.countP_eq_length]
    intro q hq
    simp [hpend q (hin q hq)]
  · intro q hq
    have := List.mem_filter.mp (hperm.subset hq)
    exact ⟨this.1, by simpa using this.2, hpend q hq⟩
  · have hsub : ((s.requests.filter (fun q => q.expenseId = eid)).map (fun x => x.id)).Sublist
        (s.requests.map (fun x => x.id)) := (List.filter_sublist _).map _
    exact ((hperm.map (fun x => x.id)).nodup_iff).mpr (hpk.sublist hsub)

/-- Two approvals, neither by a director, of the two pending requests of an
expense that is pending at step 1 of 2, in a table with distinct ids: the first
succeeds and leaves the expense pending at step 2, the second succeeds and
leaves every request of the expense approved and the expense at step 2,
approved when the driver hands the sums over as numbers and still pending when
it does not. -/
theorem two_step_run (s : State) (eid : Nat) (e : Expense) (qa qb : ApprovalRequest)
    (nowa nowb : Nat) (ua ub : Principal) (ca cb : Option String)
    (hnd : (s.requests.map (fun x => x.id)).Nodup)
    (he : (selectExpenses s eid).head? = some e)
    (htot : e.totalApprovalSteps = 2) (hst : e.status = Status.pending)
    (hstep : e.currentApprovalStep = 1)
    (hT : (approvalStats s.requests eid).total = 2)
    (hA : (approvalStats s.requests eid).approved = 0)
    (hP : (approvalStats s.requests eid).pending = 2)
    (hqa : qa ∈ s.requests ∧ qa.expenseId = eid ∧ qa.status = Status.pending)
    (hqb : qb ∈ s.requests ∧ qb.expenseId = eid ∧ qb.status = Status.pending)
    (hne : qb.id ≠ qa.id)
    (hua : ua.userId = qa.approverId) (hub : ub.userId = qb.approverId)
    (hra : ua.role ≠ "director") (hrb : ub.role ≠ "director") :
    ∃ s1 e1 s2 e2,
      act s nowa ua qa.id "approve" ca = Except.ok s1 ∧
      (selectExpenses s1 eid).head? = some e1 ∧
      e1.status = Status.pending ∧ e1.currentApprovalStep = 2 ∧
      act s1 nowb ub qb.id "approve" cb = Except.ok s2 ∧
      (selectExpenses s2 eid).head? = some e2 ∧
      e2.status = (if s.decimalNumbers = true then Status.approved else Status.pending) ∧
      e2.currentApprovalStep = 2 ∧
      ∀ q ∈ s2.requests, q.expenseId = eid → q.status = Status.approved := by
  obtain ⟨s1, e1, hact1, hreq1, he1, htot1, hlt1, _, hT1, hA1, hP1⟩ :=
    approve_step 2 eid s e 0 1 nowa ua ca qa hnd he htot hst (by simp [hstep]) hT hA hP rfl
      hqa.1 hqa.2.1 hqa.2.2 hua hra
  obtain ⟨hst1, hstep1⟩ := hlt1 (by omega)
  have hnd1 : (s1.requests.map (fun x => x.id)).Nodup := by
    rw [hreq1, map_id_markRequest]; exact hnd
  have hqb1 : qb ∈ s1.requests := by
    rw [hreq1]
    exact mem_markRequest_of_ne s.requests nowa qa.id "approve" ca qb hqb.1 hne
  obtain ⟨s2, e2, hact2, _, he2, _, _, heq2, hT2, hA2, _⟩ :=
    approve_step 2 eid s1 e1 1 0 nowb ub cb qb hnd1 he1 htot1 hst1 hstep1 hT1 hA1 hP1 rfl
      hqb1 hqb.2.1 hqb.2.2 hub hrb
  rw [act_ok_decimalNumbers s _ _ _ _ _ s1 hact1] at heq2
  obtain ⟨hst2, hstep2⟩ := heq2 rfl
  refine ⟨s1, e1, s2, e2, hact1, he1, hst1, hstep1, hact2, he2, hst2, hstep2, ?_⟩
  have hall : (s2.requests.filter (fun r => r.expenseId = eid)).countP
      (fun r => r.status = Status.approved) =
      (s2.requests.filter (fun r => r.expenseId = eid)).length := hA2.trans hT2.symm
  rw [List.countP_eq_length] at hall
  intro q hq hqe
  have := hall q (List.mem_filter.mpr ⟨hq, by simp [hqe]⟩)
  simpa using this

/-- Two approvals in either order: take a table with distinct request ids and
an expense that is pending at step 1 of 2, whose requests are `r1` and `r2`,
both pending, and two principals that are their approvers and not directors.
Approving `r1` then `r2`, and approving `r2` then `r1`, both succeed; in both
orders the expense is pending at step 2 after the first approval, and after the
second every request of the expense is approved and the expense is at step 2,
approved when the driver hands the sums over as numbers and still pending when
it does not. -/
theorem two_step_orders_agree (s : State) (eid : Nat) (e : Expense)
    (r1 r2 : ApprovalRequest) (now1 now2 : Nat) (u1 u2 : Principal) (c1 c2 : Option String)
    (hpk : (s.requests.map (fun x => x.id)).Nodup)
    (he : (selectExpenses s eid).head? = some e)
    (hst : e.status = Status.pending) (hstep : e.currentApprovalStep = 1)
    (htot : e.totalApprovalSteps = 2)
    (hperm : List.Perm [r1, r2] (s.requests.filter (fun q => q.expenseId = eid)))
    (hp1 : r1.status = Status.pending) (hp2 : r2.status = Status.pending)
    (hu1 : u1.userId = r1.approverId) (hu2 : u2.userId = r2.approverId)
    (hr1 : u1.role ≠ "director") (hr2 : u2.role ≠ "director") :
    (∃ s1 e1 s2 e2,
      act s now1 u1 r1.id "approve" c1 = Except.ok s1 ∧
      (selectExpenses s1 eid).head? = some e1 ∧
      e1.status = Status.pending ∧ e1.currentApprovalStep = 2 ∧
      act s1 now2 u2 r2.id "approve" c2 = Except.ok s2 ∧
      (selectExpenses s2 eid).head? = some e2 ∧
      e2.status = (if s.decimalNumbers = true then Status.approved else Status.pending) ∧
      e2.currentApprovalStep = 2 ∧
      ∀ q ∈ s2.requests, q.expenseId = eid → q.status = Status.approved) ∧
    (∃ s1 e1 s2 e2,
      act s now1 u2 r2.id "approve" c2 = Except.ok s1 ∧
      (selectExpenses s1 eid).head? = some e1 ∧
      e1.status = Status.pending ∧ e1.currentApprovalStep = 2 ∧
      act s1 now2 u1 r1.id "approve" c1 = Except.ok s2 ∧
      (selectExpenses s2 eid).head? = some e2 ∧
      e2.status = (if s.decimalNumbers = true then Status.approved else Status.pending) ∧
      e2.currentApprovalStep = 2 ∧
      ∀ q ∈ s2.requests, q.expenseId = eid → q.status = Status.approved) := by
  obtain ⟨hT, hA, hP, hmem, hond⟩ := fresh_requests_facts s eid [r1, r2] hpk hperm
    (by intro q hq
        simp only [List.mem_cons, List.mem_singleton, List.not_mem_nil, or_false] at hq
        rcases hq with rfl | rfl
        · exact hp1
        · exact hp2)
  have hq1 := hmem r1 (by simp)
  have hq2 := hmem r2 (by simp)
  have hne : r1.id ≠ r2.id := by
    simp only [List.map_cons, List.map_nil, List.nodup_cons, List.mem_singleton] at hond
    exact hond.1
  exact ⟨two_step_run s eid e r1 r2 now1 now2 u1 u2 c1 c2 hpk he htot hst hstep hT hA hP hq1 hq2
      hne.symm hu1 hu2 hr1 hr2,
    two_step_run s eid e r2 r1 now1 now2 u2 u1 c2 c1 hpk he htot hst hstep hT hA hP hq2 hq1
      hne hu2 hu1 hr2 hr1⟩

/-- The two-step example with the manager and the finance user, on a pool
created with `decimalNumbers`: the hypotheses of `two_step_orders_agree` hold,
and both orders end with the expense approved at step 2. -/
theorem two_step_orders_agree_witness :
    (demoTwoNumbers.requests.map (fun x => x.id)).Nodup ∧
    (selectExpenses demoTwoNumbers 1).head? =
      some { demoExpense with totalApprovalSteps := 2 } ∧
    List.Perm [demoRequest 1 7, demoRequest 2 8]
      (demoTwoNumbers.requests.filter (fun q => q.expenseId = 1)) ∧
    ∃ s1 e1 s2 e2,
      act demoTwoNumbers 100 demoFinance 2 "approve" none = Except.ok s1 ∧
      (selectExpenses s1 1).head? = some e1 ∧
      e1.status = Status.pending ∧ e1.currentApprovalStep = 2 ∧
      act s1 101 demoManager 1 "approve" none = Except.ok s2 ∧
      (selectExpenses s2 1).head? = some e2 ∧
      e2.status = Status.approved ∧ e2.currentApprovalStep = 2 ∧
      ∀ q ∈ s2.requests, q.expenseId = 1 → q.status = Status.approved :=
  ⟨by decide, by decide, List.Perm.refl _,
    (two_step_orders_agree demoTwoNumbers 1
      { demoExpense with totalApprovalSteps := 2 }
      (demoRequest 1 7) (demoRequest 2 8) 100 101 demoManager demoFinance none none
      (by decide) (by decide) rfl rfl rfl (List.Perm.refl _) rfl rfl rfl rfl (by decide)
      (by decide)).2⟩

/-- C30. The two-step expense of `demoTwoState`, pending at step 1 with both
requests pending, on a pool with the driver's defaults, approved by the manager
and the finance user, neither a director: in both orders the two calls succeed,
the first approval leaves the expense pending at step 2, and the second leaves
both requests approved and the expense still pending at step 2.  On a pool
created with `decimalNumbers` both orders end with the expense approved at
step 2. -/
theorem two_step_approvals_not_finalized :
    demoTwoState.decimalNumbers = false ∧
    actAll demoTwoState
      [(100, demoManager, 1, "approve", none), (101, demoFinance, 2, "approve", none)] =
      Except.ok
        (stateAfter demoTwoState
          [(100, demoManager, 1, "approve", none), (101, demoFinance, 2, "approve", none)]) ∧
    actAll demoTwoState
      [(100, demoFinance, 2, "approve", none), (101, demoManager, 1, "approve", none)] =
      Except.ok
        (stateAfter demoTwoState
          [(100, demoFinance, 2, "approve", none), (101, demoManager, 1, "approve", none)]) ∧
    (stateAfter demoTwoState [(100, demoManager, 1, "approve", none)]).expenses.map
      (fun x => (x.status, x.currentApprovalStep)) = [(Status.pending, 2)] ∧
    (stateAfter demoTwoState [(100, demoFinance, 2, "approve", none)]).expenses.map
      (fun x => (x.status, x.currentApprovalStep)) = [(Status.pending, 2)] ∧
    (stateAfter demoTwoState
        [(100, demoManager, 1, "approve", none), (101, demoFinance, 2, "approve", none)]
      ).requests.map (fun q => q.status) = [Status.approved, Status.approved] ∧
    (stateAfter demoTwoState
        [(100, demoFinance, 2, "approve", none), (101, demoManager, 1, "approve", none)]
      ).requests.map (fun q => q.status) = [Status.approved, Status.approved] ∧
    (stateAfter demoTwoState
        [(100, demoManager, 1, "approve", none), (101, demoFinance, 2, "approve", none)]
      ).expenses.map (fun x => (x.status, x.currentApprovalStep, x.finalApprovedBy)) =
      [(Status.pending, 2, none)] ∧
    (stateAfter demoTwoState
        [(100, demoFinance, 2, "approve", none), (101, demoManager, 1, "approve", none)]
      ).expenses.map (fun x => (x.status, x.currentApprovalStep, x.finalApprovedBy)) =
      [(Status.pending, 2, none)] ∧
    (stateAfter demoTwoNumbers
        [(100, demoManager, 1, "approve", none), (101, demoFinance, 2, "approve", none)]
      ).expenses.map (fun x => (x.status, x.currentApprovalStep, x.finalApprovedBy)) =
      [(Status.approved, 2, some 8)] ∧
    (stateAfter demoTwoNumbers
        [(100, demoFinance, 2, "approve", none), (101, demoManager, 1, "approve", none)]
      ).expenses.map (fun x => (x.status, x.currentApprovalStep, x.finalApprovedBy)) =
      [(Status.approved, 2, some 7)] :=
  ⟨rfl, rfl, rfl, by decide, by decide, by decide, by decide, by decide, by decide, by decide,
    by decide⟩

/-- The example of a four-step chain that ends at step 3: after the manager
and the finance user have approved requests 1 and 2, the expense is pending at
step 3; the director then approves request 3, and the expense is approved at
step 4 of 4 with the override flag and the admin's request 4 approved with the
override comment, although the admin has not acted (C27). -/
theorem director_before_admin_counterexample :
    submit demoWorld demoFourEmpty demoEmployee demoPayload LineItemsField.absent =
      some (demoFourState, { expenseId := 1, approvalSteps := 4 }) ∧
    demoFourState.requests.map (fun r => (r.stepOrder, r.approverId)) =
      [(1, 7), (2, 8), (3, 9), (4, 10)] ∧
    (stateAfter demoFourState
        [(100, demoManager, 1, "approve", none), (101, demoFinance, 2, "approve", none)]
      ).expenses.map (fun x => (x.status, x.currentApprovalStep)) = [(Status.pending, 3)] ∧
    actAll demoFourState
        [(100, demoManager, 1, "approve", none), (101, demoFinance, 2, "approve", none),
         (102, demoDirector, 3, "approve", none)] =
      Except.ok
        (stateAfter demoFourState
          [(100, demoManager, 1, "approve", none), (101, demoFinance, 2, "approve", none),
           (102, demoDirector, 3, "approve", none)]) ∧
    (stateAfter demoFourState
        [(100, demoManager, 1, "approve", none), (101, demoFinance, 2, "approve", none),
         (102, demoDirector, 3, "approve", none)]
      ).expenses.map (fun x => (x.status, x.currentApprovalStep, x.directorOverride)) =
      [(Status.approved, 4, true)] ∧
    (stateAfter demoFourState
        [(100, demoManager, 1, "approve", none), (101, demoFinance, 2, "approve", none),
         (102, demoDirector, 3, "approve", none)]
      ).requests.map (fun r => (r.stepOrder, r.status, r.comments)) =
      [(1, Status.approved, none), (2, Status.approved, none), (3, Status.approved, none),
       (4, Status.approved, some overrideComment)] :=
  ⟨by decide, by decide, by decide, rfl, by decide, by decide⟩

/-- C27, amended. Take a table with distinct request ids and an expense that is
pending at step 1 of 4, whose requests `r1`, `r2`, `r3`, `r4` are all pending.
When the approvers of `r1` and `r2` approve without the director role, the
expense is pending after each of them, at step 3 after the second; when the
approver of `r3` then approves with the director role, the expense is approved
at once, at step 4 with the override flag and the director as final approver,
and the request `r4` is approved with the override comment, before its
approver has acted. -/
theorem director_ends_four_step_chain (s : State) (eid : Nat) (e : Expense)
    (r1 r2 r3 r4 : ApprovalRequest) (now1 now2 now3 : Nat) (u1 u2 u3 : Principal)
    (c1 c2 c3 : Option String)
    (hpk : (s.requests.map (fun x => x.id)).Nodup)
    (he : (selectExpenses s eid).head? = some e)
    (hst : e.status = Status.pending) (hstep : e.currentApprovalStep = 1)
    (htot : e.totalApprovalSteps = 4)
    (hperm : List.Perm [r1, r2, r3, r4] (s.requests.filter (fun q => q.expenseId = eid)))
    (hpend : ∀ q ∈ [r1, r2, r3, r4], q.status = Status.pending)
    (hu1 : u1.userId = r1.approverId) (hu2 : u2.userId = r2.approverId)
    (hu3 : u3.userId = r3.approverId)
    (hr1 : u1.role ≠ "director") (hr2 : u2.role ≠ "director") (hr3 : u3.role = "director") :
    ∃ s1 e1 s2 e2 s3,
      act s now1 u1 r1.id "approve" c1 = Except.ok s1 ∧
      (selectExpenses s1 eid).head? = some e1 ∧ e1.status = Status.pending ∧
      act s1 now2 u2 r2.id "approve" c2 = Except.ok s2 ∧
      (selectExpenses s2 eid).head? = some e2 ∧ e2.status = Status.pending ∧
      e2.currentApprovalStep = 3 ∧
      act s2 now3 u3 r3.id "approve" c3 = Except.ok s3 ∧
      (selectExpenses s3 eid).head? =
        some { e2 with
          status := Status.approved
          finalApprovedAt := some now3
          finalApprovedBy := some u3.userId
          directorOverride := true
          currentApprovalStep := 4 } ∧
      ({ r4 with
          status := Status.approved
          comments := some overrideComment
          approvedAt := some now3 } : ApprovalRequest) ∈ s3.requests := by
  obtain ⟨hT, hA, hP, hmem, hond⟩ := fresh_requests_facts s eid [r1, r2, r3, r4] hpk hperm hpend
  have hq1 := hmem r1 (by simp)
  have hq2 := hmem r2 (by simp)
  have hq3 := hmem r3 (by simp)
  have hq4 := hmem r4 (by simp)
  simp only [List.map_cons, List.map_nil, List.nodup_cons, List.mem_cons, List.mem_singleton,
    List.not_mem_nil, or_false, not_or, List.nodup_nil, and_true] at hond
  obtain ⟨⟨h12, h13, h14⟩, ⟨h23, h24⟩, h34⟩ := hond
  simp only [List.length_cons, List.length_nil] at hT hP
  -- the manager's approval
  obtain ⟨s1, e1, hact1, hreq1, he1, htot1, hlt1, _, hT1, hA1, hP1⟩ :=
    approve_step 4 eid s e 0 3 now1 u1 c1 r1 hpk he htot hst (by simp [hstep]) hT hA hP rfl
      hq1.1 hq1.2.1 hq1.2.2 hu1 hr1
  obtain ⟨hst1, hstep1⟩ := hlt1 (by omega)
  have hnd1 : (s1.requests.map (fun x => x.id)).Nodup := by
    rw [hreq1, map_id_markRequest]; exact hpk
  have keep1 : ∀ q ∈ s.requests, q.id ≠ r1.id → q ∈ s1.requests := by
    intro q hq hne
    rw [hreq1]
    exact mem_markRequest_of_ne s.requests now1 r1.id "approve" c1 q hq hne
  -- the finance user's approval
  obtain ⟨s2, e2, hact2, hreq2, he2, htot2, hlt2, _, _, _, _⟩ :=
    approve_step 4 eid s1 e1 1 2 now2 u2 c2 r2 hnd1 he1 htot1 hst1 hstep1 hT1 hA1 hP1 rfl
      (keep1 r2 hq2.1 (Ne.symm h12)) hq2.2.1 hq2.2.2 hu2 hr2
  obtain ⟨hst2, hstep2⟩ := hlt2 (by omega)
  have hnd2 : (s2.requests.map (fun x => x.id)).Nodup := by
    rw [hreq2, map_id_markRequest]; exact hnd1
  have keep2 : ∀ q ∈ s1.requests, q.id ≠ r2.id → q ∈ s2.requests := by
    intro q hq hne
    rw [hreq2]
    exact mem_markRequest_of_ne s1.requests now2 r2.id "approve" c2 q hq hne
  have hq3' : r3 ∈ s2.requests := keep2 r3 (keep1 r3 hq3.1 (Ne.symm h13)) (Ne.symm h23)
  have hq4' : r4 ∈ s2.requests := keep2 r4 (keep1 r4 hq4.1 (Ne.symm h14)) (Ne.symm h24)
  -- the director's approval
  have hr : (selectOwnedRequests s2 r3.id u3.userId).head? = some r3 := by
    rw [hu3]; exact selectOwned_of_mem r3 s2.requests hnd2 hq3'
  have he2' : (selectExpenses s2 r3.expenseId).head? = some e2 := by rw [hq3.2.1]; exact he2
  have hid : e2.id = eid := selectExpenses_head_id s2 eid e2 he2
  have he2f : (s2.expenses.filter (fun x => x.id = eid)).head? = some e2 := he2
  have hact3 := act_found s2 now3 u3 r3.id "approve" c3 r3 e2 (Or.inl rfl) hr he2'
  dsimp only at hact3
  rw [if_neg (by decide), if_pos hr3, hid] at hact3
  refine ⟨s1, e1, s2, e2, _, hact1, he1, hst1, hact2, he2, hst2, by omega, hact3, ?_, ?_⟩
  · show ((overrideExpense s2.expenses now3 u3.userId eid).filter
      (fun x => x.id = eid)).head? = _
    unfold overrideExpense
    rw [head?_filter_map_key Expense.id _ (fun a => by split <;> rfl), he2f]
    simp [hid, htot2]
  · show _ ∈ overridePending (markRequest s2.requests now3 r3.id "approve" c3) now3 eid
    unfold overridePending
    refine List.mem_map.mpr ⟨r4, ?_, ?_⟩
    · exact mem_markRequest_of_ne s2.requests now3 r3.id "approve" c3 r4 hq4' (Ne.symm h34.1)
    · rw [if_pos ⟨hq4.2.1, hq4.2.2⟩]

/-- The four-step example: the hypotheses of `director_ends_four_step_chain`
hold for the manager, the finance user and the director, so the director's
approval at step 3 ends the chain. -/
theorem director_ends_four_step_chain_witness :
    (demoFourState.requests.map (fun x => x.id)).Nodup ∧
    (selectExpenses demoFourState 1).head? = some { demoExpense with totalApprovalSteps := 4 } ∧
    List.Perm [demoRequest 1 7, demoRequest 2 8, demoRequest 3 9, demoRequest 4 10]
      (demoFourState.requests.filter (fun q => q.expenseId = 1)) ∧
    ∃ s1 e1 s2 e2 s3,
      act demoFourState 100 demoManager 1 "approve" none = Except.ok s1 ∧
      (selectExpenses s1 1).head? = some e1 ∧ e1.status = Status.pending ∧
      act s1 101 demoFinance 2 "approve" none = Except.ok s2 ∧
      (selectExpenses s2 1).head? = some e2 ∧ e2.status = Status.pending ∧
      e2.currentApprovalStep = 3 ∧
      act s2 102 demoDirector 3 "approve" none = Except.ok s3 ∧
      (selectExpenses s3 1).head? =
        some { e2 with
          status := Status.approved
          finalApprovedAt := some 102
          finalApprovedBy := some 9
          directorOverride := true
          currentApprovalStep := 4 } ∧
      ({ demoRequest 4 10 with
          status := Status.approved
          comments := some overrideComment
          approvedAt := some 102 } : ApprovalRequest) ∈ s3.requests :=
  ⟨by decide, by decide, List.Perm.refl _,
    director_ends_four_step_chain demoFourState 1 { demoExpense with totalApprovalSteps := 4 }
      (demoRequest 1 7) (demoRequest 2 8) (demoRequest 3 9) (demoRequest 4 10) 100 101 102
      demoManager demoFinance demoDirector none none none
      (by decide) (by decide) rfl rfl rfl (List.Perm.refl _) (by decide) rfl rfl rfl
      (by decide) (by decide) rfl⟩

end ExpenseManag
